import Mathlib

/-!
# henge: the OpenShift transformer (`pkg/transformers/openshift/openshift.go`)

A shallow embedding of the transformation engine: the colocation solver
(`updateVolumes`, `updatePodsList`), the port parser (`extractFirstPorts`), the
container configuration callback of `updateDeploymentConfigs`, the build
pipeline phase (`updateBuildPipeline`), the service phase
(`updateServiceObjects`) and the volumes-from propagation loop of `Transform`.

Conventions of the embedding

* Go `string` is `String`; `strings.Split` and `strings.SplitN` are only ever
  called with a one-byte separator and are defined on the character list.
* `sets.String` is a list of members read up to membership; `List()` sorts it.
* A Go `map[string]T` is an association list read through `GoMap.get`. Where a
  `range` over a map is embedded, the order of the list stands for the order
  the Go runtime happens to pick, or the order is an explicit argument.
* `int64` values are `Int`; the two multiplications of the callback wrap
  modulo `2^64` (`wrapInt64`) and division truncates (`Int.tdiv`).
* A function whose Go body can hit a nil pointer returns `Option`, `none`
  standing for the runtime panic.
* Calls into other packages (origin `app`, `git`, `dockerfile`, `filepath`)
  are fields of `Collaborators`; `net.ParseIP` and `app.ParseEnvironment` are
  explicit arguments of the functions that call them.
-/

namespace Henge

/-! ## Strings -/

/-- Byte-wise lexicographic order of Go strings (`a <= b`), which on valid
UTF-8 is the order by code points. -/
def leChars : List Char → List Char → Bool
  | [], _ => true
  | _ :: _, [] => false
  | a :: as, b :: bs =>
    if a.toNat < b.toNat then true
    else if b.toNat < a.toNat then false
    else leChars as bs

/-- Order used by `sort.Strings`. -/
def strLe (a b : String) : Prop := leChars a.data b.data = true

instance : DecidableRel strLe := fun a b => by unfold strLe; infer_instance

/-- Go `sort.Strings`. -/
def sortStrings (l : List String) : List String := List.insertionSort strLe l

/-- Character-level `strings.Split(s, sep)` for a one-character separator. -/
def splitChars (sep : Char) : List Char → List (List Char)
  | [] => [[]]
  | c :: cs =>
    if c = sep then [] :: splitChars sep cs
    else match splitChars sep cs with
      | [] => [[c]]
      | seg :: segs => (c :: seg) :: segs

/-- Character-level `strings.SplitN(s, sep, n)` for a one-character separator
and `n ≥ 0`: at most `n` pieces, the last one being the unsplit remainder. -/
def splitNChars (sep : Char) : Nat → List Char → List (List Char)
  | 0, _ => []
  | 1, s => [s]
  | _ + 2, [] => [[]]
  | n + 2, c :: cs =>
    if c = sep then [] :: splitNChars sep (n + 1) cs
    else match splitNChars sep (n + 2) cs with
      | [] => [[c]]
      | seg :: segs => (c :: seg) :: segs

/-- Go `strings.Split(s, sep)` with `sep` a single character. -/
def Split (s : String) (sep : Char) : List String :=
  (splitChars sep s.data).map String.mk

/-- Go `strings.SplitN(s, sep, n)` with `sep` a single character. -/
def SplitN (s : String) (sep : Char) (n : Nat) : List String :=
  (splitNChars sep n s.data).map String.mk

/-- Go `strings.HasPrefix(s, p)`. -/
def startsWith (s p : String) : Bool := p.data.isPrefixOf s.data

/-- Value of a decimal digit. -/
def digitVal (c : Char) : Option Nat :=
  if 48 ≤ c.toNat ∧ c.toNat ≤ 57 then some (c.toNat - 48) else none

/-- Value of a string of decimal digits, `acc` being the value read so far. -/
def parseDigits : List Char → Nat → Option Nat
  | [], acc => some acc
  | c :: cs, acc =>
    match digitVal c with
    | none => none
    | some d => parseDigits cs (acc * 10 + d)

/-- Go `strconv.Atoi` on a 64-bit platform: an optional sign, at least one
decimal digit, nothing else, and a value that fits `int`; `none` is `err != nil`. -/
def Atoi (s : String) : Option Int :=
  let signed : Bool × List Char :=
    match s.data with
    | '+' :: r => (false, r)
    | '-' :: r => (true, r)
    | r => (false, r)
  match signed.2 with
  | [] => none
  | d :: ds =>
    match parseDigits (d :: ds) 0 with
    | none => none
    | some n =>
      let v : Int := if signed.1 then -(n : Int) else (n : Int)
      if -9223372036854775808 ≤ v ∧ v ≤ 9223372036854775807 then some v else none

/-- Two-complement wrap of an integer into the `int64` range. -/
def wrapInt64 (x : Int) : Int :=
  (x + 9223372036854775808) % 18446744073709551616 - 9223372036854775808

/-- Go `fmt.Sprintf("dir-%d", n)` for a non-negative `n`. -/
def dirName (n : Nat) : String := "dir-" ++ toString n

/-! ## `sets.String` and Go maps -/

/-- The `sets.String` type of the Kubernetes utility package. -/
abbrev StringSet := List String

/-- Go `sets.NewString(items...)`. -/
def NewString (items : List String) : StringSet := items.dedup

/-- Go `s.Insert(items...)`. -/
def StringSet.Insert (s : StringSet) (items : List String) : StringSet :=
  items.foldl (fun acc x => if x ∈ acc then acc else acc ++ [x]) s

/-- Go `s.Intersection(t)`. -/
def StringSet.Intersection (s t : StringSet) : StringSet :=
  (s.filter (fun x => decide (x ∈ t))).dedup

/-- Go `s.Len()`. -/
def StringSet.Len (s : StringSet) : Nat := s.dedup.length

/-- Go `s.List()`: the members in sorted order. -/
def StringSet.List (s : StringSet) : List String := sortStrings s.dedup

/-- A Go `map[string]β`. -/
abbrev GoMap (β : Type) := List (String × β)

/-- Go `m[k]` with the presence flag. -/
def GoMap.get {β : Type} (m : GoMap β) (k : String) : Option β :=
  match m with
  | [] => none
  | (k', v) :: rest => if k' = k then some v else GoMap.get rest k

/-- Go `m[k] = v`. -/
def GoMap.set {β : Type} (m : GoMap β) (k : String) (v : β) : GoMap β :=
  match m with
  | [] => [(k, v)]
  | (k', v') :: rest => if k' = k then (k, v) :: rest else (k', v') :: GoMap.set rest k v

/-- The keys of a Go map. -/
def GoMap.keys {β : Type} (m : GoMap β) : List String := (m.map Prod.fst).dedup

/-! ## Input: the compose project -/

/-- The fields of libcompose `project.ServiceConfig` that the transformer
reads. `Command`, `Entrypoint`, `Environment`, `Links`, `DNS`, `DNSSearch` and
`Labels` are given by the slice their accessor returns. -/
structure ServiceConfig where
  Build : String := ""
  CapAdd : List String := []
  CapDrop : List String := []
  CgroupParent : String := ""
  CPUQuota : Int := 0
  CPUSet : String := ""
  CPUShares : Int := 0
  Command : List String := []
  ContainerName : String := ""
  Devices : List String := []
  DNS : List String := []
  DNSSearch : List String := []
  DomainName : String := ""
  Entrypoint : List String := []
  Environment : List String := []
  Hostname : String := ""
  Image : String := ""
  Labels : List String := []
  Links : List String := []
  LogDriver : String := ""
  MacAddress : String := ""
  MemLimit : Int := 0
  MemSwapLimit : Int := 0
  Net : String := ""
  Pid : String := ""
  Uts : String := ""
  Ipc : String := ""
  Ports : List String := []
  Privileged : Bool := false
  Restart : String := ""
  ReadOnly : Bool := false
  StdinOpen : Bool := false
  SecurityOpt : List String := []
  Tty : Bool := false
  User : String := ""
  VolumeDriver : String := ""
  Volumes : List String := []
  VolumesFrom : List String := []
  WorkingDir : String := ""
  ExternalLinks : List String := []
  LogOpt : List (String × String) := []
  ExtraHosts : List String := []
  Ulimits : List String := []
  deriving DecidableEq, Repr

/-- The libcompose `project.Project`: its name and `Configs`. -/
structure Project where
  Name : String := ""
  Configs : GoMap ServiceConfig := []
  deriving DecidableEq, Repr

/-! ## Output: the platform objects -/

/-- The `resource.Quantity` values the callback builds. -/
inductive Quantity where
  | NewQuantity (value : Int)
  | NewMilliQuantity (value : Int)
  deriving DecidableEq, Repr

/-- One `kapi.ContainerPort`. -/
structure ContainerPort where
  containerPort : Int
  Protocol : String := ""
  deriving DecidableEq, Repr

/-- One `kapi.VolumeMount`. -/
structure VolumeMount where
  Name : String
  MountPath : String
  deriving DecidableEq, Repr

/-- One `kapi.EnvVar`. -/
structure EnvVar where
  Name : String
  Value : String
  deriving DecidableEq, Repr

/-- The `kapi.SecurityContext` fields the callback sets; `none` is a nil pointer. -/
structure SecurityContext where
  RunAsUser : Option Int := none
  Privileged : Option Bool := none
  ReadOnlyRootFilesystem : Option Bool := none
  deriving DecidableEq, Repr

/-- The `kapi.ResourceRequirements`; `none` is a nil `ResourceList`. -/
structure ResourceRequirements where
  Limits : Option (GoMap Quantity) := none
  Requests : Option (GoMap Quantity) := none
  deriving DecidableEq, Repr

/-- The `kapi.Container` fields the transformer touches. -/
structure Container where
  Name : String := ""
  Command : List String := []
  Args : List String := []
  WorkingDir : String := ""
  Ports : List ContainerPort := []
  Env : List EnvVar := []
  Resources : ResourceRequirements := {}
  VolumeMounts : List VolumeMount := []
  SecurityContext : Option SecurityContext := none
  Stdin : Bool := false
  StdinOnce : Bool := false
  TTY : Bool := false
  deriving DecidableEq, Repr

/-- One `kapi.ServicePort`. -/
structure ServicePort where
  Protocol : String
  Port : Int
  deriving DecidableEq, Repr

/-- The `deployapi.DeploymentConfig` fields read by `updateServiceObjects`:
`ObjectMeta.Name`, `Spec.Selector` and `Spec.Template.Spec.Containers`. -/
structure DeploymentConfig where
  Name : String
  Selector : GoMap String := []
  Containers : List Container := []
  deriving DecidableEq, Repr

/-- The `kapi.Service` fields written by `updateServiceObjects`. -/
structure Service where
  Name : String
  Selector : GoMap String := []
  Ports : List ServicePort := []
  deriving DecidableEq, Repr

/-- A `runtime.Object` of the accumulated object list: the type switch of
`updateServiceObjects` tells deployment configs from everything else. -/
inductive Object where
  | deploymentConfig (dc : DeploymentConfig)
  | service (svc : Service)
  | other (kind name : String)
  deriving DecidableEq, Repr

/-- A `*kapi.Container` taken by `updateServiceObjects`: the position of the
deployment config in `data.objects` and of the container in its list. -/
structure ContainerRef where
  object : Nat
  container : Nat
  deriving DecidableEq, Repr

/-! ## Pipelines, errors and the transformation state -/

/-- The `app.ImageRef` fields the transformer sets, next to the reference and
the exposed ports the generator was asked for. -/
structure ImageRef where
  Reference : String := ""
  ExposedPorts : List String := []
  AsImageStream : Bool := false
  TagDirectly : Bool := false
  ObjectName : String := ""
  Tag : String := ""
  deriving DecidableEq, Repr

/-- The `app.SourceRepositoryInfo`: `Path` and the Dockerfile (`none` is nil). -/
structure SourceRepositoryInfo where
  Path : String := ""
  Dockerfile : Option String := none
  deriving DecidableEq, Repr

/-- The `app.SourceRepository`: where it lives and what `Info()` returns. -/
structure SourceRepository where
  Location : String := ""
  UsesDocker : Bool := false
  Info : Option SourceRepositoryInfo := none
  deriving DecidableEq, Repr

/-- The `app.BuildRef` fields written by `updateBuildPipeline`
(`Build.Source.Name`, `Build.Source.ContextDir`). -/
structure BuildRef where
  SourceName : String := ""
  ContextDir : String := ""
  Source : SourceRepository := {}
  deriving DecidableEq, Repr

/-- The `app.Pipeline`. -/
structure Pipeline where
  Name : String := ""
  Build : BuildRef := {}
  Image : ImageRef := {}
  deriving DecidableEq, Repr

/-- The error values of the transformer, one constructor per `fmt.Errorf`
site, and `collaborator` for an error handed back by another package. -/
inductive Error where
  | conflict (k : String) (set other : StringSet)
  | pathNotRelative (detail : String)
  | buildPathOutside (build : String)
  | gitRelativePath (detail : String)
  | noDockerfile (build : String)
  | noFromInstruction (path : String)
  | noInputImage (k : String)
  | collaborator (detail : String)
  deriving DecidableEq, Repr

/-- What a phase returns as its `error`: one error, or the
`utilerrs.NewAggregate` of the accumulated ones. -/
inductive Returned where
  | single (e : Error)
  | aggregate (errs : List Error)
  deriving DecidableEq, Repr

/-- The functions of other packages that the transformer calls. -/
structure Collaborators where
  /-- Go `filepath.Rel(base, target)`. -/
  Rel : String → String → Except String String
  /-- Go `filepath.Join(a, b)`. -/
  Join : String → String → String
  /-- Go `git.NewRepository().GetRootDir(dir)`. -/
  GetRootDir : String → Except String String
  /-- Go `app.NewSourceRepositoryWithDockerfile(path, "")`. -/
  NewSourceRepositoryWithDockerfile : String → Except Error SourceRepository
  /-- Go `dockerfileutil.LastBaseImage(info.Dockerfile.AST())`. -/
  LastBaseImage : String → String
  /-- Go `g.FromNameAndPorts(name, ports)`. -/
  FromNameAndPorts : String → List String → Except Error ImageRef
  /-- Go `app.NewPipelineBuilder(k, nil, false).To(k).NewBuildPipeline(k, image, repo)`. -/
  NewBuildPipeline : String → ImageRef → SourceRepository → Except Error Pipeline
  /-- Go `app.GenerateService(meta, selector)`, `meta` given by its name. -/
  GenerateService : String → GoMap String → Service
  /-- Go `app.UniqueContainerToServicePorts(app.AllContainerPorts(containers...))`. -/
  ServicePorts : List Container → List ServicePort

/-- The `TransformData` record. -/
structure TransformData where
  errs : List Error := []
  warnings : GoMap (List String) := []
  serviceOrder : StringSet := []
  joins : GoMap StringSet := []
  volumesFrom : GoMap (List String) := []
  colocated : List StringSet := []
  builds : GoMap Pipeline := []
  pipelines : List Pipeline := []
  containers : GoMap ContainerRef := []
  objects : List Object := []
  bases : List String := []
  aliases : GoMap StringSet := []
  deriving DecidableEq, Repr

/-! ## Service order and warnings -/

/-- The closure `fn` of `warnUnusableComposeElements`:
`warnings[msg] = append(warnings[msg], k)`. -/
def warn (k : String) (warnings : GoMap (List String)) (msg : String) :
    GoMap (List String) :=
  warnings.set msg ((warnings.get msg).getD [] ++ [k])

/-- The conditions of `warnUnusableComposeElements` with their messages, in
source order. -/
def unusableElements (v : ServiceConfig) : List (Bool × String) :=
  [ (decide (v.CapAdd.length > 0 ∨ v.CapDrop.length > 0), "cap_add and cap_drop are not supported"),
    (decide (v.CgroupParent.length > 0), "cgroup_parent is not supported"),
    (decide (v.CPUSet.length > 0), "cpuset is not supported"),
    (decide (v.Devices.length > 0), "devices are not supported"),
    (decide (v.DNS.length > 0 ∨ v.DNSSearch.length > 0), "dns and dns_search are not supported"),
    (decide (v.DomainName.length > 0), "domainname is not supported"),
    (decide (v.Hostname.length > 0), "hostname is not supported"),
    (decide (v.Labels.length > 0), "labels is ignored"),
    (decide (v.LogDriver.length > 0), "log_driver is not supported"),
    (decide (v.MacAddress.length > 0), "mac_address is not supported"),
    (decide (v.Net.length > 0), "net is not supported"),
    (decide (v.Pid.length > 0), "pid is not supported"),
    (decide (v.Uts.length > 0), "uts is not supported"),
    (decide (v.Ipc.length > 0), "ipc is not supported"),
    (decide (v.MemSwapLimit > 0), "mem_swap_limit is not supported"),
    (decide (v.Restart.length > 0), "restart is ignored - all pods are automatically restarted"),
    (decide (v.SecurityOpt.length > 0), "security_opt is not supported"),
    (decide (v.User.length > 0) && (Atoi v.User).isNone,
      "setting user to a string is not supported - use numeric user value"),
    (decide (v.VolumeDriver.length > 0), "volume_driver is not supported"),
    (decide (v.VolumesFrom.length > 0), "volumes_from is not supported"),
    (decide (v.ExternalLinks.length > 0), "external_links are not supported - use services"),
    (decide (v.LogOpt.length > 0), "log_opt is not supported"),
    (decide (v.ExtraHosts.length > 0), "extra_hosts is not supported"),
    (decide (v.Ulimits.length > 0), "ulimits is not supported") ]

/-- Go `warnUnusableComposeElements(k, v, warnings)`. -/
def warnUnusableComposeElements (k : String) (v : ServiceConfig)
    (warnings : GoMap (List String)) : GoMap (List String) :=
  (unusableElements v).foldl
    (fun w cm => if cm.1 then warn k w cm.2 else w) warnings

/-- Go `updateServiceOrder(p, &data)`; the services are visited in the order
in which `p.Configs` lists them. -/
def updateServiceOrder (p : Project) (data : TransformData) : TransformData :=
  p.Configs.foldl
    (fun d kv =>
      { d with
        serviceOrder := d.serviceOrder.Insert [kv.1]
        warnings := warnUnusableComposeElements kv.1 kv.2 d.warnings })
    data

/-! ## Volumes and joins -/

/-- The `switch` of `updateVolumes` for one declaration `src` of service `k`:
the name inserted into `joins[k]` and appended to `volumesFrom[k]`, if any. -/
def volumesFromTarget (src : String) : Option String :=
  match Split src ':' with
  | [p0] => some p0
  | [p0, p1] => some (if p1 = "ro" ∨ p1 = "rw" then p0 else p1)
  | [_, p1, _] => some p1
  | _ => none

/-- The body of the inner loop of `updateVolumes`. -/
def updateVolumesDecl (k : String) (data : TransformData) (src : String) :
    TransformData :=
  match volumesFromTarget src with
  | none => data
  | some target =>
    { data with
      joins := data.joins.set k (((data.joins.get k).getD []).Insert [target])
      volumesFrom := data.volumesFrom.set k ((data.volumesFrom.get k).getD [] ++ [target]) }

/-- The body of the outer loop of `updateVolumes`; `none` when `p.Configs[k]`
is nil and `v.VolumesFrom` panics. -/
def updateVolumesService (p : Project) (data : TransformData) (k : String) :
    Option TransformData :=
  let data1 : TransformData :=
    match data.joins.get k with
    | none => { data with joins := data.joins.set k (NewString [k]) }
    | some _ => data
  match p.Configs.get k with
  | none => none
  | some v => some (v.VolumesFrom.foldl (updateVolumesDecl k) data1)

/-- Go `updateVolumes(p, &data)`. -/
def updateVolumes (p : Project) (data : TransformData) : Option TransformData :=
  data.serviceOrder.List.foldlM (updateVolumesService p) data

/-! ## The colocation solver -/

/-- The inner loop of `updatePodsList` over `data.colocated` from index `i`
on: `done` holds the sets already passed (in order), `matched` the index of
the set merged into so far. The result is the list as the loop leaves it,
the final `matched`, and the conflict error if the loop returned one. -/
def scanColocated (k : String) (set : StringSet) :
    List StringSet → List StringSet → Nat → Option Nat →
    List StringSet × Option Nat × Option Error
  | done, [], _, matched => (done, matched, none)
  | done, existing :: rest, i, matched =>
    if (set.Intersection existing).Len = 0 then
      scanColocated k set (done ++ [existing]) rest (i + 1) matched
    else
      match matched with
      | some m =>
        (done ++ existing :: rest, some m,
          some (Error.conflict k set ((done ++ existing :: rest).getD m [])))
      | none =>
        scanColocated k set (done ++ [existing.Insert set.List]) rest (i + 1) (some i)

/-- The body of the outer loop of `updatePodsList` for the service `k`. -/
def updatePodsListStep (joins : GoMap StringSet) (colocated : List StringSet)
    (k : String) : List StringSet × Option Error :=
  let set := (joins.get k).getD []
  match scanColocated k set [] colocated 0 none with
  | (colocated1, _, some err) => (colocated1, some err)
  | (colocated1, some _, none) => (colocated1, none)
  | (colocated1, none, none) => (colocated1 ++ [set], none)

/-- The outer loop of `updatePodsList` over the remaining keys. -/
def updatePodsListLoop (joins : GoMap StringSet) :
    List String → List StringSet → List StringSet × Option Error
  | [], colocated => (colocated, none)
  | k :: ks, colocated =>
    match updatePodsListStep joins colocated k with
    | (colocated1, some err) => (colocated1, some err)
    | (colocated1, none) => updatePodsListLoop joins ks colocated1

/-- The set `joinOrder` of `updatePodsList`: the keys of `data.joins`. -/
def joinOrder (data : TransformData) : StringSet :=
  StringSet.Insert (NewString []) data.joins.keys

/-- Go `updatePodsList(p, &data)`: the data as the call leaves it and the
returned error. A set of `data.colocated` is the same Go map as the join-set
that founded it, so a merge also grows that entry of `data.joins`; the entry
belongs to a service already visited and is not read again. -/
def updatePodsList (data : TransformData) : TransformData × Option Error :=
  let r := updatePodsListLoop data.joins (joinOrder data).List data.colocated
  ({ data with colocated := r.1 }, r.2)

/-- Example state: the join-sets `a: {a}`, `b: {b}`, `c: {c, a, b}`, where
the hub `c` sorts after the two services it joins. -/
def hubLast : TransformData :=
  { joins := [("a", ["a"]), ("b", ["b"]), ("c", ["c", "a", "b"])] }

/-- Example project, the end-to-end case of the specification: `web` is built
from `./web` and exposes port 8080, `worker` runs the image `redis` and takes
the volumes of `web`. -/
def webWorker : Project :=
  { Configs :=
      [("web", { Build := "./web", Ports := ["8080"] }),
       ("worker", { Image := "redis", VolumesFrom := ["web"] })] }

/-! ## The port parser -/

/-- Go `rangeToPort(s)`: `parts[0]` of `strings.SplitN(s, "-", 2)`; `none` is
an index out of range. -/
def rangeToPort (s : String) : Option String :=
  (SplitN s '-' 2)[0]?

/-- Go `extractFirstPorts(port)`, returning `(container, host)`; `none` is an
index out of range. `ParseIP` is `net.ParseIP` of the Go library, `none`
being its nil result. -/
def extractFirstPorts (ParseIP : String → Option (List Nat)) (port : String) :
    Option (String × String) :=
  let segments := Split port ':'
  match segments[segments.length - 1]? with
  | none => none
  | some last =>
    match rangeToPort last with
    | none => none
    | some container =>
      if segments.length = 3 then
        match segments[1]? with
        | none => none
        | some s1 => (rangeToPort s1).map (fun host => (container, host))
      else if segments.length = 2 then
        match segments[0]? with
        | none => none
        | some s0 =>
          if (ParseIP s0).isNone then (rangeToPort s0).map (fun host => (container, host))
          else some (container, container)
      else some (container, container)

/-- One octet of a dotted quad: decimal digits with a value up to 255. -/
def octet (s : String) : Option Nat :=
  match s.data with
  | [] => none
  | d :: ds =>
    match parseDigits (d :: ds) 0 with
    | none => none
    | some n => if n ≤ 255 then some n else none

/-- Example `ParseIP`: the dotted-quad literals, everything else being nil.
On a string without a colon, as every segment of a port specification is,
`net.ParseIP` accepts nothing but dotted quads. -/
def dottedQuad (s : String) : Option (List Nat) :=
  match Split s '.' with
  | [a, b, c, d] =>
    match octet a, octet b, octet c, octet d with
    | some x, some y, some z, some w => some [x, y, z, w]
    | _, _, _, _ => none
  | _ => none

/-- The specification's reading of a port specification: `segs` are its
colon-separated segments when joining them with colons gives `port` back and
none of them holds a colon. -/
def joinSegments : List String → String
  | [] => ""
  | [s] => s
  | s :: t :: rest => s ++ ":" ++ joinSegments (t :: rest)

/-- The specification's "first value of a port or port range": `p` is the part
of `seg` before its first dash, the whole of `seg` when it has none. -/
def PartBeforeFirstDash (seg p : String) : Prop :=
  '-' ∉ p.data ∧ (seg = p ∨ ∃ rest : String, seg = p ++ "-" ++ rest)

/-! ## The container configuration callback of `updateDeploymentConfigs` -/

/-- Go `len(m)` of a map. -/
def GoMap.len {β : Type} (m : GoMap β) : Nat := m.keys.length

/-- The loop over `v.Ports`: one container port per mapping whose first
container port parses as an integer; `none` when `extractFirstPorts` panics. -/
def configurePorts (ParseIP : String → Option (List Nat)) :
    List String → List ContainerPort → Option (List ContainerPort)
  | [], acc => some acc
  | s :: rest, acc =>
    match extractFirstPorts ParseIP s with
    | none => none
    | some (container, _) =>
      match Atoi container with
      | some port => configurePorts ParseIP rest (acc ++ [{ containerPort := port }])
      | none => configurePorts ParseIP rest acc

/-- The `c.SecurityContext` after `if c.SecurityContext == nil { ... }`. -/
def ensureSecurityContext (c : Container) : SecurityContext :=
  c.SecurityContext.getD {}

/-- The arguments, entrypoint, working directory and environment. -/
def configureProcess (ParseEnvironment : List String → List EnvVar) (v : ServiceConfig)
    (c1 : Container) : Container :=
  let c2 := { c1 with Args := v.Command }
  let c3 := if v.Entrypoint.length > 0 then { c2 with Command := v.Entrypoint } else c2
  let c4 := if v.WorkingDir.length > 0 then { c3 with WorkingDir := v.WorkingDir } else c3
  { c4 with Env := c4.Env ++ ParseEnvironment v.Environment }

/-- The user, terminal and security flags. -/
def configureSecurity (v : ServiceConfig) (c : Container) : Container :=
  let c1 :=
    match Atoi v.User with
    | some uid =>
      { c with SecurityContext := some { ensureSecurityContext c with RunAsUser := some uid } }
    | none => c
  let c2 := { c1 with TTY := v.Tty }
  let c3 := if v.StdinOpen then { c2 with StdinOnce := true, Stdin := true } else c2
  let c4 :=
    if v.Privileged then
      { c3 with SecurityContext := some { ensureSecurityContext c3 with Privileged := some true } }
    else c3
  if v.ReadOnly then
    { c4 with
      SecurityContext :=
        some { ensureSecurityContext c4 with ReadOnlyRootFilesystem := some true } }
  else c4

/-- The `milliCPU` of the CPU quota block: the quota raised to
`minQuotaPeriod`, times `milliCPUtoCPU` in `int64`, over `quotaPeriod`. -/
def quotaMilliCPU (quota : Int) : Int :=
  let quota1 := if quota < 1000 then 1000 else quota
  let milliCPU := wrapInt64 (quota1 * 1000)
  Int.tdiv milliCPU 100000

/-- The `milliCPU` of the CPU shares block: the shares raised to `minShares`,
times `milliCPUtoCPU` in `int64`, over `sharesPerCPU`. -/
def sharesMilliCPU (shares : Int) : Int :=
  let shares1 := if shares < 2 then 2 else shares
  let milliCPU := wrapInt64 (shares1 * 1000)
  Int.tdiv milliCPU 1024

/-- The memory limit, CPU limit and CPU request. -/
def configureResources (v : ServiceConfig) (c : Container) : Container :=
  let c1 :=
    if v.MemLimit > 0 then
      { c with
        Resources :=
          { c.Resources with
            Limits := some (GoMap.set (c.Resources.Limits.getD []) "memory"
              (Quantity.NewQuantity v.MemLimit)) } }
    else c
  let c2 :=
    if v.CPUQuota > 0 then
      { c1 with
        Resources :=
          { c1.Resources with
            Limits := some (GoMap.set (c1.Resources.Limits.getD []) "cpu"
              (Quantity.NewMilliQuantity (quotaMilliCPU v.CPUQuota))) } }
    else c1
  if v.CPUShares > 0 then
    { c2 with
      Resources :=
        { c2.Resources with
          Requests := some (GoMap.set (c2.Resources.Requests.getD []) "cpu"
            (Quantity.NewMilliQuantity (sharesMilliCPU v.CPUShares))) } }
  else c2

/-- The body of the loop over `v.Volumes` that fills `mountPoints`; `none`
is an index out of range. -/
def mountPointsStep (mountPoints : GoMap (List String)) (s : String) :
    Option (GoMap (List String)) :=
  match SplitN s ':' 3 with
  | [] => none
  | [p0] => some (mountPoints.set "" ((mountPoints.get "").getD [] ++ [p0]))
  | p0 :: p1 :: _ => some (mountPoints.set p0 ((mountPoints.get p0).getD [] ++ [p1]))

/-- The body of the loop `for from, at := range mountPoints`, for the key
`src`: the name of `src` in `commonMounts` (given on first sight), and one
mount per path. -/
def mountStep (mountPoints : GoMap (List String))
    (st : GoMap String × List VolumeMount) (src : String) :
    GoMap String × List VolumeMount :=
  let paths := (mountPoints.get src).getD []
  match st.1.get src with
  | some name => (st.1, st.2 ++ paths.map (fun path => { Name := name, MountPath := path }))
  | none =>
    let name := dirName (st.1.len + 1)
    (st.1.set src name, st.2 ++ paths.map (fun path => { Name := name, MountPath := path }))

/-- The closure assigned to `inputImage.ContainerFn` for the service `v`,
applied to the container `c` with the table `commonMounts` of the group as
it stands; it returns the container and the table. `order` is the order in
which the `range` over `mountPoints` visits its keys. -/
def ContainerFn (ParseIP : String → Option (List Nat))
    (ParseEnvironment : List String → List EnvVar) (v : ServiceConfig)
    (order : List String) (commonMounts : GoMap String) (c : Container) :
    Option (Container × GoMap String) :=
  let c1 := if v.ContainerName.length > 0 then { c with Name := v.ContainerName } else c
  match configurePorts ParseIP v.Ports c1.Ports with
  | none => none
  | some ports =>
    let c2 := configureProcess ParseEnvironment v { c1 with Ports := ports }
    let c3 := configureSecurity v c2
    let c4 := configureResources v c3
    match v.Volumes.foldlM mountPointsStep [] with
    | none => none
    | some mountPoints =>
      let r := order.foldl (mountStep mountPoints) (commonMounts, c4.VolumeMounts)
      some ({ c4 with VolumeMounts := r.2 }, r.1)

/-- The table `mountPoints` that the callback builds for `v`. -/
def mountPointsOf (v : ServiceConfig) : GoMap (List String) :=
  (v.Volumes.foldlM mountPointsStep []).getD []

/-- The callbacks of one colocation group run one after the other against the
shared table: each call gives the service, the `range` order and the
container skeleton; the result lists the configured containers and the table
after the last call. -/
def runCallbacks (ParseIP : String → Option (List Nat))
    (ParseEnvironment : List String → List EnvVar) :
    List (ServiceConfig × List String × Container) → GoMap String →
    Option (List Container × GoMap String)
  | [], commonMounts => some ([], commonMounts)
  | (v, order, c) :: rest, commonMounts =>
    match ContainerFn ParseIP ParseEnvironment v order commonMounts c with
    | none => none
    | some (c1, commonMounts1) =>
      match runCallbacks ParseIP ParseEnvironment rest commonMounts1 with
      | none => none
      | some (cs, commonMounts2) => some (c1 :: cs, commonMounts2)

/-- Example `ParseEnvironment`: `KEY=VALUE` split at the first `=`, in the
order of declaration. -/
def keyValueEnvironment (vals : List String) : List EnvVar :=
  vals.map (fun s =>
    match SplitN s '=' 2 with
    | [k, val] => { Name := k, Value := val }
    | _ => { Name := s, Value := "" })

/-- The invariant of the table `commonMounts`: its sources are distinct and
its names are `dir-1`, `dir-2`, ... in the order in which they were given. -/
def TableOk (commonMounts : GoMap String) : Prop :=
  (commonMounts.map Prod.fst).Nodup ∧
  commonMounts.map Prod.snd = (List.range commonMounts.length).map (fun i => dirName (i + 1))

/-! ## Service objects and the propagation of volumes-from -/

/-- The renaming of a generated service: when the alias set of its default
name has exactly one member the service takes that member as name
(`data.aliases[svc.Name].List()[0]`). -/
def applyAlias (aliases : GoMap StringSet) (svc : Service) : Service :=
  if ((aliases.get svc.Name).getD []).Len = 1 then
    match StringSet.List ((aliases.get svc.Name).getD []) with
    | a :: _ => { svc with Name := a }
    | [] => svc
  else svc

/-- The service that `updateServiceObjects` generates for the deployment
config `t`, `none` when the config exposes no port (`continue`). -/
def generateService (env : Collaborators) (aliases : GoMap StringSet)
    (t : DeploymentConfig) : Option Service :=
  let ports := env.ServicePorts t.Containers
  if ports.length = 0 then none
  else
    let svc := applyAlias aliases (env.GenerateService t.Name t.Selector)
    some { svc with Ports := ports }

/-- The loop `for i := range t.Spec.Template.Spec.Containers` that takes a
reference to each container of the deployment config at position `obj`,
starting with the container at position `i`. -/
def registerContainers (obj : Nat) :
    List Container → Nat → GoMap ContainerRef → GoMap ContainerRef
  | [], _, table => table
  | c :: rest, i, table =>
    registerContainers obj rest (i + 1) (table.set c.Name { object := obj, container := i })

/-- The first loop of `updateServiceObjects` over `data.objects` from position
`i` on, with the services and the container table built so far. -/
def updateServiceObjectsLoop (env : Collaborators) (aliases : GoMap StringSet) :
    List Object → Nat → List Service × GoMap ContainerRef →
    List Service × GoMap ContainerRef
  | [], _, acc => acc
  | Object.deploymentConfig t :: rest, i, acc =>
    match generateService env aliases t with
    | none => updateServiceObjectsLoop env aliases rest (i + 1) acc
    | some svc =>
      updateServiceObjectsLoop env aliases rest (i + 1)
        (acc.1 ++ [svc], registerContainers i t.Containers 0 acc.2)
  | _ :: rest, i, acc => updateServiceObjectsLoop env aliases rest (i + 1) acc

/-- Go `updateServiceObjects(&data)`; the error it returns is always nil. -/
def updateServiceObjects (env : Collaborators) (data : TransformData) : TransformData :=
  let r := updateServiceObjectsLoop env data.aliases data.objects 0 ([], data.containers)
  { data with
    objects := data.objects ++ r.1.map Object.service
    containers := r.2 }

/-- The container a `*kapi.Container` of the table points to. -/
def derefContainer (objects : List Object) (r : ContainerRef) : Option Container :=
  match objects[r.object]? with
  | some (Object.deploymentConfig t) => t.Containers[r.container]?
  | _ => none

/-- The assignment `p.VolumeMounts = append(p.VolumeMounts, volume)` through
the pointer `r`. -/
def appendVolumeMount (objects : List Object) (r : ContainerRef) (volume : VolumeMount) :
    Option (List Object) :=
  match objects[r.object]? with
  | some (Object.deploymentConfig t) =>
    match t.Containers[r.container]? with
    | some c =>
      some (objects.set r.object
        (Object.deploymentConfig
          { t with
            Containers :=
              t.Containers.set r.container
                { c with VolumeMounts := c.VolumeMounts ++ [volume] } }))
    | none => none
  | _ => none

/-- The innermost loop of the propagation in `Transform`, over the mounts of
the container `src` as they stood when the `range` began; `none` when
`data.containers[target]` is nil. -/
def copyVolumeMounts (target : String) (volumes : List VolumeMount)
    (data : TransformData) : Option TransformData :=
  volumes.foldlM
    (fun d volume =>
      match d.containers.get target with
      | none => none
      | some rt => (appendVolumeMount d.objects rt volume).map (fun objs => { d with objects := objs }))
    data

/-- The loop `for _, from := range otherContainers` of the propagation;
`none` when `data.containers[from]` is nil. -/
def copyFromContainers (target : String) (otherContainers : List String)
    (data : TransformData) : Option TransformData :=
  otherContainers.foldlM
    (fun d src =>
      match d.containers.get src with
      | none => none
      | some rs =>
        match derefContainer d.objects rs with
        | none => none
        | some c => copyVolumeMounts target c.VolumeMounts d)
    data

/-- The loop of `Transform` that copies, for each container that defines
volumes-from, the mounts of the containers it names; the entries of
`data.volumesFrom` are visited in the order listed. `none` is the panic of a
nil pointer dereference. -/
def propagateVolumesFrom (data : TransformData) : Option TransformData :=
  data.volumesFrom.foldlM (fun d entry => copyFromContainers entry.1 entry.2 d) data

/-- Example `ServicePorts`: the distinct (protocol, port) pairs of the ports of
the containers, in the order of their first appearance. -/
def uniqueServicePorts (containers : List Container) : List ServicePort :=
  ((containers.flatMap (fun c => c.Ports)).map
    (fun p => ({ Protocol := p.Protocol, Port := p.containerPort } : ServicePort))).dedup

/-! ## The build pipeline phase -/

/-- The loop of `updateBuildPipeline` over `data.bases`: the first base that
is a string head of `build` and the path of `build` relative to it, both
empty when no base matches; an error when `filepath.Rel` fails. -/
def resolveBase (env : Collaborators) (build : String) :
    List String → Except Error (String × String)
  | [] => Except.ok ("", "")
  | s :: rest =>
    if startsWith build s then
      match env.Rel s build with
      | Except.error e => Except.error (Error.pathNotRelative e)
      | Except.ok path => Except.ok (s, path)
    else resolveBase env build rest

/-- How the body of the loop of `updateBuildPipeline` ends for one service:
the loop goes on with the data (`continue` or the end of the body), or the
function returns the error at once. -/
inductive Outcome where
  | next (data : TransformData)
  | ret (err : Returned)
  deriving DecidableEq, Repr

/-- The part of the loop body of `updateBuildPipeline` after the build path
is known: every failure is appended to `data.errs` and the loop continues.
`none` when `extractFirstPorts` panics. -/
def synthesizeBuild (env : Collaborators) (ParseIP : String → Option (List Nat))
    (k : String) (v : ServiceConfig) (relative buildPath : String)
    (data : TransformData) : Option TransformData :=
  match env.NewSourceRepositoryWithDockerfile buildPath with
  | Except.error err => some { data with errs := data.errs ++ [err] }
  | Except.ok repo0 =>
    let repo := { repo0 with UsesDocker := true }
    match repo.Info.bind (fun info => info.Dockerfile.map (fun df => (info, df))) with
    | none => some { data with errs := data.errs ++ [Error.noDockerfile v.Build] }
    | some (info, dockerfile) =>
      let baseImage := env.LastBaseImage dockerfile
      if baseImage.length = 0 then
        some { data with errs := data.errs ++ [Error.noFromInstruction info.Path] }
      else
        match v.Ports.mapM (fun s => (extractFirstPorts ParseIP s).map Prod.fst) with
        | none => none
        | some ports =>
          match env.FromNameAndPorts baseImage ports with
          | Except.error err => some { data with errs := data.errs ++ [err] }
          | Except.ok image0 =>
            let image :=
              { image0 with
                AsImageStream := true, TagDirectly := true, ObjectName := k, Tag := "from" }
            match env.NewBuildPipeline k image repo with
            | Except.error err => some { data with errs := data.errs ++ [err] }
            | Except.ok pipeline0 =>
              let pipeline1 :=
                if relative.length > 0 then
                  { pipeline0 with Build := { pipeline0.Build with ContextDir := relative } }
                else pipeline0
              let pipeline :=
                { pipeline1 with
                  Build := { pipeline1.Build with SourceName := k }
                  Name := k
                  Image := { pipeline1.Image with ObjectName := k } }
              some { data with
                     builds := data.builds.set v.Build pipeline
                     pipelines := data.pipelines ++ [pipeline] }

/-- The body of the loop of `updateBuildPipeline` for the service `k`; `none`
is a panic (`p.Configs[k]` nil, or an index out of range). -/
def updateBuildPipelineService (env : Collaborators)
    (ParseIP : String → Option (List Nat)) (p : Project) (data : TransformData)
    (k : String) : Option Outcome :=
  match p.Configs.get k with
  | none => none
  | some v =>
    if v.Build.length = 0 then some (Outcome.next data)
    else if (data.builds.get v.Build).isSome then some (Outcome.next data)
    else
      match resolveBase env v.Build data.bases with
      | Except.error err => some (Outcome.ret (Returned.single err))
      | Except.ok (base, relative) =>
        if base.length = 0 then
          some (Outcome.ret (Returned.single (Error.buildPathOutside v.Build)))
        else
          match env.GetRootDir base with
          | Except.ok root =>
            match env.Rel root (env.Join base relative) with
            | Except.error e => some (Outcome.ret (Returned.single (Error.gitRelativePath e)))
            | Except.ok relative1 =>
              (synthesizeBuild env ParseIP k v relative1 (env.Join root relative1) data).map
                Outcome.next
          | Except.error _ =>
            (synthesizeBuild env ParseIP k v relative (env.Join base relative) data).map
              Outcome.next

/-- The loop of `updateBuildPipeline` over the remaining services, and the
final `if len(data.errs) > 0`: the data as the call leaves it and the error
it returns. -/
def updateBuildPipelineLoop (env : Collaborators) (ParseIP : String → Option (List Nat))
    (p : Project) : List String → TransformData → Option (TransformData × Option Returned)
  | [], data =>
    some (data, if data.errs.length > 0 then some (Returned.aggregate data.errs) else none)
  | k :: ks, data =>
    match updateBuildPipelineService env ParseIP p data k with
    | none => none
    | some (Outcome.ret err) => some (data, some err)
    | some (Outcome.next data1) => updateBuildPipelineLoop env ParseIP p ks data1

/-- Go `updateBuildPipeline(p, g, &data)`. -/
def updateBuildPipeline (env : Collaborators) (ParseIP : String → Option (List Nat))
    (p : Project) (data : TransformData) : Option (TransformData × Option Returned) :=
  updateBuildPipelineLoop env ParseIP p data.serviceOrder.List data

/-- The services `ks` are all passed by the loop of `updateBuildPipeline`
without a return: the data after the last of them. -/
def passServices (env : Collaborators) (ParseIP : String → Option (List Nat))
    (p : Project) : List String → TransformData → Option TransformData
  | [], data => some data
  | k :: ks, data =>
    match updateBuildPipelineService env ParseIP p data k with
    | some (Outcome.next data1) => passServices env ParseIP p ks data1
    | _ => none

/-! ## Example collaborators -/

/-- Example collaborators for concrete runs: paths are made relative by
dropping the base and the slash after it, no directory is a Git repository,
every build path holds a Dockerfile whose last base image is `busybox`, and
the generators never fail. -/
def exampleCollaborators : Collaborators where
  Rel := fun base target => Except.ok (String.mk ((target.data.drop base.length).dropWhile (· = '/')))
  Join := fun a b => if b = "" then a else a ++ "/" ++ b
  GetRootDir := fun _ => Except.error "not a Git repository"
  NewSourceRepositoryWithDockerfile := fun path =>
    Except.ok { Location := path, Info := some { Path := path, Dockerfile := some "FROM busybox" } }
  LastBaseImage := fun _ => "busybox"
  FromNameAndPorts := fun name ports => Except.ok { Reference := name, ExposedPorts := ports }
  NewBuildPipeline := fun k image repo =>
    Except.ok { Name := k, Build := { Source := repo }, Image := image }
  GenerateService := fun name selector => { Name := name, Selector := selector }
  ServicePorts := uniqueServicePorts

/-! ## Specification predicates and example states -/

/-- The specification's "exactly one alias is registered" for `name`: the
alias set of `name` has `a` as its only member. -/
def ExactlyOneAlias (aliases : GoMap StringSet) (name a : String) : Prop :=
  ∀ x, x ∈ (aliases.get name).getD [] ↔ x = a

/-- The specification's alias rule for the service record `svc` generated for
the deployment config `t`: it carries the ports and the selector of the
generated record; it is named by the alias when exactly one alias is
registered for the default name, and keeps the default name otherwise. -/
def AliasRule (env : Collaborators) (aliases : GoMap StringSet) (t : DeploymentConfig)
    (svc : Service) : Prop :=
  svc.Ports = env.ServicePorts t.Containers ∧
  svc.Selector = (env.GenerateService t.Name t.Selector).Selector ∧
  (∀ a, ExactlyOneAlias aliases (env.GenerateService t.Name t.Selector).Name a →
    svc.Name = a) ∧
  ((¬ ∃ a, ExactlyOneAlias aliases (env.GenerateService t.Name t.Selector).Name a) →
    svc.Name = (env.GenerateService t.Name t.Selector).Name)

/-- Example project: `a` runs `busybox` with the volume `/data`, `b` runs
`redis` and takes the volumes of `a`; neither declares a port. -/
def noPorts : Project :=
  { Configs :=
      [("a", { Image := "busybox", Volumes := ["/data"] }),
       ("b", { Image := "redis", VolumesFrom := ["a"] })] }

/-- The state of `Transform` for `noPorts` before `updateServiceObjects`: one
deployment config with the containers `a` (its mount configured by the
callback) and `b`, and `volumesFrom` as `updateVolumes` leaves it. -/
def noPortsData : TransformData :=
  { serviceOrder := ["a", "b"]
    joins := [("a", ["a"]), ("b", ["b", "a"])]
    volumesFrom := [("b", ["a"])]
    colocated := [["a", "b"]]
    objects :=
      [Object.deploymentConfig
        { Name := "a"
          Selector := [("deploymentconfig", "a")]
          Containers :=
            [ { Name := "a", VolumeMounts := [{ Name := "dir-1", MountPath := "/data" }] },
              { Name := "b" } ] }] }

/-- The same state when `a` also declares the port 8080. -/
def onePortData : TransformData :=
  { noPortsData with
    objects :=
      [Object.deploymentConfig
        { Name := "a"
          Selector := [("deploymentconfig", "a")]
          Containers :=
            [ { Name := "a", Ports := [{ containerPort := 8080 }],
                VolumeMounts := [{ Name := "dir-1", MountPath := "/data" }] },
              { Name := "b" } ] }] }

/-- Example project: the build context of `a` lies outside the base `/base`,
the one of `b`, which sorts later, inside it. -/
def outsideFirst : Project :=
  { Configs := [("a", { Build := "/outside" }), ("b", { Build := "/base/b" })] }

/-- Example project: `b` of `outsideFirst` alone. -/
def insideOnly : Project :=
  { Configs := [("b", { Build := "/base/b" })] }

/-- Example renaming of service names: `a` and `c` change places. -/
def swapAC (s : String) : String :=
  if s = "a" then "c" else if s = "c" then "a" else s

/-- A map of join-sets with every service name replaced by its image under `f`. -/
def renameJoins (f : String → String) (joins : GoMap StringSet) : GoMap StringSet :=
  joins.map (fun kv => (f kv.1, kv.2.map f))

/-- Example state: the join-sets `a: {a, b, c}`, `b: {b}`, `c: {c}`, where the
hub `a` sorts before the two services it joins. -/
def hubFirst : TransformData :=
  { joins := [("a", ["a", "b", "c"]), ("b", ["b"]), ("c", ["c"])] }

/-- The container port that the callback appends for the port mapping `s`:
the first container port of the mapping when it reads as an integer, nothing
otherwise. -/
def declaredPort (ParseIP : String → Option (List Nat)) (s : String) : Option ContainerPort :=
  ((extractFirstPorts ParseIP s).bind (fun r => Atoi r.1)).map
    (fun port => { containerPort := port })

/-! ## Aliases -/

/-- The body of the inner loop of `updateAliases` for the link `s`. -/
def updateAliasesLink (aliases : GoMap StringSet) (s : String) : GoMap StringSet :=
  match SplitN s ':' 2 with
  | [p0, p1] =>
    if p0 = p1 then aliases
    else aliases.set p0 (StringSet.Insert ((aliases.get p0).getD (NewString [])) [p1])
  | _ => aliases

/-- Go `updateAliases(p, &data)`; the services are visited in the order in
which `p.Configs` lists them. -/
def updateAliases (p : Project) (data : TransformData) : TransformData :=
  { data with
    aliases := p.Configs.foldl (fun a kv => kv.2.Links.foldl updateAliasesLink a) data.aliases }

/-- Example project: `web` links `db` under the alias `database`, and names
`cache` without an alias. -/
def linked : Project :=
  { Configs := [("db", { Image := "postgres" }),
                ("web", { Image := "nginx", Links := ["db:database", "cache", "db:db"] })] }

/-! ## The warnings annotation -/

/-- Go `strings.Join(elems, sep)`. -/
def Join (elems : List String) (sep : String) : String :=
  match elems with
  | [] => ""
  | [s] => s
  | s :: t :: rest => s ++ sep ++ Join (t :: rest) sep

/-- Go `fmt.Sprintf("%s: %s", strings.Join(services, ","), msg)`. -/
def warningEntry (msg : String) (services : List String) : String :=
  Join services "," ++ ": " ++ msg

/-- The list `allWarnings.List()` of `Transform`: the entries of the warning
table as a sorted set of strings. -/
def warningEntries (warnings : GoMap (List String)) : List String :=
  StringSet.List
    (StringSet.Insert (NewString []) (warnings.map (fun kv => warningEntry kv.1 kv.2)))

/-- The value that `Transform` stores under `app.GenerationWarningAnnotation`,
`none` when the warning table is empty and no annotation is made. -/
def generationWarning (warnings : GoMap (List String)) : Option String :=
  if warnings.len > 0 then
    some ("not all docker-compose fields were honored:\n* " ++
      Join (warningEntries warnings) "\n* ")
  else none

/-- Example project: `api` sets a restart policy and `web` a hostname. -/
def twoWarnings : Project :=
  { Configs := [("api", { Image := "api", Restart := "always" }),
                ("web", { Image := "nginx", Hostname := "www" })] }

/-! ## The member lookup of `updateDeploymentConfigs` -/

/-- The lookups `v := p.Configs[k]` of `updateDeploymentConfigs`, for each pod
of `data.colocated` and each `k` of `pod.List()`, in the order of the two
loops; `none` is a nil configuration. -/
def memberLookups (p : Project) (data : TransformData) :
    List (String × Option ServiceConfig) :=
  data.colocated.flatMap (fun pod =>
    (StringSet.List pod).map (fun k => (k, GoMap.get p.Configs k)))

/-- Example project: `a` takes the volumes of `ghost`, which is not a service
of the project. -/
def ghostTarget : Project :=
  { Configs := [("a", { Image := "busybox", VolumesFrom := ["ghost"] })] }

/-! ## The join graph -/

/-- An edge of the specification's join graph: one of the two names is a
service and the other a member of its join-set. -/
def Joined (joins : GoMap StringSet) (x y : String) : Prop :=
  ∃ k s, GoMap.get joins k = some s ∧ ((x = k ∧ y ∈ s) ∨ (y = k ∧ x ∈ s))

/-- Two names are linked when a chain of join relations leads from one to
the other. -/
def Linked (joins : GoMap StringSet) (x y : String) : Prop :=
  Relation.ReflTransGen (Joined joins) x y

/-! ## Volume declarations -/

/-- The key of `mountPoints` under which the callback files the volume
declaration `s`: the empty string for a declaration of one segment, the
first segment otherwise. -/
def declSource (s : String) : String :=
  match SplitN s ':' 3 with
  | p0 :: _ :: _ => p0
  | _ => ""

/-- The mount path that the callback files for the volume declaration `s`:
the declaration itself when it has one segment, its second segment
otherwise. -/
def declPath (s : String) : String :=
  match SplitN s ':' 3 with
  | [p0] => p0
  | _ :: p1 :: _ => p1
  | [] => ""

/-- The mount of the volume declaration `s` under the table `commonMounts`:
at the path of the declaration, under the name of its key. -/
def declMount (commonMounts : GoMap String) (s : String) : VolumeMount :=
  { Name := (commonMounts.get (declSource s)).getD "", MountPath := declPath s }

/-! # Theorems -/

/-! ## Facts about sets, maps and sorting -/

theorem mem_Insert_iff (s : StringSet) (items : List String) (x : String) :
    x ∈ s.Insert items ↔ x ∈ s ∨ x ∈ items := by
  unfold StringSet.Insert
  induction items generalizing s with
  | nil => simp
  | cons y ys ih =>
    simp only [List.foldl_cons, List.mem_cons]
    rw [ih]
    by_cases hy : y ∈ s
    · simp only [hy, if_true]
      constructor
      · rintro (h | h)
        · exact Or.inl h
        · exact Or.inr (Or.inr h)
      · rintro (h | h | h)
        · exact Or.inl h
        · exact Or.inl (h ▸ hy)
        · exact Or.inr h
    · simp only [hy, if_false, List.mem_append, List.mem_singleton]
      tauto

theorem mem_sortStrings (l : List String) (x : String) : x ∈ sortStrings l ↔ x ∈ l :=
  (List.perm_insertionSort strLe l).mem_iff

theorem mem_List_iff (s : StringSet) (x : String) : x ∈ s.List ↔ x ∈ s := by
  unfold StringSet.List
  rw [mem_sortStrings, List.mem_dedup]

theorem nodup_List (s : StringSet) : s.List.Nodup :=
  (List.perm_insertionSort strLe s.dedup).nodup_iff.mpr (List.nodup_dedup s)

theorem Intersection_Len_eq_zero (s t : StringSet) :
    (s.Intersection t).Len = 0 ↔ ∀ x, x ∈ s → x ∉ t := by
  unfold StringSet.Len StringSet.Intersection
  rw [List.length_eq_zero, List.dedup_idem]
  constructor
  · intro h x hx hxt
    have : x ∈ (List.filter (fun x => decide (x ∈ t)) s).dedup := by
      rw [List.mem_dedup, List.mem_filter]
      exact ⟨hx, by simpa using hxt⟩
    rw [h] at this
    exact absurd this (List.not_mem_nil x)
  · intro h
    apply List.eq_nil_iff_forall_not_mem.mpr
    intro x hx
    rw [List.mem_dedup, List.mem_filter] at hx
    exact h x hx.1 (by simpa using hx.2)

theorem mem_keys_iff {β : Type} (m : GoMap β) (k : String) :
    k ∈ m.keys ↔ ∃ v, m.get k = some v := by
  unfold GoMap.keys
  rw [List.mem_dedup]
  induction m with
  | nil => simp [GoMap.get]
  | cons kv rest ih =>
    obtain ⟨k', v'⟩ := kv
    simp only [List.map_cons, List.mem_cons, GoMap.get]
    by_cases h : k' = k
    · simp [h]
    · simp only [h, if_false]
      rw [← ih]
      constructor
      · rintro (h1 | h1)
        · exact absurd h1.symm h
        · exact h1
      · exact Or.inr


/-! ## The colocation solver -/

theorem scanColocated_disjoint (k : String) (set : StringSet) (rest : List StringSet) :
    ∀ (done : List StringSet) (i : Nat) (matched : Option Nat),
      (∀ e ∈ rest, set.Disjoint e) →
      scanColocated k set done rest i matched = (done ++ rest, matched, none) := by
  induction rest with
  | nil => intro done i matched _; simp [scanColocated]
  | cons e rest ih =>
    intro done i matched h
    have he : (set.Intersection e).Len = 0 :=
      (Intersection_Len_eq_zero set e).mpr
        (fun x hx hxe => h e (List.mem_cons_self e rest) hx hxe)
    have hrest := fun m => ih (done ++ [e]) (i + 1) m
      (fun e' he' => h e' (List.mem_cons_of_mem e he'))
    cases matched with
    | none => simp only [scanColocated, he, if_true]; rw [hrest]; simp
    | some m => simp only [scanColocated, he, if_true]; rw [hrest]; simp

theorem scanColocated_second (k : String) (set : StringSet) (pre : List StringSet) :
    ∀ (done : List StringSet) (i m : Nat) (e : StringSet) (post : List StringSet),
      (∀ e' ∈ pre, set.Disjoint e') → ¬ set.Disjoint e →
      scanColocated k set done (pre ++ e :: post) i (some m) =
        (done ++ (pre ++ e :: post), some m,
          some (Error.conflict k set ((done ++ (pre ++ e :: post)).getD m []))) := by
  induction pre with
  | nil =>
    intro done i m e post _ he
    have hne : ¬ (set.Intersection e).Len = 0 := by
      rw [Intersection_Len_eq_zero]
      intro h
      exact he (fun x hx hxe => h x hx hxe)
    simp [scanColocated, hne]
  | cons p pre ih =>
    intro done i m e post h he
    have hp : (set.Intersection p).Len = 0 :=
      (Intersection_Len_eq_zero set p).mpr
        (fun x hx hxe => h p (List.mem_cons_self p pre) hx hxe)
    simp only [List.cons_append]
    simp only [scanColocated, hp, if_true]
    rw [ih _ _ _ _ _ (fun e' he' => h e' (List.mem_cons_of_mem p he')) he]
    simp

theorem scanColocated_first (k : String) (set : StringSet) (pre : List StringSet) :
    ∀ (done : List StringSet) (i : Nat) (e : StringSet) (post : List StringSet),
      (∀ e' ∈ pre, set.Disjoint e') → ¬ set.Disjoint e →
      scanColocated k set done (pre ++ e :: post) i none =
        scanColocated k set (done ++ pre ++ [StringSet.Insert e set.List]) post
          (i + pre.length + 1) (some (i + pre.length)) := by
  induction pre with
  | nil =>
    intro done i e post _ he
    have hne : ¬ (set.Intersection e).Len = 0 := by
      rw [Intersection_Len_eq_zero]
      intro h
      exact he (fun x hx hxe => h x hx hxe)
    simp [scanColocated, hne]
  | cons p pre ih =>
    intro done i e post h he
    have hp : (set.Intersection p).Len = 0 :=
      (Intersection_Len_eq_zero set p).mpr
        (fun x hx hxe => h p (List.mem_cons_self p pre) hx hxe)
    simp only [List.cons_append]
    simp only [scanColocated, hp, if_true]
    rw [ih _ _ _ _ (fun e' he' => h e' (List.mem_cons_of_mem p he')) he]
    simp only [List.append_assoc, List.singleton_append, List.length_cons]
    have e1 : i + 1 + pre.length + 1 = i + (pre.length + 1) + 1 := by omega
    have e2 : i + 1 + pre.length = i + (pre.length + 1) := by omega
    rw [e1, e2]

/-- Every list of sets is either disjoint from `set` throughout or has a first
member that meets it. -/
theorem first_meeting (set : StringSet) (l : List StringSet) :
    (∀ e ∈ l, set.Disjoint e) ∨
    ∃ pre e post, l = pre ++ e :: post ∧ (∀ e' ∈ pre, set.Disjoint e') ∧ ¬ set.Disjoint e := by
  induction l with
  | nil => left; simp
  | cons a l ih =>
    by_cases ha : set.Disjoint a
    · rcases ih with h | ⟨pre, e, post, hl, hpre, he⟩
      · left
        intro e he
        rcases List.mem_cons.mp he with rfl | h'
        · exact ha
        · exact h e h'
      · right
        refine ⟨a :: pre, e, post, by simp [hl], ?_, he⟩
        intro e' he'
        rcases List.mem_cons.mp he' with rfl | h'
        · exact ha
        · exact hpre e' h'
    · right
      exact ⟨[], a, l, rfl, by simp, ha⟩

/-- The three ways one step of the solver can go: no set meets the join-set
and it is appended; exactly one set meets it and is merged; a second set
meets it and the step fails after the first was merged. -/
theorem updatePodsListStep_cases (joins : GoMap StringSet) (L : List StringSet) (k : String) :
    ((∀ e ∈ L, ((joins.get k).getD []).Disjoint e) ∧
      updatePodsListStep joins L k = (L ++ [(joins.get k).getD []], none)) ∨
    (∃ pre e post, L = pre ++ e :: post ∧
      (∀ e' ∈ pre, ((joins.get k).getD []).Disjoint e') ∧
      ¬ ((joins.get k).getD []).Disjoint e ∧
      (∀ e' ∈ post, ((joins.get k).getD []).Disjoint e') ∧
      updatePodsListStep joins L k =
        (pre ++ StringSet.Insert e (StringSet.List ((joins.get k).getD [])) :: post, none)) ∨
    (∃ pre e mid e2 post, L = pre ++ e :: (mid ++ e2 :: post) ∧
      (∀ e' ∈ pre, ((joins.get k).getD []).Disjoint e') ∧
      ¬ ((joins.get k).getD []).Disjoint e ∧
      (∀ e' ∈ mid, ((joins.get k).getD []).Disjoint e') ∧
      ¬ ((joins.get k).getD []).Disjoint e2 ∧
      updatePodsListStep joins L k =
        (pre ++ StringSet.Insert e (StringSet.List ((joins.get k).getD [])) :: (mid ++ e2 :: post),
          some (Error.conflict k ((joins.get k).getD [])
            (StringSet.Insert e (StringSet.List ((joins.get k).getD [])))))) := by
  generalize hset : (joins.get k).getD [] = set
  rcases first_meeting set L with h | ⟨pre, e, post, hL, hpre, he⟩
  · left
    refine ⟨h, ?_⟩
    simp only [updatePodsListStep, hset, scanColocated_disjoint k set L [] 0 none h]
    simp
  · right
    rcases first_meeting set post with h2 | ⟨mid, e2, post2, hpost, hmid, he2⟩
    · left
      refine ⟨pre, e, post, hL, hpre, he, h2, ?_⟩
      simp only [updatePodsListStep, hset, hL, scanColocated_first k set pre [] 0 e post hpre he,
        scanColocated_disjoint k set post _ _ _ h2]
      simp
    · right
      refine ⟨pre, e, mid, e2, post2, by rw [hL, hpost], hpre, he, hmid, he2, ?_⟩
      simp only [updatePodsListStep, hset, hL, hpost,
        scanColocated_first k set pre [] 0 e _ hpre he,
        scanColocated_second k set mid _ _ _ e2 post2 hmid he2]
      simp [List.getElem_append_right]


/-- A successful step keeps the sets pairwise disjoint and adds exactly the
members of the join-set of `k` to their union. -/
theorem updatePodsListStep_ok (joins : GoMap StringSet) (L L1 : List StringSet) (k : String)
    (h : updatePodsListStep joins L k = (L1, none)) :
    (L.Pairwise List.Disjoint → L1.Pairwise List.Disjoint) ∧
    (∀ x, (∃ c ∈ L1, x ∈ c) ↔ (∃ c ∈ L, x ∈ c) ∨ x ∈ (joins.get k).getD []) := by
  rcases updatePodsListStep_cases joins L k with
    ⟨hd, hs⟩ | ⟨pre, e, post, hL, hpre, he, hpost, hs⟩ | ⟨pre, e, mid, e2, post, _, _, _, _, _, hs⟩
  · rw [hs] at h
    have hL1 : L1 = L ++ [(joins.get k).getD []] := (Prod.mk.inj h).1.symm
    subst hL1
    constructor
    · intro hp
      rw [List.pairwise_append]
      refine ⟨hp, List.pairwise_singleton _ _, ?_⟩
      intro a ha b hb
      rw [List.mem_singleton] at hb
      subst hb
      exact (hd a ha).symm
    · intro x
      simp only [List.mem_append, List.mem_singleton]
      constructor
      · rintro ⟨c, hc | hc, hx⟩
        · exact Or.inl ⟨c, hc, hx⟩
        · exact Or.inr (hc ▸ hx)
      · rintro (⟨c, hc, hx⟩ | hx)
        · exact ⟨c, Or.inl hc, hx⟩
        · exact ⟨_, Or.inr rfl, hx⟩
  · rw [hs] at h
    have hL1 : L1 = pre ++ StringSet.Insert e (StringSet.List ((joins.get k).getD [])) :: post :=
      (Prod.mk.inj h).1.symm
    subst hL1
    subst hL
    have hmem : ∀ x, x ∈ StringSet.Insert e (StringSet.List ((joins.get k).getD [])) ↔
        x ∈ e ∨ x ∈ (joins.get k).getD [] := by
      intro x
      rw [mem_Insert_iff, mem_List_iff]
    constructor
    · intro hp
      rw [List.pairwise_append, List.pairwise_cons] at hp ⊢
      obtain ⟨hp1, ⟨hp2, hp3⟩, hp4⟩ := hp
      refine ⟨hp1, ⟨?_, hp3⟩, ?_⟩
      · intro b hb x hx hxb
        rcases (hmem x).mp hx with h1 | h1
        · exact hp2 b hb h1 hxb
        · exact hpost b hb h1 hxb
      · intro a ha b hb
        rcases List.mem_cons.mp hb with rfl | hb'
        · intro x hxa hx
          rcases (hmem x).mp hx with h1 | h1
          · exact hp4 a ha e (List.mem_cons_self _ _) hxa h1
          · exact hpre a ha h1 hxa
        · exact hp4 a ha b (List.mem_cons_of_mem _ hb')
    · intro x
      simp only [List.mem_append, List.mem_cons]
      constructor
      · rintro ⟨c, hc | hc | hc, hx⟩
        · exact Or.inl ⟨c, Or.inl hc, hx⟩
        · subst hc
          rcases (hmem x).mp hx with h1 | h1
          · exact Or.inl ⟨e, Or.inr (Or.inl rfl), h1⟩
          · exact Or.inr h1
        · exact Or.inl ⟨c, Or.inr (Or.inr hc), hx⟩
      · rintro (⟨c, hc | hc | hc, hx⟩ | hx)
        · exact ⟨c, Or.inl hc, hx⟩
        · subst hc
          exact ⟨_, Or.inr (Or.inl rfl), (hmem x).mpr (Or.inl hx)⟩
        · exact ⟨c, Or.inr (Or.inr hc), hx⟩
        · exact ⟨_, Or.inr (Or.inl rfl), (hmem x).mpr (Or.inr hx)⟩
  · rw [hs] at h
    exact absurd (Prod.mk.inj h).2 (by simp)

/-- A successful run of the outer loop keeps the sets pairwise disjoint and
adds exactly the members of the visited join-sets to their union. -/
theorem updatePodsListLoop_ok (joins : GoMap StringSet) (ks : List String) :
    ∀ (L L1 : List StringSet), updatePodsListLoop joins ks L = (L1, none) →
      (L.Pairwise List.Disjoint → L1.Pairwise List.Disjoint) ∧
      (∀ x, (∃ c ∈ L1, x ∈ c) ↔
        (∃ c ∈ L, x ∈ c) ∨ ∃ k ∈ ks, x ∈ (joins.get k).getD []) := by
  induction ks with
  | nil =>
    intro L L1 h
    simp only [updatePodsListLoop] at h
    have hL : L1 = L := (Prod.mk.inj h).1.symm
    subst hL
    simp
  | cons k ks ih =>
    intro L L1 h
    rw [updatePodsListLoop] at h
    rcases hstep : updatePodsListStep joins L k with ⟨L2, _ | err⟩
    · rw [hstep] at h
      obtain ⟨hp1, hu1⟩ := updatePodsListStep_ok joins L L2 k hstep
      obtain ⟨hp2, hu2⟩ := ih L2 L1 h
      refine ⟨fun hp => hp2 (hp1 hp), ?_⟩
      intro x
      rw [hu2 x, hu1 x]
      simp only [List.mem_cons, exists_eq_or_imp]
      exact or_assoc
    · rw [hstep] at h
      exact absurd (Prod.mk.inj h).2 (by simp)

theorem mem_joinOrder_List (data : TransformData) (k : String) :
    k ∈ (joinOrder data).List ↔ ∃ s, data.joins.get k = some s := by
  rw [mem_List_iff, joinOrder, mem_Insert_iff, mem_keys_iff]
  simp [NewString]

/-- C1. When `updatePodsList`, started with no colocation set on a map of
join-sets each of which holds its own service, returns no error, the
colocation sets are a partition: they are pairwise disjoint, every service
lies in exactly one of them, and their union is the union of the join-sets. -/
theorem updatePodsList_partition (data : TransformData)
    (hempty : data.colocated = [])
    (hself : ∀ k s, data.joins.get k = some s → k ∈ s)
    (hok : (updatePodsList data).2 = none) :
    (updatePodsList data).1.colocated.Pairwise List.Disjoint ∧
    (∀ k s, data.joins.get k = some s →
      ∃ (i : Nat) (c : StringSet), (updatePodsList data).1.colocated[i]? = some c ∧ k ∈ c ∧
        ∀ (j : Nat) (c' : StringSet),
          (updatePodsList data).1.colocated[j]? = some c' → k ∈ c' → j = i) ∧
    (∀ x, (∃ c ∈ (updatePodsList data).1.colocated, x ∈ c) ↔
      ∃ k s, data.joins.get k = some s ∧ x ∈ s) := by
  have hloop : updatePodsListLoop data.joins (joinOrder data).List [] =
      ((updatePodsList data).1.colocated, none) := by
    have h2 : (updatePodsListLoop data.joins (joinOrder data).List data.colocated).2 = none := hok
    rw [hempty] at h2
    simp only [updatePodsList, hempty]
    exact Prod.ext rfl h2
  obtain ⟨hp, hu⟩ := updatePodsListLoop_ok data.joins _ [] _ hloop
  have hpair := hp List.Pairwise.nil
  have hunion : ∀ x, (∃ c ∈ (updatePodsList data).1.colocated, x ∈ c) ↔
      ∃ k s, data.joins.get k = some s ∧ x ∈ s := by
    intro x
    rw [hu x]
    constructor
    · rintro (⟨c, hc, _⟩ | ⟨k, hk, hx⟩)
      · exact absurd hc (List.not_mem_nil c)
      · obtain ⟨s, hs⟩ := (mem_joinOrder_List data k).mp hk
        exact ⟨k, s, hs, by simpa [hs] using hx⟩
    · rintro ⟨k, s, hs, hx⟩
      exact Or.inr ⟨k, (mem_joinOrder_List data k).mpr ⟨s, hs⟩, by simpa [hs] using hx⟩
  refine ⟨hpair, ?_, hunion⟩
  intro k s hs
  obtain ⟨c, hc, hkc⟩ := (hunion k).mpr ⟨k, s, hs, hself k s hs⟩
  obtain ⟨i, hi⟩ := List.mem_iff_getElem?.mp hc
  refine ⟨i, c, hi, hkc, ?_⟩
  intro j c' hj hkc'
  by_contra hne
  obtain ⟨hi', rfl⟩ := List.getElem?_eq_some.mp hi
  obtain ⟨hj', rfl⟩ := List.getElem?_eq_some.mp hj
  rcases Nat.lt_or_gt_of_ne hne with hlt | hlt
  · exact (List.pairwise_iff_getElem.mp hpair j i hj' hi' hlt) hkc' hkc
  · exact (List.pairwise_iff_getElem.mp hpair i j hi' hj' hlt) hkc hkc'

/-- C1, at the project of the end-to-end case: `worker` joins `web`. -/
theorem updatePodsList_partition_witness :
    (updatePodsList { joins := [("web", ["web"]), ("worker", ["worker", "web"])] }).1.colocated
        = [["web", "worker"]] ∧
    ((updatePodsList
        { joins := [("web", ["web"]), ("worker", ["worker", "web"])] }).1.colocated.Pairwise
        List.Disjoint) :=
  ⟨by decide,
   (updatePodsList_partition { joins := [("web", ["web"]), ("worker", ["worker", "web"])] }
      (by decide)
      (by
        intro k s h
        simp only [GoMap.get] at h
        by_cases h1 : "web" = k
        · simp only [h1, if_true, Option.some.injEq] at h
          subst h
          simp [← h1]
        · simp only [h1, if_false] at h
          by_cases h2 : "worker" = k
          · simp only [h2, if_true, Option.some.injEq] at h
            subst h
            simp [← h2]
          · simp [h2] at h)
      (by decide)).1⟩


theorem updatePodsListLoop_append (joins : GoMap StringSet) (pre : List String) :
    ∀ (ks : List String) (L0 L : List StringSet),
      updatePodsListLoop joins pre L0 = (L, none) →
      updatePodsListLoop joins (pre ++ ks) L0 = updatePodsListLoop joins ks L := by
  induction pre with
  | nil =>
    intro ks L0 L h
    simp only [updatePodsListLoop] at h
    rw [(Prod.mk.inj h).1]
    rfl
  | cons k pre ih =>
    intro ks L0 L h
    rw [updatePodsListLoop] at h
    rw [List.cons_append, updatePodsListLoop]
    rcases hstep : updatePodsListStep joins L0 k with ⟨L2, _ | err⟩
    · rw [hstep] at h
      exact ih ks L2 L h
    · rw [hstep] at h
      exact absurd (Prod.mk.inj h).2 (by simp)

/-- In a list whose members before and after `e` all satisfy `D`, a member
that fails `D` sits at the position of `e`. -/
theorem meeting_index (D : StringSet → Prop) (P : List StringSet) (e : StringSet)
    (R : List StringSet) (hP : ∀ e' ∈ P, D e') (hR : ∀ e' ∈ R, D e')
    (i : Nat) (a : StringSet) (h : (P ++ e :: R)[i]? = some a) (ha : ¬ D a) :
    i = P.length := by
  rcases Nat.lt_trichotomy i P.length with hlt | heq | hgt
  · rw [List.getElem?_append_left hlt] at h
    exact absurd (hP a (List.getElem?_mem h)) ha
  · exact heq
  · rw [List.getElem?_append_right (Nat.le_of_lt hgt)] at h
    obtain ⟨m, hm⟩ : ∃ m, i - P.length = m + 1 := ⟨i - P.length - 1, by omega⟩
    rw [hm, List.getElem?_cons_succ] at h
    exact absurd (hR a (List.getElem?_mem h)) ha

/-- C2, as the code has it. When, visiting the services in sorted order, the
join-set of a service `k` meets two of the colocation sets `L` formed so
far, `updatePodsList` returns the conflict error for `k`, and the colocation
list it leaves behind is `L` with the first set that meets the join-set
already merged with it: no set is added, and `L` is not rolled back. -/
theorem updatePodsList_conflict (data : TransformData) (pre post : List String) (k : String)
    (L : List StringSet) (i j : Nat) (a b : StringSet)
    (hord : (joinOrder data).List = pre ++ k :: post)
    (hpre : updatePodsListLoop data.joins pre data.colocated = (L, none))
    (hij : i < j) (hi : L[i]? = some a) (hj : L[j]? = some b)
    (ha : ¬ ((data.joins.get k).getD []).Disjoint a)
    (hb : ¬ ((data.joins.get k).getD []).Disjoint b) :
    ∃ (P : List StringSet) (e : StringSet) (R : List StringSet),
      L = P ++ e :: R ∧
      (∀ e' ∈ P, ((data.joins.get k).getD []).Disjoint e') ∧
      ¬ ((data.joins.get k).getD []).Disjoint e ∧
      (updatePodsList data).1.colocated =
        P ++ StringSet.Insert e (StringSet.List ((data.joins.get k).getD [])) :: R ∧
      (updatePodsList data).2 =
        some (Error.conflict k ((data.joins.get k).getD [])
          (StringSet.Insert e (StringSet.List ((data.joins.get k).getD [])))) := by
  have hrun : updatePodsListLoop data.joins (joinOrder data).List data.colocated =
      updatePodsListLoop data.joins (k :: post) L := by
    rw [hord]
    exact updatePodsListLoop_append data.joins pre (k :: post) data.colocated L hpre
  rcases updatePodsListStep_cases data.joins L k with
    ⟨hd, _⟩ | ⟨P, e, R, hL, hP, _, hR, _⟩ | ⟨P, e, mid, e2, R, hL, hP, he, _, _, hs⟩
  · exact absurd (hd a (List.getElem?_mem hi)) ha
  · subst hL
    have h1 := meeting_index _ P e R hP hR i a hi ha
    have h2 := meeting_index _ P e R hP hR j b hj hb
    omega
  · refine ⟨P, e, mid ++ e2 :: R, hL, hP, he, ?_, ?_⟩
    · simp only [updatePodsList, hrun, updatePodsListLoop, hs]
    · simp only [updatePodsList, hrun, updatePodsListLoop, hs]

/-- C2, at the hub that sorts last: `c` joins `a` and `b`. -/
theorem updatePodsList_conflict_witness :
    ∃ other, (updatePodsList hubLast).2 = some (Error.conflict "c" ["c", "a", "b"] other) := by
  obtain ⟨P, e, R, _, _, _, _, h⟩ :=
    updatePodsList_conflict hubLast ["a", "b"] [] "c" [["a"], ["b"]] 0 1 ["a"] ["b"]
      (by decide) (by decide) (by decide) (by decide) (by decide)
      (fun h => h (by decide : "a" ∈ (GoMap.get hubLast.joins "c").getD []) (by decide))
      (fun h => h (by decide : "b" ∈ (GoMap.get hubLast.joins "c").getD []) (by decide))
  exact ⟨_, h⟩

/-- C2 as stated fails: on the join-sets `a: {a}`, `b: {b}`, `c: {c, a, b}`
the sets formed before `c` are `{a}` and `{b}`, the join-set of `c` meets
both, the call returns the conflict error, and the colocation list it leaves
is `[{a, b, c}, {b}]`, not the empty list it started from. -/
theorem conflict_leaves_merged_sets :
    hubLast.colocated = [] ∧
    updatePodsListLoop hubLast.joins ["a", "b"] []
      = ([["a"], ["b"]], none) ∧
    (updatePodsList hubLast).2
      = some (Error.conflict "c" ["c", "a", "b"] ["a", "b", "c"]) ∧
    (updatePodsList hubLast).1.colocated
      = [["a", "b", "c"], ["b"]] ∧
    (updatePodsList hubLast).1.colocated
      ≠ [] := by
  decide


/-! ## Splitting strings -/

theorem splitChars_ne_nil (sep : Char) (l : List Char) : splitChars sep l ≠ [] := by
  cases l with
  | nil => simp [splitChars]
  | cons c cs =>
    rw [splitChars]
    split
    · simp
    · split <;> simp

theorem splitChars_cons_of_ne (sep c : Char) (cs : List Char) (h : c ≠ sep) :
    ∃ seg segs, splitChars sep cs = seg :: segs ∧
      splitChars sep (c :: cs) = (c :: seg) :: segs := by
  rcases hs : splitChars sep cs with _ | ⟨seg, segs⟩
  · exact absurd hs (splitChars_ne_nil sep cs)
  · refine ⟨seg, segs, rfl, ?_⟩
    rw [splitChars, if_neg h, hs]

/-- A piece without the separator is split into itself. -/
theorem splitChars_of_not_mem (sep : Char) (l : List Char) (h : sep ∉ l) :
    splitChars sep l = [l] := by
  induction l with
  | nil => rfl
  | cons c cs ih =>
    have hc : c ≠ sep := fun e => h (e ▸ List.mem_cons_self c cs)
    obtain ⟨seg, segs, h1, h2⟩ := splitChars_cons_of_ne sep c cs hc
    rw [ih (fun hm => h (List.mem_cons_of_mem c hm))] at h1
    rw [h2]
    simp only [List.cons.injEq] at h1
    rw [← h1.1, ← h1.2]

/-- A piece without the separator, followed by the separator, is split off. -/
theorem splitChars_append_sep (sep : Char) (a rest : List Char) (h : sep ∉ a) :
    splitChars sep (a ++ sep :: rest) = a :: splitChars sep rest := by
  induction a with
  | nil => simp [splitChars]
  | cons c cs ih =>
    have hc : c ≠ sep := fun e => h (e ▸ List.mem_cons_self c cs)
    obtain ⟨seg, segs, h1, h2⟩ := splitChars_cons_of_ne sep c (cs ++ sep :: rest) hc
    rw [ih (fun hm => h (List.mem_cons_of_mem c hm))] at h1
    rw [List.cons_append, h2]
    simp only [List.cons.injEq] at h1
    rw [← h1.1, ← h1.2]

/-- The number of pieces is the number of separators plus one. -/
theorem length_splitChars (sep : Char) (l : List Char) :
    (splitChars sep l).length = l.count sep + 1 := by
  induction l with
  | nil => rfl
  | cons c cs ih =>
    by_cases hc : c = sep
    · subst hc
      simp [splitChars, ih]
    · obtain ⟨seg, segs, h1, h2⟩ := splitChars_cons_of_ne sep c cs hc
      rw [h2, List.count_cons_of_ne (Ne.symm hc), ← ih, h1]
      rfl

theorem length_Split (s : String) (sep : Char) :
    (Split s sep).length = s.data.count sep + 1 := by
  rw [Split, List.length_map, length_splitChars]

theorem Split_one (s : String) (sep : Char) (h : sep ∉ s.data) : Split s sep = [s] := by
  rw [Split, splitChars_of_not_mem sep _ h]
  rfl

theorem Split_two (a b : String) (sep : Char) (ha : sep ∉ a.data) (hb : sep ∉ b.data) :
    Split (a ++ String.singleton sep ++ b) sep = [a, b] := by
  have hd : (a ++ String.singleton sep ++ b).data = a.data ++ sep :: b.data := by
    simp [String.data_append, String.singleton]
  rw [Split, hd, splitChars_append_sep sep _ _ ha, splitChars_of_not_mem sep _ hb]
  rfl

theorem Split_three (a b c : String) (sep : Char) (ha : sep ∉ a.data) (hb : sep ∉ b.data)
    (hc : sep ∉ c.data) :
    Split (a ++ String.singleton sep ++ b ++ String.singleton sep ++ c) sep = [a, b, c] := by
  have hd : (a ++ String.singleton sep ++ b ++ String.singleton sep ++ c).data =
      a.data ++ sep :: (b.data ++ sep :: c.data) := by
    simp [String.data_append, String.singleton]
  rw [Split, hd, splitChars_append_sep sep _ _ ha, splitChars_append_sep sep _ _ hb,
    splitChars_of_not_mem sep _ hc]
  rfl


/-! ## Volumes and joins -/

theorem get_set_self {β : Type} (m : GoMap β) (k : String) (v : β) :
    GoMap.get (GoMap.set m k v) k = some v := by
  induction m with
  | nil => simp [GoMap.set, GoMap.get]
  | cons kv rest ih =>
    obtain ⟨k', v'⟩ := kv
    by_cases h : k' = k
    · simp [GoMap.set, GoMap.get, h]
    · simp [GoMap.set, GoMap.get, h, ih]

theorem get_set_of_ne {β : Type} (m : GoMap β) (k k2 : String) (v : β) (hne : k ≠ k2) :
    GoMap.get (GoMap.set m k v) k2 = GoMap.get m k2 := by
  induction m with
  | nil => simp [GoMap.set, GoMap.get, hne]
  | cons kv rest ih =>
    obtain ⟨k', v'⟩ := kv
    by_cases h : k' = k
    · subst h
      simp [GoMap.set, GoMap.get, hne]
    · by_cases h2 : k' = k2
      · subst h2
        simp [GoMap.set, GoMap.get, h]
      · simp [GoMap.set, GoMap.get, h, h2, ih]

/-- The declarations of service `k` only touch the entries of `k`. -/
theorem updateVolumesDecl_other (k k2 : String) (hne : k ≠ k2) (decls : List String) :
    ∀ d : TransformData,
      GoMap.get (decls.foldl (updateVolumesDecl k) d).joins k2 = GoMap.get d.joins k2 ∧
      GoMap.get (decls.foldl (updateVolumesDecl k) d).volumesFrom k2 =
        GoMap.get d.volumesFrom k2 := by
  induction decls with
  | nil => intro d; exact ⟨rfl, rfl⟩
  | cons decl decls ih =>
    intro d
    rw [List.foldl_cons]
    obtain ⟨h1, h2⟩ := ih (updateVolumesDecl k d decl)
    rw [h1, h2]
    unfold updateVolumesDecl
    cases volumesFromTarget decl with
    | none => exact ⟨rfl, rfl⟩
    | some t => exact ⟨get_set_of_ne _ _ _ _ hne, get_set_of_ne _ _ _ _ hne⟩

/-- The declarations of service `k` insert their targets into `joins[k]` and
append them to `volumesFrom[k]`, in order. -/
theorem updateVolumesDecl_self (k : String) (decls : List String) :
    ∀ (d : TransformData) (s : StringSet), GoMap.get d.joins k = some s →
      GoMap.get (decls.foldl (updateVolumesDecl k) d).joins k =
        some (StringSet.Insert s (decls.filterMap volumesFromTarget)) ∧
      (GoMap.get (decls.foldl (updateVolumesDecl k) d).volumesFrom k).getD [] =
        (GoMap.get d.volumesFrom k).getD [] ++ decls.filterMap volumesFromTarget := by
  induction decls with
  | nil => intro d s hs; simp [hs, StringSet.Insert]
  | cons decl decls ih =>
    intro d s hs
    rw [List.foldl_cons]
    cases ht : volumesFromTarget decl with
    | none =>
      have hd : updateVolumesDecl k d decl = d := by simp [updateVolumesDecl, ht]
      rw [hd, List.filterMap_cons_none ht]
      exact ih d s hs
    | some t =>
      have hj : GoMap.get (updateVolumesDecl k d decl).joins k =
          some (StringSet.Insert s [t]) := by
        simp [updateVolumesDecl, ht, get_set_self, hs]
      have hv : (GoMap.get (updateVolumesDecl k d decl).volumesFrom k).getD [] =
          (GoMap.get d.volumesFrom k).getD [] ++ [t] := by
        simp [updateVolumesDecl, ht, get_set_self]
      obtain ⟨h1, h2⟩ := ih (updateVolumesDecl k d decl) _ hj
      rw [h1, h2, hv, List.filterMap_cons_some ht]
      constructor
      · simp [StringSet.Insert]
      · simp

/-- One service of `updateVolumes` leaves the entries of the others alone. -/
theorem updateVolumesService_other (p : Project) (d d1 : TransformData) (k k2 : String)
    (hne : k ≠ k2) (h : updateVolumesService p d k = some d1) :
    GoMap.get d1.joins k2 = GoMap.get d.joins k2 ∧
    GoMap.get d1.volumesFrom k2 = GoMap.get d.volumesFrom k2 := by
  unfold updateVolumesService at h
  cases hv : GoMap.get p.Configs k with
  | none => simp [hv] at h
  | some v =>
    simp only [hv, Option.some.injEq] at h
    subst h
    obtain ⟨h1, h2⟩ := updateVolumesDecl_other k k2 hne v.VolumesFrom
      (match GoMap.get d.joins k with
        | none => { d with joins := GoMap.set d.joins k (NewString [k]) }
        | some _ => d)
    rw [h1, h2]
    cases GoMap.get d.joins k with
    | none => exact ⟨get_set_of_ne _ _ _ _ hne, rfl⟩
    | some s => exact ⟨rfl, rfl⟩

/-- One service of `updateVolumes`, for a service with no entries yet. -/
theorem updateVolumesService_self (p : Project) (d : TransformData) (k : String)
    (v : ServiceConfig) (hv : GoMap.get p.Configs k = some v)
    (hj : GoMap.get d.joins k = none) (hf : GoMap.get d.volumesFrom k = none) :
    ∃ d1, updateVolumesService p d k = some d1 ∧
      GoMap.get d1.joins k =
        some (StringSet.Insert [k] (v.VolumesFrom.filterMap volumesFromTarget)) ∧
      (GoMap.get d1.volumesFrom k).getD [] = v.VolumesFrom.filterMap volumesFromTarget := by
  have hrun : updateVolumesService p d k =
      some (v.VolumesFrom.foldl (updateVolumesDecl k)
        { d with joins := GoMap.set d.joins k (NewString [k]) }) := by
    simp only [updateVolumesService, hv, hj]
  refine ⟨_, hrun, ?_⟩
  have hs : GoMap.get ({ d with joins := GoMap.set d.joins k (NewString [k]) } :
      TransformData).joins k = some [k] := by
    simp [get_set_self, NewString]
  obtain ⟨h1, h2⟩ := updateVolumesDecl_self k v.VolumesFrom _ _ hs
  refine ⟨h1, ?_⟩
  rw [h2]
  simp [hf]


/-- The outer loop of `updateVolumes` over distinct services, none of which
has entries yet: it completes, and each visited service gets its own name
plus its resolved targets as join-set and the targets as `volumesFrom`. -/
theorem updateVolumes_loop (p : Project) (ks : List String) :
    ∀ d : TransformData, ks.Nodup →
      (∀ k ∈ ks, ∃ v, GoMap.get p.Configs k = some v) →
      (∀ k ∈ ks, GoMap.get d.joins k = none ∧ GoMap.get d.volumesFrom k = none) →
      ∃ d1, ks.foldlM (updateVolumesService p) d = some d1 ∧
        (∀ k2, k2 ∉ ks → GoMap.get d1.joins k2 = GoMap.get d.joins k2 ∧
          GoMap.get d1.volumesFrom k2 = GoMap.get d.volumesFrom k2) ∧
        (∀ k ∈ ks, ∀ v, GoMap.get p.Configs k = some v →
          GoMap.get d1.joins k =
            some (StringSet.Insert [k] (v.VolumesFrom.filterMap volumesFromTarget)) ∧
          (GoMap.get d1.volumesFrom k).getD [] =
            v.VolumesFrom.filterMap volumesFromTarget) := by
  induction ks with
  | nil => intro d _ _ _; exact ⟨d, rfl, fun _ _ => ⟨rfl, rfl⟩, by simp⟩
  | cons k ks ih =>
    intro d hnd hcfg hnone
    obtain ⟨hk, hnd'⟩ := List.nodup_cons.mp hnd
    obtain ⟨v, hv⟩ := hcfg k (List.mem_cons_self k ks)
    obtain ⟨hj, hf⟩ := hnone k (List.mem_cons_self k ks)
    obtain ⟨d1, hrun, hj1, hf1⟩ := updateVolumesService_self p d k v hv hj hf
    have hother : ∀ k2, k ≠ k2 → GoMap.get d1.joins k2 = GoMap.get d.joins k2 ∧
        GoMap.get d1.volumesFrom k2 = GoMap.get d.volumesFrom k2 :=
      fun k2 hne => updateVolumesService_other p d d1 k k2 hne hrun
    obtain ⟨d2, hrun2, hout, hin⟩ := ih d1 hnd'
      (fun k' hk' => hcfg k' (List.mem_cons_of_mem k hk'))
      (fun k' hk' => by
        have hne : k ≠ k' := fun e => hk (e ▸ hk')
        obtain ⟨h1, h2⟩ := hother k' hne
        rw [h1, h2]
        exact hnone k' (List.mem_cons_of_mem k hk'))
    refine ⟨d2, ?_, ?_, ?_⟩
    · rw [List.foldlM_cons, hrun]
      exact hrun2
    · intro k2 hk2
      have hne : k ≠ k2 := fun e => hk2 (e ▸ List.mem_cons_self k ks)
      obtain ⟨h1, h2⟩ := hout k2 (fun hm => hk2 (List.mem_cons_of_mem k hm))
      obtain ⟨h3, h4⟩ := hother k2 hne
      exact ⟨h1.trans h3, h2.trans h4⟩
    · intro k' hk' v' hv'
      rcases List.mem_cons.mp hk' with rfl | hmem
      · obtain ⟨h1, h2⟩ := hout k' hk
        rw [hv] at hv'
        cases hv'
        rw [h1, h2]
        exact ⟨hj1, hf1⟩
      · exact hin k' hmem v' hv'

/-- What `updateServiceOrder` does to the fields read by `updateVolumes`. -/
theorem updateServiceOrder_fields (cfgs : GoMap ServiceConfig) :
    ∀ d : TransformData,
      (cfgs.foldl (fun (d : TransformData) kv =>
          { d with
            serviceOrder := d.serviceOrder.Insert [kv.1]
            warnings := warnUnusableComposeElements kv.1 kv.2 d.warnings }) d).joins = d.joins ∧
      (cfgs.foldl (fun (d : TransformData) kv =>
          { d with
            serviceOrder := d.serviceOrder.Insert [kv.1]
            warnings := warnUnusableComposeElements kv.1 kv.2 d.warnings }) d).volumesFrom
        = d.volumesFrom ∧
      ∀ x, x ∈ (cfgs.foldl (fun (d : TransformData) kv =>
          { d with
            serviceOrder := d.serviceOrder.Insert [kv.1]
            warnings := warnUnusableComposeElements kv.1 kv.2 d.warnings }) d).serviceOrder ↔
        x ∈ d.serviceOrder ∨ x ∈ cfgs.map Prod.fst := by
  induction cfgs with
  | nil => intro d; simp
  | cons kv cfgs ih =>
    intro d
    rw [List.foldl_cons]
    obtain ⟨h1, h2, h3⟩ := ih
      { d with
        serviceOrder := d.serviceOrder.Insert [kv.1]
        warnings := warnUnusableComposeElements kv.1 kv.2 d.warnings }
    refine ⟨h1, h2, ?_⟩
    intro x
    rw [h3 x]
    simp only [mem_Insert_iff, List.mem_cons, List.not_mem_nil, or_false, List.map_cons, List.mem_cons]
    exact or_assoc

/-- C10, as the code has it. For every declared service `k`, `updateVolumes`
(run after `updateServiceOrder` on fresh data) completes; the join-set of `k`
is `k` plus the resolved target of each volumes-from declaration that has
one, and `volumesFrom[k]` lists those targets in declaration order. The
target of `NAME` is `NAME`; of `A:B` it is `A` when `B` is `ro` or `rw` and
`B` otherwise; of `A:B:C` it is `B`; so the trailing segment of a declaration
with a `ro`/`rw` mode is never the target. A declaration has a target exactly
when it has at most three colon-separated segments (at most two colons): one
with more is skipped. -/
theorem updateVolumes_joins (p : Project) (k : String) (v : ServiceConfig)
    (hk : GoMap.get p.Configs k = some v) :
    (∃ d, updateVolumes p (updateServiceOrder p {}) = some d ∧
      (∃ s, GoMap.get d.joins k = some s ∧
        ∀ x, x ∈ s ↔ x = k ∨ x ∈ v.VolumesFrom.filterMap volumesFromTarget) ∧
      (GoMap.get d.volumesFrom k).getD [] = v.VolumesFrom.filterMap volumesFromTarget) ∧
    (∀ name : String, ':' ∉ name.data → volumesFromTarget name = some name) ∧
    (∀ a m : String, ':' ∉ a.data → (m = "ro" ∨ m = "rw") →
      volumesFromTarget (a ++ ":" ++ m) = some a) ∧
    (∀ a b : String, ':' ∉ a.data → ':' ∉ b.data → b ≠ "ro" → b ≠ "rw" →
      volumesFromTarget (a ++ ":" ++ b) = some b) ∧
    (∀ a b c : String, ':' ∉ a.data → ':' ∉ b.data → ':' ∉ c.data →
      volumesFromTarget (a ++ ":" ++ b ++ ":" ++ c) = some b) ∧
    (∀ decl : String, (∃ t, volumesFromTarget decl = some t) ↔ decl.data.count ':' ≤ 2) := by
  refine ⟨?_, ?_, ?_, ?_, ?_, ?_⟩
  · obtain ⟨hj0, hf0, hso⟩ := updateServiceOrder_fields p.Configs {}
    have hmem : ∀ x, x ∈ (updateServiceOrder p {}).serviceOrder.List ↔
        ∃ v, GoMap.get p.Configs x = some v := by
      intro x
      rw [mem_List_iff]
      unfold updateServiceOrder
      rw [hso x, ← mem_keys_iff, GoMap.keys, List.mem_dedup]
      simp
    obtain ⟨d1, hrun, _, hin⟩ := updateVolumes_loop p (updateServiceOrder p {}).serviceOrder.List
      (updateServiceOrder p {}) (nodup_List _) (fun k' hk' => (hmem k').mp hk')
      (fun k' _ => by
        unfold updateServiceOrder
        rw [hj0, hf0]
        exact ⟨rfl, rfl⟩)
    obtain ⟨h1, h2⟩ := hin k ((hmem k).mpr ⟨v, hk⟩) v hk
    refine ⟨d1, hrun, ⟨_, h1, ?_⟩, h2⟩
    intro x
    rw [mem_Insert_iff, List.mem_singleton]
  · intro name h
    rw [volumesFromTarget, Split_one name ':' h]
  · intro a m ha hm
    have hm' : ':' ∉ m.data := by rcases hm with rfl | rfl <;> decide
    have h := Split_two a m ':' ha hm'
    rw [show String.singleton ':' = ":" from rfl] at h
    rw [volumesFromTarget, h]
    simp [hm]
  · intro a b ha hb h1 h2
    have h := Split_two a b ':' ha hb
    rw [show String.singleton ':' = ":" from rfl] at h
    rw [volumesFromTarget, h]
    simp [h1, h2]
  · intro a b c ha hb hc
    have h := Split_three a b c ':' ha hb hc
    rw [show String.singleton ':' = ":" from rfl] at h
    rw [volumesFromTarget, h]
  · intro decl
    have hlen := length_Split decl ':'
    unfold volumesFromTarget
    rcases hs : Split decl ':' with _ | ⟨p0, _ | ⟨p1, _ | ⟨p2, _ | ⟨p3, rest⟩⟩⟩⟩ <;>
      rw [hs] at hlen <;> simp at hlen ⊢ <;> omega

/-- C10, at the end-to-end project: `worker` takes volumes from `web`. -/
theorem updateVolumes_joins_witness :
    ∃ d, updateVolumes webWorker (updateServiceOrder webWorker {}) = some d ∧
      (∃ s, GoMap.get d.joins "worker" = some s ∧
        ∀ x, x ∈ s ↔ x = "worker" ∨ x ∈ ["web"]) ∧
      (GoMap.get d.volumesFrom "worker").getD [] = ["web"] :=
  (updateVolumes_joins webWorker "worker" { Image := "redis", VolumesFrom := ["web"] }
    (by decide)).1

/-- C10 as stated fails: the service `a` with the one declaration `w:x:y:z`
ends with the join-set `{a}` and an empty `volumesFrom`, so that declaration
has no resolved target. -/
theorem updateVolumes_skips_four_segments :
    (updateVolumes { Configs := [("a", { VolumesFrom := ["w:x:y:z"] })] }
      (updateServiceOrder { Configs := [("a", { VolumesFrom := ["w:x:y:z"] })] } {})).map
        (fun d => (d.joins, d.volumesFrom)) = some ([("a", ["a"])], []) := by
  decide


/-! ## The port parser -/

theorem data_joinSegments_cons (s t : String) (rest : List String) :
    (joinSegments (s :: t :: rest)).data = s.data ++ ':' :: (joinSegments (t :: rest)).data := by
  simp [joinSegments, String.data_append]

/-- The pieces of `strings.Split` hold no separator, and joined by it they
give the string back. -/
theorem splitChars_spec (l : List Char) :
    (∀ seg ∈ splitChars ':' l, ':' ∉ seg) ∧
    (joinSegments ((splitChars ':' l).map String.mk)).data = l := by
  induction l with
  | nil => simp [splitChars, joinSegments]
  | cons c cs ih =>
    obtain ⟨ih1, ih2⟩ := ih
    by_cases hc : c = ':'
    · subst hc
      rcases hs : splitChars ':' cs with _ | ⟨t, rest⟩
      · exact absurd hs (splitChars_ne_nil ':' cs)
      · rw [hs] at ih1 ih2
        constructor
        · intro seg hseg
          simp only [splitChars, if_true, hs, List.mem_cons] at hseg
          rcases hseg with rfl | h
          · simp
          · exact ih1 seg (List.mem_cons.mpr h)
        · simp only [splitChars, if_true, hs, List.map_cons]
          rw [data_joinSegments_cons]
          simp only [List.map_cons] at ih2
          rw [ih2]
          rfl
    · obtain ⟨seg, segs, h1, h2⟩ := splitChars_cons_of_ne ':' c cs hc
      rw [h1] at ih1 ih2
      rw [h2]
      constructor
      · intro s hs
        rcases List.mem_cons.mp hs with rfl | h
        · intro hm
          rcases List.mem_cons.mp hm with h' | h'
          · exact hc h'.symm
          · exact ih1 seg (List.mem_cons_self _ _) h'
        · exact ih1 s (List.mem_cons_of_mem _ h)
      · cases segs with
        | nil =>
          simp only [List.map_cons, List.map_nil, joinSegments] at ih2 ⊢
          rw [ih2]
        | cons t rest =>
          simp only [List.map_cons] at ih2 ⊢
          rw [data_joinSegments_cons] at ih2 ⊢
          simp only [List.cons_append]
          rw [ih2]

theorem Split_spec (port : String) :
    Split port ':' ≠ [] ∧ (∀ s ∈ Split port ':', ':' ∉ s.data) ∧
    joinSegments (Split port ':') = port := by
  obtain ⟨h1, h2⟩ := splitChars_spec port.data
  refine ⟨?_, ?_, ?_⟩
  · simp [Split, splitChars_ne_nil]
  · intro s hs
    simp only [Split, List.mem_map] at hs
    obtain ⟨seg, hseg, rfl⟩ := hs
    exact h1 seg hseg
  · exact String.ext h2

/-- The first piece of `strings.SplitN(l, sep, 2)` exists and is the part of
`l` before its first separator. -/
theorem splitNChars_two_head (sep : Char) (l : List Char) :
    ∃ p, (splitNChars sep 2 l)[0]? = some p ∧ sep ∉ p ∧
      (l = p ∨ ∃ rest, l = p ++ sep :: rest) := by
  induction l with
  | nil => exact ⟨[], by simp [splitNChars], by simp, Or.inl rfl⟩
  | cons c cs ih =>
    by_cases hc : c = sep
    · subst hc
      exact ⟨[], by simp [splitNChars], by simp, Or.inr ⟨cs, rfl⟩⟩
    · obtain ⟨p, hp, hmem, hl⟩ := ih
      rcases hs : splitNChars sep 2 cs with _ | ⟨seg, segs⟩
      · rw [hs] at hp
        simp at hp
      · rw [hs] at hp
        simp only [List.getElem?_cons_zero, Option.some.injEq] at hp
        subst hp
        refine ⟨c :: seg, ?_, ?_, ?_⟩
        · simp [splitNChars, hc, hs]
        · intro hm
          rcases List.mem_cons.mp hm with h' | h'
          · exact hc h'.symm
          · exact hmem h'
        · rcases hl with rfl | ⟨rest, rfl⟩
          · exact Or.inl rfl
          · exact Or.inr ⟨rest, rfl⟩

/-- The function `rangeToPort` returns, and returns the part before the first dash. -/
theorem rangeToPort_spec (s : String) :
    ∃ p, rangeToPort s = some p ∧ PartBeforeFirstDash s p := by
  obtain ⟨p, hp, hmem, hl⟩ := splitNChars_two_head '-' s.data
  refine ⟨String.mk p, ?_, hmem, ?_⟩
  · simp [rangeToPort, SplitN, hp]
  · rcases hl with h | ⟨rest, h⟩
    · exact Or.inl (String.ext h)
    · exact Or.inr ⟨String.mk rest, String.ext (by simp [String.data_append, h])⟩


/-- The function `extractFirstPorts` once the last segment and its first port are known. -/
theorem extractFirstPorts_of_last (ParseIP : String → Option (List Nat)) (port last c : String)
    (hidx : (Split port ':')[(Split port ':').length - 1]? = some last)
    (hc : rangeToPort last = some c) :
    extractFirstPorts ParseIP port =
      if (Split port ':').length = 3 then
        match (Split port ':')[1]? with
        | none => none
        | some s1 => (rangeToPort s1).map (fun host => (c, host))
      else if (Split port ':').length = 2 then
        match (Split port ':')[0]? with
        | none => none
        | some s0 =>
          if (ParseIP s0).isNone then (rangeToPort s0).map (fun host => (c, host))
          else some (c, c)
      else some (c, c) := by
  simp only [extractFirstPorts, hidx, hc]

/-- C3. For every port specification, `extractFirstPorts` returns a pair
`(container, host)`: with `segs` the colon-separated segments of the string,
`container` is the part of the last segment before its first dash; `host` is
the part before the first dash of the middle segment when there are three
segments, of the first segment when there are two and `net.ParseIP` rejects
the first, and equals `container` otherwise. In particular `8080` gives
`(8080, 8080)`, `80:8080` gives container 8080 and host 80 (`80` is no IP
literal), `192.168.1.1:8080` gives `(8080, 8080)` (`192.168.1.1` is one),
`192.168.1.1:80:8080` gives container 8080 and host 80, and `8000-8010`
gives container 8000. -/
theorem extractFirstPorts_spec (ParseIP : String → Option (List Nat)) (port : String) :
    (∃ (segs : List String) (container host : String),
      extractFirstPorts ParseIP port = some (container, host) ∧
      (∀ s ∈ segs, ':' ∉ s.data) ∧ joinSegments segs = port ∧
      (∃ last, segs.getLast? = some last ∧ PartBeforeFirstDash last container) ∧
      (segs.length = 3 → ∃ mid, segs[1]? = some mid ∧ PartBeforeFirstDash mid host) ∧
      (segs.length = 2 → ∃ s0, segs[0]? = some s0 ∧
        (ParseIP s0 = none → PartBeforeFirstDash s0 host) ∧
        (ParseIP s0 ≠ none → host = container)) ∧
      (segs.length ≠ 3 → segs.length ≠ 2 → host = container)) ∧
    extractFirstPorts ParseIP "8080" = some ("8080", "8080") ∧
    (ParseIP "80" = none → extractFirstPorts ParseIP "80:8080" = some ("8080", "80")) ∧
    (ParseIP "192.168.1.1" ≠ none →
      extractFirstPorts ParseIP "192.168.1.1:8080" = some ("8080", "8080")) ∧
    extractFirstPorts ParseIP "192.168.1.1:80:8080" = some ("8080", "80") ∧
    (∃ host, extractFirstPorts ParseIP "8000-8010" = some ("8000", host)) := by
  refine ⟨?_, ?_, ?_, ?_, ?_, ?_⟩
  · obtain ⟨hne, hcolon, hjoin⟩ := Split_spec port
    obtain ⟨last, hlast⟩ : ∃ last, (Split port ':').getLast? = some last := by
      cases h : (Split port ':').getLast? with
      | none => exact absurd (List.getLast?_eq_none_iff.mp h) hne
      | some x => exact ⟨x, rfl⟩
    have hidx : (Split port ':')[(Split port ':').length - 1]? = some last := by
      rw [← List.getLast?_eq_getElem?]
      exact hlast
    obtain ⟨container, hc, hcspec⟩ := rangeToPort_spec last
    by_cases h3 : (Split port ':').length = 3
    · obtain ⟨mid, hmid⟩ : ∃ mid, (Split port ':')[1]? = some mid :=
        ⟨(Split port ':')[1], List.getElem?_eq_getElem (by omega)⟩
      obtain ⟨host, hh, hhspec⟩ := rangeToPort_spec mid
      refine ⟨Split port ':', container, host, ?_, hcolon, hjoin, ⟨last, hlast, hcspec⟩,
        fun _ => ⟨mid, hmid, hhspec⟩, fun h2 => by omega, fun h => absurd h3 h⟩
      rw [extractFirstPorts_of_last ParseIP port last container hidx hc]
      simp [h3, hmid, hh]
    · by_cases h2 : (Split port ':').length = 2
      · obtain ⟨s0, hs0⟩ : ∃ s0, (Split port ':')[0]? = some s0 :=
          ⟨(Split port ':')[0], List.getElem?_eq_getElem (by omega)⟩
        obtain ⟨host, hh, hhspec⟩ := rangeToPort_spec s0
        cases hip : ParseIP s0 with
        | none =>
          refine ⟨Split port ':', container, host, ?_, hcolon, hjoin, ⟨last, hlast, hcspec⟩,
            fun h => absurd h h3, fun _ => ⟨s0, hs0, fun _ => hhspec, ?_⟩,
            fun _ h => absurd h2 h⟩
          · rw [extractFirstPorts_of_last ParseIP port last container hidx hc]
            simp [h3, h2, hs0, hip, hh]
          · intro hcontra
            exact absurd hip hcontra
        | some ip =>
          refine ⟨Split port ':', container, container, ?_, hcolon, hjoin,
            ⟨last, hlast, hcspec⟩, fun h => absurd h h3,
            fun _ => ⟨s0, hs0, ?_, fun _ => rfl⟩, fun _ _ => rfl⟩
          · rw [extractFirstPorts_of_last ParseIP port last container hidx hc]
            simp [h3, h2, hs0, hip]
          · intro hcontra
            rw [hip] at hcontra
            cases hcontra
      · refine ⟨Split port ':', container, container, ?_, hcolon, hjoin,
          ⟨last, hlast, hcspec⟩, fun h => absurd h h3, fun h => absurd h h2, fun _ _ => rfl⟩
        rw [extractFirstPorts_of_last ParseIP port last container hidx hc]
        simp [h3, h2]
  · rfl
  · intro h
    have hs : Split "80:8080" ':' = ["80", "8080"] := by decide
    have hr1 : rangeToPort "8080" = some "8080" := by decide
    have hr0 : rangeToPort "80" = some "80" := by decide
    simp [extractFirstPorts, hs, hr1, hr0, h]
  · intro h
    have hs : Split "192.168.1.1:8080" ':' = ["192.168.1.1", "8080"] := by decide
    have hr1 : rangeToPort "8080" = some "8080" := by decide
    obtain ⟨ip, hip⟩ := Option.ne_none_iff_exists'.mp h
    simp [extractFirstPorts, hs, hr1, hip]
  · rfl
  · exact ⟨"8000", rfl⟩

/-- C3, with the dotted-quad recogniser for `net.ParseIP`: the five cases of
the specification. -/
theorem extractFirstPorts_spec_witness :
    extractFirstPorts dottedQuad "8080" = some ("8080", "8080") ∧
    extractFirstPorts dottedQuad "80:8080" = some ("8080", "80") ∧
    extractFirstPorts dottedQuad "192.168.1.1:8080" = some ("8080", "8080") ∧
    extractFirstPorts dottedQuad "192.168.1.1:80:8080" = some ("8080", "80") ∧
    (∃ host, extractFirstPorts dottedQuad "8000-8010" = some ("8000", host)) :=
  ⟨(extractFirstPorts_spec dottedQuad "").2.1,
   (extractFirstPorts_spec dottedQuad "").2.2.1 (by decide),
   (extractFirstPorts_spec dottedQuad "").2.2.2.1 (by decide),
   (extractFirstPorts_spec dottedQuad "").2.2.2.2.1,
   (extractFirstPorts_spec dottedQuad "").2.2.2.2.2⟩


/-! ## The container configuration callback -/

/-- The port parser never indexes out of range. -/
theorem extractFirstPorts_total (ParseIP : String → Option (List Nat)) (port : String) :
    ∃ r, extractFirstPorts ParseIP port = some r := by
  obtain ⟨hne, _, _⟩ := Split_spec port
  obtain ⟨last, hlast⟩ : ∃ last, (Split port ':').getLast? = some last := by
    cases h : (Split port ':').getLast? with
    | none => exact absurd (List.getLast?_eq_none_iff.mp h) hne
    | some x => exact ⟨x, rfl⟩
  have hidx : (Split port ':')[(Split port ':').length - 1]? = some last := by
    rw [← List.getLast?_eq_getElem?]
    exact hlast
  obtain ⟨container, hc, _⟩ := rangeToPort_spec last
  rw [extractFirstPorts_of_last ParseIP port last container hidx hc]
  by_cases h3 : (Split port ':').length = 3
  · have hmid : (Split port ':')[1]? = some (Split port ':')[1] :=
      List.getElem?_eq_getElem (by omega)
    obtain ⟨host, hh, _⟩ := rangeToPort_spec (Split port ':')[1]
    exact ⟨(container, host), by simp [h3, hh]⟩
  · by_cases h2 : (Split port ':').length = 2
    · have hs0 : (Split port ':')[0]? = some (Split port ':')[0] :=
        List.getElem?_eq_getElem (by omega)
      obtain ⟨host, hh, _⟩ := rangeToPort_spec (Split port ':')[0]
      cases hip : ParseIP (Split port ':')[0] with
      | none => exact ⟨(container, host), by simp [h3, h2, hip, hh]⟩
      | some ip => exact ⟨(container, container), by simp [h3, h2, hip]⟩
    · exact ⟨(container, container), by simp [h3, h2]⟩

theorem configurePorts_total (ParseIP : String → Option (List Nat)) (ports : List String) :
    ∀ acc, ∃ r, configurePorts ParseIP ports acc = some r := by
  induction ports with
  | nil => intro acc; exact ⟨acc, rfl⟩
  | cons s rest ih =>
    intro acc
    obtain ⟨⟨container, host⟩, hr⟩ := extractFirstPorts_total ParseIP s
    cases ha : Atoi container with
    | none =>
      obtain ⟨r, hr2⟩ := ih acc
      exact ⟨r, by simp only [configurePorts, hr, ha, hr2]⟩
    | some port =>
      obtain ⟨r, hr2⟩ := ih (acc ++ [{ containerPort := port }])
      exact ⟨r, by simp only [configurePorts, hr, ha, hr2]⟩

theorem splitNChars_three_ne_nil (sep : Char) (l : List Char) : splitNChars sep 3 l ≠ [] := by
  cases l with
  | nil => simp [splitNChars]
  | cons c cs =>
    rw [splitNChars]
    split
    · simp
    · split <;> simp

theorem mountPointsStep_total (mountPoints : GoMap (List String)) (s : String) :
    ∃ r, mountPointsStep mountPoints s = some r := by
  unfold mountPointsStep
  rcases hs : SplitN s ':' 3 with _ | ⟨p0, _ | ⟨p1, rest⟩⟩
  · exfalso
    simp only [SplitN, List.map_eq_nil_iff] at hs
    exact splitNChars_three_ne_nil ':' s.data hs
  · exact ⟨_, rfl⟩
  · exact ⟨_, rfl⟩

theorem mountPoints_total (vols : List String) :
    ∀ m0, ∃ r, vols.foldlM mountPointsStep m0 = some r := by
  induction vols with
  | nil => intro m0; exact ⟨m0, rfl⟩
  | cons s rest ih =>
    intro m0
    obtain ⟨m1, h1⟩ := mountPointsStep_total m0 s
    obtain ⟨r, h2⟩ := ih m1
    exact ⟨r, by rw [List.foldlM_cons, h1]; exact h2⟩


theorem configureResources_VolumeMounts (v : ServiceConfig) (c : Container) :
    (configureResources v c).VolumeMounts = c.VolumeMounts := by
  unfold configureResources
  by_cases h1 : v.MemLimit > 0 <;> by_cases h2 : v.CPUQuota > 0 <;>
    by_cases h3 : v.CPUShares > 0 <;> simp [h1, h2, h3]

theorem configureSecurity_VolumeMounts (v : ServiceConfig) (c : Container) :
    (configureSecurity v c).VolumeMounts = c.VolumeMounts := by
  unfold configureSecurity
  cases Atoi v.User <;> cases v.StdinOpen <;> cases v.Privileged <;> cases v.ReadOnly <;> rfl

theorem configureProcess_VolumeMounts (ParseEnvironment : List String → List EnvVar)
    (v : ServiceConfig) (c : Container) :
    (configureProcess ParseEnvironment v c).VolumeMounts = c.VolumeMounts := by
  unfold configureProcess
  by_cases h1 : v.Entrypoint.length > 0 <;> by_cases h2 : v.WorkingDir.length > 0 <;>
    simp [h1, h2]

/-- The callback returns, and the container it returns has the resources set
by `configureResources` and the mounts appended by the loop over `order`. -/
theorem ContainerFn_total (ParseIP : String → Option (List Nat))
    (ParseEnvironment : List String → List EnvVar) (v : ServiceConfig)
    (order : List String) (commonMounts : GoMap String) (c : Container) :
    ∃ c3 : Container,
      ContainerFn ParseIP ParseEnvironment v order commonMounts c =
        some ({ configureResources v c3 with
                VolumeMounts :=
                  (order.foldl (mountStep (mountPointsOf v))
                    (commonMounts, c.VolumeMounts)).2 },
              (order.foldl (mountStep (mountPointsOf v)) (commonMounts, c.VolumeMounts)).1) := by
  obtain ⟨ports, hp⟩ := configurePorts_total ParseIP v.Ports
    (if v.ContainerName.length > 0 then { c with Name := v.ContainerName } else c).Ports
  obtain ⟨mp, hm⟩ := mountPoints_total v.Volumes []
  refine ⟨configureSecurity v (configureProcess ParseEnvironment v
    { (if v.ContainerName.length > 0 then { c with Name := v.ContainerName } else c) with
      Ports := ports }), ?_⟩
  have hvm : (configureResources v (configureSecurity v (configureProcess ParseEnvironment v
      { (if v.ContainerName.length > 0 then { c with Name := v.ContainerName } else c) with
        Ports := ports }))).VolumeMounts = c.VolumeMounts := by
    rw [configureResources_VolumeMounts, configureSecurity_VolumeMounts,
      configureProcess_VolumeMounts]
    by_cases h : v.ContainerName.length > 0 <;> simp [h]
  simp only [ContainerFn, hp, hm, mountPointsOf, Option.getD_some, hvm]


theorem wrapInt64_of_fits (x : Int) (h0 : -9223372036854775808 ≤ x)
    (h1 : x ≤ 9223372036854775807) : wrapInt64 x = x := by
  unfold wrapInt64
  rw [Int.emod_eq_of_lt (by omega) (by omega)]
  omega

theorem quotaMilliCPU_of_fits (q : Int) (h0 : 0 < q) (h1 : q ≤ 9223372036854775) :
    quotaMilliCPU q = max q 1000 * 1000 / 100000 := by
  unfold quotaMilliCPU
  by_cases h : q < 1000
  · rw [if_pos h, max_eq_right (le_of_lt h)]
    decide
  · simp only [if_neg h]
    rw [max_eq_left (not_lt.mp h), wrapInt64_of_fits (q * 1000) (by omega) (by omega),
      Int.tdiv_eq_ediv (by omega) (by omega)]

theorem sharesMilliCPU_of_fits (s : Int) (h0 : 0 < s) (h1 : s ≤ 9223372036854775) :
    sharesMilliCPU s = max s 2 * 1000 / 1024 := by
  unfold sharesMilliCPU
  by_cases h : s < 2
  · rw [if_pos h, max_eq_right (le_of_lt h)]
    decide
  · simp only [if_neg h]
    rw [max_eq_left (not_lt.mp h), wrapInt64_of_fits (s * 1000) (by omega) (by omega),
      Int.tdiv_eq_ediv (by omega) (by omega)]

theorem configureResources_limits (v : ServiceConfig) (c : Container) (h : 0 < v.CPUQuota) :
    ∃ limits, (configureResources v c).Resources.Limits = some limits ∧
      GoMap.get limits "cpu" = some (Quantity.NewMilliQuantity (quotaMilliCPU v.CPUQuota)) := by
  have hq : v.CPUQuota > 0 := h
  unfold configureResources
  by_cases h1 : v.MemLimit > 0 <;> by_cases h3 : v.CPUShares > 0 <;>
    simp [h1, hq, h3, get_set_self]

theorem configureResources_requests (v : ServiceConfig) (c : Container) (h : 0 < v.CPUShares) :
    ∃ requests, (configureResources v c).Resources.Requests = some requests ∧
      GoMap.get requests "cpu" =
        some (Quantity.NewMilliQuantity (sharesMilliCPU v.CPUShares)) := by
  have hs : v.CPUShares > 0 := h
  unfold configureResources
  by_cases h1 : v.MemLimit > 0 <;> by_cases h2 : v.CPUQuota > 0 <;>
    simp [h1, h2, hs, get_set_self]

/-- C4, as the code has it. For every service whose CPU quota `q` is positive
and at most 9223372036854775, so that `q * 1000` fits `int64`, the callback
returns and sets the CPU limit to `max(q, 1000) * 1000 / 100000`
milli-units, the division being integer division. -/
theorem ContainerFn_cpu_limit (ParseIP : String → Option (List Nat))
    (ParseEnvironment : List String → List EnvVar) (v : ServiceConfig)
    (order : List String) (commonMounts : GoMap String) (c : Container)
    (hpos : 0 < v.CPUQuota) (hfit : v.CPUQuota ≤ 9223372036854775) :
    ∃ (c1 : Container) (commonMounts1 : GoMap String) (limits : GoMap Quantity),
      ContainerFn ParseIP ParseEnvironment v order commonMounts c = some (c1, commonMounts1) ∧
      c1.Resources.Limits = some limits ∧
      GoMap.get limits "cpu" =
        some (Quantity.NewMilliQuantity (max v.CPUQuota 1000 * 1000 / 100000)) := by
  obtain ⟨c3, hrun⟩ := ContainerFn_total ParseIP ParseEnvironment v order commonMounts c
  obtain ⟨limits, hl, hcpu⟩ := configureResources_limits v c3 hpos
  refine ⟨_, _, limits, hrun, hl, ?_⟩
  rw [hcpu, quotaMilliCPU_of_fits v.CPUQuota hpos hfit]

/-- C4, at the quotas of the specification: 500 gives 10 milli-units and
50000 gives 500. -/
theorem ContainerFn_cpu_limit_witness :
    (∃ (c1 : Container) (commonMounts1 : GoMap String) (limits : GoMap Quantity),
      ContainerFn dottedQuad keyValueEnvironment { CPUQuota := 500 } [] [] {} =
        some (c1, commonMounts1) ∧
      c1.Resources.Limits = some limits ∧
      GoMap.get limits "cpu" = some (Quantity.NewMilliQuantity 10)) ∧
    (∃ (c1 : Container) (commonMounts1 : GoMap String) (limits : GoMap Quantity),
      ContainerFn dottedQuad keyValueEnvironment { CPUQuota := 50000 } [] [] {} =
        some (c1, commonMounts1) ∧
      c1.Resources.Limits = some limits ∧
      GoMap.get limits "cpu" = some (Quantity.NewMilliQuantity 500)) :=
  ⟨ContainerFn_cpu_limit dottedQuad keyValueEnvironment { CPUQuota := 500 } [] [] {}
      (by decide) (by decide),
   ContainerFn_cpu_limit dottedQuad keyValueEnvironment { CPUQuota := 50000 } [] [] {}
      (by decide) (by decide)⟩

/-- C4 as stated fails: for the positive quota 9223372036854775807 the
product `quota * 1000` wraps to -1000 in `int64` and the callback sets the
CPU limit to 0 milli-units, where the formula gives 92233720368547758. -/
theorem quota_product_wraps_at_max :
    (0 : Int) < 9223372036854775807 ∧
    (ContainerFn dottedQuad keyValueEnvironment
        { CPUQuota := 9223372036854775807 } [] [] {}).map (fun r => r.1.Resources.Limits)
      = some (some [("cpu", Quantity.NewMilliQuantity 0)]) ∧
    max (9223372036854775807 : Int) 1000 * 1000 / 100000 = 92233720368547758 := by
  decide

/-- C5, as the code has it. For every service whose CPU shares value `s` is
positive and at most 9223372036854775, so that `s * 1000` fits `int64`, the
callback returns and sets the CPU request to `max(s, 2) * 1000 / 1024`
milli-units, the division being integer division. -/
theorem ContainerFn_cpu_request (ParseIP : String → Option (List Nat))
    (ParseEnvironment : List String → List EnvVar) (v : ServiceConfig)
    (order : List String) (commonMounts : GoMap String) (c : Container)
    (hpos : 0 < v.CPUShares) (hfit : v.CPUShares ≤ 9223372036854775) :
    ∃ (c1 : Container) (commonMounts1 : GoMap String) (requests : GoMap Quantity),
      ContainerFn ParseIP ParseEnvironment v order commonMounts c = some (c1, commonMounts1) ∧
      c1.Resources.Requests = some requests ∧
      GoMap.get requests "cpu" =
        some (Quantity.NewMilliQuantity (max v.CPUShares 2 * 1000 / 1024)) := by
  obtain ⟨c3, hrun⟩ := ContainerFn_total ParseIP ParseEnvironment v order commonMounts c
  obtain ⟨requests, hl, hcpu⟩ := configureResources_requests v c3 hpos
  refine ⟨_, _, requests, hrun, hl, ?_⟩
  rw [hcpu, sharesMilliCPU_of_fits v.CPUShares hpos hfit]

/-- C5, at the shares of the specification: 1 gives 1 milli-unit and 512
gives 500. -/
theorem ContainerFn_cpu_request_witness :
    (∃ (c1 : Container) (commonMounts1 : GoMap String) (requests : GoMap Quantity),
      ContainerFn dottedQuad keyValueEnvironment { CPUShares := 1 } [] [] {} =
        some (c1, commonMounts1) ∧
      c1.Resources.Requests = some requests ∧
      GoMap.get requests "cpu" = some (Quantity.NewMilliQuantity 1)) ∧
    (∃ (c1 : Container) (commonMounts1 : GoMap String) (requests : GoMap Quantity),
      ContainerFn dottedQuad keyValueEnvironment { CPUShares := 512 } [] [] {} =
        some (c1, commonMounts1) ∧
      c1.Resources.Requests = some requests ∧
      GoMap.get requests "cpu" = some (Quantity.NewMilliQuantity 500)) :=
  ⟨ContainerFn_cpu_request dottedQuad keyValueEnvironment { CPUShares := 1 } [] [] {}
      (by decide) (by decide),
   ContainerFn_cpu_request dottedQuad keyValueEnvironment { CPUShares := 512 } [] [] {}
      (by decide) (by decide)⟩

/-- C5 as stated fails: for the positive shares value 9223372036854775807 the
product `shares * 1000` wraps to -1000 in `int64` and the callback sets the
CPU request to 0 milli-units, where the formula gives 9007199254740991999. -/
theorem shares_product_wraps_at_max :
    (0 : Int) < 9223372036854775807 ∧
    (ContainerFn dottedQuad keyValueEnvironment
        { CPUShares := 9223372036854775807 } [] [] {}).map (fun r => r.1.Resources.Requests)
      = some (some [("cpu", Quantity.NewMilliQuantity 0)]) ∧
    max (9223372036854775807 : Int) 2 * 1000 / 1024 = 9007199254740991999 := by
  decide


/-! ## The shared table of mount names -/

/-- Reading a decimal rendering gives the number back. -/
theorem parseDigits_toDigitsCore (fuel : Nat) :
    ∀ (n : Nat) (ds : List Char), n < fuel →
      parseDigits (Nat.toDigitsCore 10 fuel n ds) 0 = parseDigits ds n := by
  induction fuel with
  | zero => intro n ds h; omega
  | succ f ih =>
    intro n ds h
    have hd : digitVal (Nat.digitChar (n % 10)) = some (n % 10) := by
      have hlt : n % 10 < 10 := Nat.mod_lt n (by decide)
      generalize n % 10 = m at hlt
      interval_cases m <;> decide
    rw [Nat.toDigitsCore]
    by_cases h0 : n / 10 = 0
    · simp only [h0, if_true, parseDigits, hd]
      have : n % 10 = n := by omega
      rw [this]
      simp
    · simp only [h0, if_false]
      rw [ih (n / 10) _ (by omega)]
      simp only [parseDigits, hd]
      have : n / 10 * 10 + n % 10 = n := by omega
      rw [this]

theorem dirName_injective (a b : Nat) (h : dirName a = dirName b) : a = b := by
  have hd : (toString a).data = (toString b).data := by
    have h2 := congrArg String.data h
    simp only [dirName, String.data_append] at h2
    exact List.append_cancel_left h2
  have ha := parseDigits_toDigitsCore (a + 1) a [] (by omega)
  have hb := parseDigits_toDigitsCore (b + 1) b [] (by omega)
  have hd2 : Nat.toDigitsCore 10 (a + 1) a [] = Nat.toDigitsCore 10 (b + 1) b [] := hd
  rw [hd2, hb] at ha
  simpa [parseDigits] using ha.symm

theorem get_of_mem {β : Type} (m : GoMap β) (k : String) (v : β)
    (hnd : (m.map Prod.fst).Nodup) (h : (k, v) ∈ m) : GoMap.get m k = some v := by
  induction m with
  | nil => cases h
  | cons kv rest ih =>
    obtain ⟨k', v'⟩ := kv
    simp only [List.map_cons, List.nodup_cons] at hnd
    rcases List.mem_cons.mp h with heq | hmem
    · cases heq
      simp [GoMap.get]
    · have hne : k' ≠ k := by
        intro e
        subst e
        exact hnd.1 (List.mem_map.mpr ⟨(k', v), hmem, rfl⟩)
      simp only [GoMap.get, hne, if_false]
      exact ih hnd.2 hmem

theorem mem_of_get {β : Type} (m : GoMap β) (k : String) (v : β)
    (h : GoMap.get m k = some v) : (k, v) ∈ m := by
  induction m with
  | nil => simp [GoMap.get] at h
  | cons kv rest ih =>
    obtain ⟨k', v'⟩ := kv
    by_cases hk : k' = k
    · simp only [GoMap.get, hk, if_true, Option.some.injEq] at h
      subst hk
      subst h
      exact List.mem_cons_self _ _
    · simp only [GoMap.get, hk, if_false] at h
      exact List.mem_cons_of_mem _ (ih h)

theorem get_eq_none_iff {β : Type} (m : GoMap β) (k : String) :
    GoMap.get m k = none ↔ k ∉ m.map Prod.fst := by
  induction m with
  | nil => simp [GoMap.get]
  | cons kv rest ih =>
    obtain ⟨k', v'⟩ := kv
    by_cases hk : k' = k
    · simp [GoMap.get, hk]
    · simp only [GoMap.get, hk, if_false, ih, List.map_cons, List.mem_cons]
      constructor
      · intro h hc
        rcases hc with hc | hc
        · exact hk hc.symm
        · exact h hc
      · intro h hc
        exact h (Or.inr hc)

theorem set_of_get_none {β : Type} (m : GoMap β) (k : String) (v : β)
    (h : GoMap.get m k = none) : GoMap.set m k v = m ++ [(k, v)] := by
  induction m with
  | nil => rfl
  | cons kv rest ih =>
    obtain ⟨k', v'⟩ := kv
    by_cases hk : k' = k
    · simp [GoMap.get, hk] at h
    · simp only [GoMap.get, hk, if_false] at h
      simp [GoMap.set, hk, ih h]

theorem get_append_of_some {β : Type} (m ext : GoMap β) (k : String) (v : β)
    (h : GoMap.get m k = some v) : GoMap.get (m ++ ext) k = some v := by
  induction m with
  | nil => simp [GoMap.get] at h
  | cons kv rest ih =>
    obtain ⟨k', v'⟩ := kv
    by_cases hk : k' = k
    · simpa [GoMap.get, hk] using h
    · simp only [GoMap.get, hk, if_false] at h
      simp only [List.cons_append, GoMap.get, hk, if_false]
      exact ih h

theorem len_of_nodup {β : Type} (m : GoMap β) (hnd : (m.map Prod.fst).Nodup) :
    GoMap.len m = m.length := by
  rw [GoMap.len, GoMap.keys, hnd.dedup, List.length_map]

theorem flatMap_congr_mem {α β : Type} (l : List α) (f g : α → List β)
    (h : ∀ x ∈ l, f x = g x) : l.flatMap f = l.flatMap g := by
  induction l with
  | nil => rfl
  | cons a l ih =>
    simp only [List.flatMap_cons]
    rw [h a (List.mem_cons_self a l), ih (fun x hx => h x (List.mem_cons_of_mem a hx))]

/-- One key of the `range` over `mountPoints`: the table stays well formed and
only grows at its end, the key has a name afterwards, and the mounts added
carry that name. -/
theorem mountStep_spec (mountPoints : GoMap (List String))
    (st : GoMap String × List VolumeMount) (src : String) (hok : TableOk st.1) :
    TableOk (mountStep mountPoints st src).1 ∧
    (∃ ext, (mountStep mountPoints st src).1 = st.1 ++ ext) ∧
    (∀ k, (∃ n, GoMap.get (mountStep mountPoints st src).1 k = some n) ↔
      (∃ n, GoMap.get st.1 k = some n) ∨ k = src) ∧
    ∃ name, GoMap.get (mountStep mountPoints st src).1 src = some name ∧
      (mountStep mountPoints st src).2 =
        st.2 ++ ((mountPoints.get src).getD []).map
          (fun path => { Name := name, MountPath := path }) := by
  obtain ⟨hnd, hval⟩ := hok
  cases hg : GoMap.get st.1 src with
  | some name =>
    have hstep : mountStep mountPoints st src =
        (st.1, st.2 ++ ((mountPoints.get src).getD []).map
          (fun path => { Name := name, MountPath := path })) := by
      simp only [mountStep, hg]
    rw [hstep]
    refine ⟨⟨hnd, hval⟩, ⟨[], by simp⟩, ?_, name, hg, rfl⟩
    intro k
    constructor
    · exact Or.inl
    · rintro (h | rfl)
      · exact h
      · exact ⟨name, hg⟩
  | none =>
    have hstep : mountStep mountPoints st src =
        (st.1 ++ [(src, dirName (st.1.length + 1))],
          st.2 ++ ((mountPoints.get src).getD []).map
            (fun path => { Name := dirName (st.1.length + 1), MountPath := path })) := by
      simp only [mountStep, hg, set_of_get_none _ _ _ hg, len_of_nodup _ hnd]
    rw [hstep]
    have hnot : src ∉ st.1.map Prod.fst := (get_eq_none_iff st.1 src).mp hg
    have hnd2 : ((st.1 ++ [(src, dirName (st.1.length + 1))]).map Prod.fst).Nodup := by
      rw [List.map_append, List.nodup_append]
      refine ⟨hnd, by simp, ?_⟩
      intro a ha hb
      simp only [List.map_cons, List.map_nil, List.mem_singleton] at hb
      exact hnot (hb ▸ ha)
    have hnew : GoMap.get (st.1 ++ [(src, dirName (st.1.length + 1))]) src =
        some (dirName (st.1.length + 1)) :=
      get_of_mem _ _ _ hnd2 (by simp)
    refine ⟨⟨hnd2, ?_⟩, ⟨_, rfl⟩, ?_, _, hnew, rfl⟩
    · rw [List.map_append, hval, List.length_append, List.length_singleton,
        List.range_succ, List.map_append]
      rfl
    · intro k
      constructor
      · rintro ⟨n, hn⟩
        by_cases hk : k = src
        · exact Or.inr hk
        · left
          have hmem := mem_of_get _ _ _ hn
          rcases List.mem_append.mp hmem with h | h
          · exact ⟨n, get_of_mem _ _ _ hnd h⟩
          · simp only [List.mem_singleton, Prod.mk.injEq] at h
            exact absurd h.1 hk
      · rintro (⟨n, hn⟩ | rfl)
        · exact ⟨n, get_append_of_some _ _ _ _ hn⟩
        · exact ⟨_, hnew⟩


/-- The whole `range` over `mountPoints`: the table stays well formed and only
grows at its end, the sources with a name are the old ones and the keys
visited, and every mount added carries the name of its source. -/
theorem mountLoop_spec (mountPoints : GoMap (List String)) (order : List String) :
    ∀ st : GoMap String × List VolumeMount, TableOk st.1 →
      TableOk (order.foldl (mountStep mountPoints) st).1 ∧
      (∃ ext, (order.foldl (mountStep mountPoints) st).1 = st.1 ++ ext) ∧
      (∀ k, (∃ n, GoMap.get (order.foldl (mountStep mountPoints) st).1 k = some n) ↔
        (∃ n, GoMap.get st.1 k = some n) ∨ k ∈ order) ∧
      (order.foldl (mountStep mountPoints) st).2 =
        st.2 ++ order.flatMap (fun src =>
          ((mountPoints.get src).getD []).map (fun path =>
            { Name := (GoMap.get (order.foldl (mountStep mountPoints) st).1 src).getD "",
              MountPath := path })) := by
  induction order with
  | nil =>
    intro st hok
    exact ⟨hok, ⟨[], by simp⟩, fun k => by simp, by simp⟩
  | cons src rest ih =>
    intro st hok
    obtain ⟨hok1, ⟨ext1, hext1⟩, hkeys1, name, hname, hm1⟩ :=
      mountStep_spec mountPoints st src hok
    obtain ⟨hok2, ⟨ext2, hext2⟩, hkeys2, hm2⟩ := ih (mountStep mountPoints st src) hok1
    rw [List.foldl_cons]
    refine ⟨hok2, ⟨ext1 ++ ext2, by rw [hext2, hext1, List.append_assoc]⟩, ?_, ?_⟩
    · intro k
      rw [hkeys2 k, hkeys1 k, List.mem_cons]
      exact or_assoc
    · have hfinal : GoMap.get (rest.foldl (mountStep mountPoints)
          (mountStep mountPoints st src)).1 src = some name := by
        rw [hext2]
        exact get_append_of_some _ _ _ _ hname
      rw [hm2, hm1, List.flatMap_cons, hfinal, List.append_assoc]
      rfl

/-- The callback on a well-formed table: it returns, the table stays well
formed and only grows at its end, the sources with a name are the old ones
and the keys visited, and the mounts appended to the container are one per
path, each under the name of its source. -/
theorem ContainerFn_mounts (ParseIP : String → Option (List Nat))
    (ParseEnvironment : List String → List EnvVar) (v : ServiceConfig)
    (order : List String) (cm0 : GoMap String) (c : Container) (hok : TableOk cm0) :
    ∃ (c1 : Container) (cm1 : GoMap String),
      ContainerFn ParseIP ParseEnvironment v order cm0 c = some (c1, cm1) ∧
      TableOk cm1 ∧ (∃ ext, cm1 = cm0 ++ ext) ∧
      (∀ k, (∃ n, GoMap.get cm1 k = some n) ↔ (∃ n, GoMap.get cm0 k = some n) ∨ k ∈ order) ∧
      c1.VolumeMounts = c.VolumeMounts ++ order.flatMap (fun src =>
        (((mountPointsOf v).get src).getD []).map (fun path =>
          { Name := (GoMap.get cm1 src).getD "", MountPath := path })) := by
  obtain ⟨c3, hrun⟩ := ContainerFn_total ParseIP ParseEnvironment v order cm0 c
  obtain ⟨h1, h2, h3, h4⟩ := mountLoop_spec (mountPointsOf v) order (cm0, c.VolumeMounts) hok
  exact ⟨_, _, hrun, h1, h2, h3, h4⟩

/-- The callbacks of a group run in sequence from a well-formed table. -/
theorem runCallbacks_spec (ParseIP : String → Option (List Nat))
    (ParseEnvironment : List String → List EnvVar)
    (calls : List (ServiceConfig × List String × Container)) :
    ∀ cm0 : GoMap String, TableOk cm0 →
      ∃ (cs : List Container) (cm : GoMap String),
        runCallbacks ParseIP ParseEnvironment calls cm0 = some (cs, cm) ∧
        TableOk cm ∧ (∃ ext, cm = cm0 ++ ext) ∧
        (∀ k, (∃ n, GoMap.get cm k = some n) ↔
          (∃ n, GoMap.get cm0 k = some n) ∨ ∃ call ∈ calls, k ∈ call.2.1) ∧
        (∀ pre post, calls = pre ++ post →
          ∃ (cs1 : List Container) (cm1 : GoMap String),
            runCallbacks ParseIP ParseEnvironment pre cm0 = some (cs1, cm1) ∧
            ∀ src name, GoMap.get cm1 src = some name → GoMap.get cm src = some name) ∧
        (∀ (i : Nat) (v : ServiceConfig) (order : List String) (c : Container),
          calls[i]? = some (v, order, c) →
          ∃ c1, cs[i]? = some c1 ∧
            c1.VolumeMounts = c.VolumeMounts ++ order.flatMap (fun src =>
              (((mountPointsOf v).get src).getD []).map (fun path =>
                { Name := (GoMap.get cm src).getD "", MountPath := path }))) := by
  induction calls with
  | nil =>
    intro cm0 hok
    refine ⟨[], cm0, rfl, hok, ⟨[], by simp⟩, ?_, ?_, ?_⟩
    · intro k
      constructor
      · exact Or.inl
      · rintro (h | ⟨call, hc, _⟩)
        · exact h
        · cases hc
    · intro pre post h
      have hpre : pre = [] := (List.append_eq_nil.mp h.symm).1
      subst hpre
      exact ⟨[], cm0, rfl, fun _ _ h => h⟩
    · intro i v order c h
      simp at h
  | cons call rest ih =>
    intro cm0 hok
    obtain ⟨v, order, c⟩ := call
    obtain ⟨c1, cm1, hrun1, hok1, ⟨ext1, hext1⟩, hkeys1, hm1⟩ :=
      ContainerFn_mounts ParseIP ParseEnvironment v order cm0 c hok
    obtain ⟨cs, cm, hrun, hok2, ⟨ext2, hext2⟩, hkeys2, hpre2, hm2⟩ := ih cm1 hok1
    have hgrow : ∀ src name, GoMap.get cm1 src = some name → GoMap.get cm src = some name := by
      intro src name h
      rw [hext2]
      exact get_append_of_some _ _ _ _ h
    have hgrow0 : ∀ src name, GoMap.get cm0 src = some name → GoMap.get cm src = some name := by
      intro src name h
      apply hgrow
      rw [hext1]
      exact get_append_of_some _ _ _ _ h
    refine ⟨c1 :: cs, cm, by simp only [runCallbacks, hrun1, hrun], hok2,
      ⟨ext1 ++ ext2, by rw [hext2, hext1, List.append_assoc]⟩, ?_, ?_, ?_⟩
    · intro k
      rw [hkeys2 k, hkeys1 k]
      simp only [List.mem_cons, exists_eq_or_imp]
      exact or_assoc
    · intro pre post h
      cases pre with
      | nil => exact ⟨[], cm0, rfl, hgrow0⟩
      | cons call' pre' =>
        simp only [List.cons_append, List.cons.injEq] at h
        obtain ⟨hcall, hrest⟩ := h
        subst hcall
        obtain ⟨cs1, cmP, hrunP, hP⟩ := hpre2 pre' post hrest
        exact ⟨c1 :: cs1, cmP, by simp only [runCallbacks, hrun1, hrunP], hP⟩
    · intro i v' order' c' h
      cases i with
      | zero =>
        simp only [List.getElem?_cons_zero, Option.some.injEq, Prod.mk.injEq] at h
        obtain ⟨rfl, rfl, rfl⟩ := h
        refine ⟨c1, List.getElem?_cons_zero, ?_⟩
        rw [hm1]
        congr 1
        apply flatMap_congr_mem
        intro src hsrc
        obtain ⟨n, hn⟩ := (hkeys1 src).mpr (Or.inr hsrc)
        rw [hn, hgrow src n hn]
      | succ j =>
        simp only [List.getElem?_cons_succ] at h ⊢
        exact hm2 j v' order' c' h


theorem TableOk_nil : TableOk [] := ⟨List.nodup_nil, rfl⟩

/-- In a well-formed table no two sources share a name. -/
theorem TableOk_injective (cm : GoMap String) (hok : TableOk cm) (s1 s2 name : String)
    (h1 : GoMap.get cm s1 = some name) (h2 : GoMap.get cm s2 = some name) : s1 = s2 := by
  obtain ⟨_, hval⟩ := hok
  have hnd : (cm.map Prod.snd).Nodup := by
    rw [hval]
    apply List.Nodup.map _ (List.nodup_range _)
    intro a b hab
    have := dirName_injective _ _ hab
    omega
  have h := List.inj_on_of_nodup_map hnd (mem_of_get _ _ _ h1) (mem_of_get _ _ _ h2) rfl
  exact (Prod.mk.inj h).1

/-- In a well-formed table the names are `dir-1` to `dir-n`, `n` its size. -/
theorem TableOk_names (cm : GoMap String) (hok : TableOk cm) (name : String) :
    (∃ src, GoMap.get cm src = some name) ↔
      ∃ i, 1 ≤ i ∧ i ≤ GoMap.len cm ∧ name = dirName i := by
  obtain ⟨hnd, hval⟩ := hok
  rw [len_of_nodup cm hnd]
  have hmem : (∃ src, GoMap.get cm src = some name) ↔ name ∈ cm.map Prod.snd := by
    constructor
    · rintro ⟨src, h⟩
      exact List.mem_map.mpr ⟨(src, name), mem_of_get _ _ _ h, rfl⟩
    · intro h
      obtain ⟨⟨src, n⟩, hp, hn⟩ := List.mem_map.mp h
      simp only at hn
      subst hn
      exact ⟨src, get_of_mem _ _ _ hnd hp⟩
  rw [hmem, hval, List.mem_map]
  constructor
  · rintro ⟨i, hi, rfl⟩
    exact ⟨i + 1, by omega, by have := List.mem_range.mp hi; omega, rfl⟩
  · rintro ⟨i, h1, h2, rfl⟩
    exact ⟨i - 1, List.mem_range.mpr (by omega), by congr 1; omega⟩

/-- C6. For every sequence of container configurations of one group, run
against the shared table `commonMounts` from the empty table: all callbacks
return; a source keeps the name it was given first (the table after any
initial part of the sequence is contained in the final table); every
container gets, for each source its `range` visits and each path of that
source, one mount under the name of the source; no two sources have the same
name; and with `n` distinct sources seen the names are exactly `dir-1` to
`dir-n`. -/
theorem commonMounts_names (ParseIP : String → Option (List Nat))
    (ParseEnvironment : List String → List EnvVar)
    (calls : List (ServiceConfig × List String × Container)) :
    ∃ (cs : List Container) (cm : GoMap String),
      runCallbacks ParseIP ParseEnvironment calls [] = some (cs, cm) ∧
      (∀ pre post, calls = pre ++ post →
        ∃ (cs1 : List Container) (cm1 : GoMap String),
          runCallbacks ParseIP ParseEnvironment pre [] = some (cs1, cm1) ∧
          ∀ src name, GoMap.get cm1 src = some name → GoMap.get cm src = some name) ∧
      (∀ (i : Nat) (v : ServiceConfig) (order : List String) (c : Container),
        calls[i]? = some (v, order, c) →
        ∃ c1, cs[i]? = some c1 ∧
          c1.VolumeMounts = c.VolumeMounts ++ order.flatMap (fun src =>
            (((mountPointsOf v).get src).getD []).map (fun path =>
              { Name := (GoMap.get cm src).getD "", MountPath := path }))) ∧
      (∀ s1 s2 name, GoMap.get cm s1 = some name → GoMap.get cm s2 = some name → s1 = s2) ∧
      (∀ src, (∃ name, GoMap.get cm src = some name) ↔ ∃ call ∈ calls, src ∈ call.2.1) ∧
      GoMap.len cm = ((calls.flatMap (fun call => call.2.1)).dedup).length ∧
      (∀ name, (∃ src, GoMap.get cm src = some name) ↔
        ∃ i, 1 ≤ i ∧ i ≤ GoMap.len cm ∧ name = dirName i) := by
  obtain ⟨cs, cm, hrun, hok, _, hkeys, hpre, hm⟩ :=
    runCallbacks_spec ParseIP ParseEnvironment calls [] TableOk_nil
  have hseen : ∀ src, (∃ name, GoMap.get cm src = some name) ↔
      ∃ call ∈ calls, src ∈ call.2.1 := by
    intro src
    rw [hkeys src]
    constructor
    · rintro (⟨n, hn⟩ | h)
      · simp [GoMap.get] at hn
      · exact h
    · exact Or.inr
  refine ⟨cs, cm, hrun, hpre, hm, TableOk_injective cm hok, hseen, ?_, TableOk_names cm hok⟩
  rw [len_of_nodup cm hok.1, ← List.length_map cm Prod.fst]
  apply List.Perm.length_eq
  rw [List.perm_ext_iff_of_nodup hok.1 (List.nodup_dedup _)]
  intro src
  rw [List.mem_dedup, List.mem_flatMap, ← hseen src]
  constructor
  · intro h
    obtain ⟨⟨k, n⟩, hp, hk⟩ := List.mem_map.mp h
    simp only at hk
    subst hk
    exact ⟨n, get_of_mem _ _ _ hok.1 hp⟩
  · rintro ⟨n, hn⟩
    exact List.mem_map.mpr ⟨(src, n), mem_of_get _ _ _ hn, rfl⟩


/-! ## Service objects -/

theorem Len_eq_one_iff (s : StringSet) : s.Len = 1 ↔ ∃ a, ∀ x, x ∈ s ↔ x = a := by
  unfold StringSet.Len
  constructor
  · intro h
    obtain ⟨a, ha⟩ := List.length_eq_one.mp h
    refine ⟨a, fun x => ?_⟩
    rw [← List.mem_dedup, ha, List.mem_singleton]
  · rintro ⟨a, ha⟩
    have hnd := List.nodup_dedup s
    have hmem : ∀ x, x ∈ s.dedup ↔ x = a := fun x => by rw [List.mem_dedup, ha]
    rcases hd : s.dedup with _ | ⟨b, _ | ⟨c, rest⟩⟩
    · have := (hmem a).mpr rfl
      rw [hd] at this
      cases this
    · rfl
    · rw [hd] at hnd hmem
      have hb := (hmem b).mp (by simp)
      have hc := (hmem c).mp (by simp)
      subst hb
      subst hc
      simp at hnd

theorem List_of_singleton (s : StringSet) (a : String) (h : ∀ x, x ∈ s ↔ x = a) :
    StringSet.List s = [a] := by
  have h1 : s.Len = 1 := (Len_eq_one_iff s).mpr ⟨a, h⟩
  obtain ⟨b, hb⟩ := List.length_eq_one.mp h1
  have hba : b = a := by
    rw [← h b, ← List.mem_dedup, hb]
    simp
  subst hba
  rw [StringSet.List, hb]
  rfl

/-- The renaming applies the alias when there is exactly one and leaves the
name alone otherwise; no other field changes. -/
theorem applyAlias_spec (aliases : GoMap StringSet) (svc : Service) :
    (∀ a, ExactlyOneAlias aliases svc.Name a → applyAlias aliases svc = { svc with Name := a }) ∧
    ((¬ ∃ a, ExactlyOneAlias aliases svc.Name a) → applyAlias aliases svc = svc) := by
  constructor
  · intro a ha
    have h1 : ((aliases.get svc.Name).getD []).Len = 1 := (Len_eq_one_iff _).mpr ⟨a, ha⟩
    have h2 := List_of_singleton _ a ha
    unfold applyAlias
    rw [if_pos h1, h2]
  · intro hno
    have h1 : ¬ ((aliases.get svc.Name).getD []).Len = 1 :=
      fun h => hno ((Len_eq_one_iff _).mp h)
    unfold applyAlias
    rw [if_neg h1]

theorem generateService_rule (env : Collaborators) (aliases : GoMap StringSet)
    (t : DeploymentConfig) :
    (env.ServicePorts t.Containers = [] → generateService env aliases t = none) ∧
    (env.ServicePorts t.Containers ≠ [] →
      ∃ svc, generateService env aliases t = some svc ∧ AliasRule env aliases t svc) := by
  constructor
  · intro h
    simp [generateService, h]
  · intro h
    have hlen : ¬ (env.ServicePorts t.Containers).length = 0 := by
      rw [List.length_eq_zero]
      exact h
    have hgen : generateService env aliases t =
        some { applyAlias aliases (env.GenerateService t.Name t.Selector) with
               Ports := env.ServicePorts t.Containers } := by
      simp only [generateService, hlen, if_false]
    refine ⟨_, hgen, rfl, ?_, ?_, ?_⟩
    · by_cases hex : ∃ a, ExactlyOneAlias aliases (env.GenerateService t.Name t.Selector).Name a
      · obtain ⟨a, ha⟩ := hex
        show (applyAlias aliases _).Selector = _
        rw [(applyAlias_spec aliases _).1 a ha]
      · show (applyAlias aliases _).Selector = _
        rw [(applyAlias_spec aliases _).2 hex]
    · intro a ha
      show (applyAlias aliases _).Name = _
      rw [(applyAlias_spec aliases _).1 a ha]
    · intro hex
      show (applyAlias aliases _).Name = _
      rw [(applyAlias_spec aliases _).2 hex]

/-- The services generated by the loop of `updateServiceObjects` are those
generated for the deployment configs of the list, in order. -/
theorem updateServiceObjectsLoop_services (env : Collaborators) (aliases : GoMap StringSet)
    (objs : List Object) :
    ∀ (i : Nat) (acc : List Service × GoMap ContainerRef),
      (updateServiceObjectsLoop env aliases objs i acc).1 =
        acc.1 ++ objs.filterMap (fun obj =>
          match obj with
          | Object.deploymentConfig t => generateService env aliases t
          | _ => none) := by
  induction objs with
  | nil => intro i acc; simp [updateServiceObjectsLoop]
  | cons obj rest ih =>
    intro i acc
    cases obj with
    | deploymentConfig t =>
      cases hg : generateService env aliases t with
      | none => simp only [updateServiceObjectsLoop, hg, ih, List.filterMap_cons]
      | some svc =>
        simp only [updateServiceObjectsLoop, hg, ih, List.filterMap_cons, List.append_assoc,
          List.singleton_append]
    | service svc => simp only [updateServiceObjectsLoop, ih, List.filterMap_cons]
    | other kind name => simp only [updateServiceObjectsLoop, ih, List.filterMap_cons]

/-- C7. `updateServiceObjects` appends the generated service records to the
objects; every record was generated for a deployment config that exposes a
port, and every such config has its record; and each record obeys the alias
rule: it is renamed to the alias exactly when one alias is registered for its
default name, and keeps the default name when none or several are. -/
theorem updateServiceObjects_alias (env : Collaborators) (data : TransformData) :
    ∃ svcs : List Service,
      (updateServiceObjects env data).objects = data.objects ++ svcs.map Object.service ∧
      (∀ svc ∈ svcs, ∃ t, Object.deploymentConfig t ∈ data.objects ∧
        env.ServicePorts t.Containers ≠ [] ∧ AliasRule env data.aliases t svc) ∧
      (∀ t, Object.deploymentConfig t ∈ data.objects → env.ServicePorts t.Containers ≠ [] →
        ∃ svc ∈ svcs, AliasRule env data.aliases t svc) := by
  refine ⟨_, rfl, ?_, ?_⟩
  · intro svc hsvc
    rw [updateServiceObjectsLoop_services] at hsvc
    simp only [List.nil_append, List.mem_filterMap] at hsvc
    obtain ⟨obj, hobj, hgen⟩ := hsvc
    cases obj with
    | deploymentConfig t =>
      simp only at hgen
      refine ⟨t, hobj, ?_, ?_⟩
      · intro hnil
        rw [(generateService_rule env data.aliases t).1 hnil] at hgen
        cases hgen
      · by_cases hnil : env.ServicePorts t.Containers = []
        · rw [(generateService_rule env data.aliases t).1 hnil] at hgen
          cases hgen
        · obtain ⟨svc', h1, h2⟩ := (generateService_rule env data.aliases t).2 hnil
          rw [h1] at hgen
          cases hgen
          exact h2
    | service s => simp at hgen
    | other kind name => simp at hgen
  · intro t ht hports
    obtain ⟨svc, h1, h2⟩ := (generateService_rule env data.aliases t).2 hports
    refine ⟨svc, ?_, h2⟩
    rw [updateServiceObjectsLoop_services]
    simp only [List.nil_append, List.mem_filterMap]
    exact ⟨_, ht, h1⟩


/-! ## The propagation of volumes-from -/

/-- C8, the code at the failing input. For the project `noPorts` (`b` takes
the volumes of `a`, no service declares a port) `updateVolumes` records
`volumesFrom[b] = [a]` and the callback gives `a` the mount `dir-1` at
`/data`; the deployment config exposes no port, so `updateServiceObjects`
skips it before taking the references to its containers, the container table
stays empty, and the propagation loop of `Transform` dereferences the nil
`data.containers["a"]`. With the port 8080 on `a` the containers are
registered and `b` receives the mount of `a`. -/
theorem propagateVolumesFrom_without_ports :
    (updateVolumes noPorts (updateServiceOrder noPorts {})).map (fun d => d.volumesFrom)
      = some noPortsData.volumesFrom ∧
    (ContainerFn dottedQuad keyValueEnvironment { Image := "busybox", Volumes := ["/data"] }
        [""] [] { Name := "a" }).map (fun r => r.1.VolumeMounts)
      = some [{ Name := "dir-1", MountPath := "/data" }] ∧
    (updateServiceObjects exampleCollaborators noPortsData).containers = [] ∧
    propagateVolumesFrom (updateServiceObjects exampleCollaborators noPortsData) = none ∧
    (updateServiceObjects exampleCollaborators onePortData).containers
      = [("a", { object := 0, container := 0 }), ("b", { object := 0, container := 1 })] ∧
    ((propagateVolumesFrom (updateServiceObjects exampleCollaborators onePortData)).bind
        (fun d => (d.containers.get "b").bind (derefContainer d.objects))).map
          (fun c => c.VolumeMounts)
      = some [{ Name := "dir-1", MountPath := "/data" }] := by
  decide

/-! ## The build pipeline phase -/

theorem resolveBase_none (env : Collaborators) (build : String) (bases : List String)
    (h : ∀ s ∈ bases, startsWith build s = false) :
    resolveBase env build bases = Except.ok ("", "") := by
  induction bases with
  | nil => rfl
  | cons s rest ih =>
    rw [resolveBase, h s (List.mem_cons_self s rest)]
    exact ih (fun s' hs' => h s' (List.mem_cons_of_mem s hs'))

theorem updateBuildPipelineLoop_append (env : Collaborators)
    (ParseIP : String → Option (List Nat)) (p : Project) (pre : List String) :
    ∀ (ks : List String) (data data1 : TransformData),
      passServices env ParseIP p pre data = some data1 →
      updateBuildPipelineLoop env ParseIP p (pre ++ ks) data =
        updateBuildPipelineLoop env ParseIP p ks data1 := by
  induction pre with
  | nil =>
    intro ks data data1 h
    simp only [passServices, Option.some.injEq] at h
    subst h
    rfl
  | cons k pre ih =>
    intro ks data data1 h
    rw [passServices] at h
    rw [List.cons_append, updateBuildPipelineLoop]
    rcases hstep : updateBuildPipelineService env ParseIP p data k with _ | ⟨d2 | err⟩
    · rw [hstep] at h
      cases h
    · rw [hstep] at h
      exact ih ks d2 data1 h
    · rw [hstep] at h
      cases h

/-- C9, as the code has it. When the loop of `updateBuildPipeline` reaches,
after passing the services `pre`, a service `k` whose build context is not
built yet and matches none of the permitted base directories, the call
returns at once: the error is the path error for that build context alone,
not an aggregate, and the data is as it stood before `k`, so no later
service is processed. -/
theorem updateBuildPipeline_path_error (env : Collaborators)
    (ParseIP : String → Option (List Nat)) (p : Project) (data data1 : TransformData)
    (pre post : List String) (k : String) (v : ServiceConfig)
    (hord : data.serviceOrder.List = pre ++ k :: post)
    (hpre : passServices env ParseIP p pre data = some data1)
    (hv : GoMap.get p.Configs k = some v)
    (hbuild : v.Build.length ≠ 0)
    (hnew : GoMap.get data1.builds v.Build = none)
    (hnone : ∀ s ∈ data1.bases, startsWith v.Build s = false) :
    updateBuildPipeline env ParseIP p data =
      some (data1, some (Returned.single (Error.buildPathOutside v.Build))) := by
  have hstep : updateBuildPipelineService env ParseIP p data1 k =
      some (Outcome.ret (Returned.single (Error.buildPathOutside v.Build))) := by
    simp [updateBuildPipelineService, hv, hbuild, hnew, resolveBase_none env v.Build _ hnone]
  rw [updateBuildPipeline, hord,
    updateBuildPipelineLoop_append env ParseIP p pre (k :: post) data data1 hpre,
    updateBuildPipelineLoop, hstep]

/-- C9, at the project `outsideFirst` with the base `/base`. -/
theorem updateBuildPipeline_path_error_witness :
    updateBuildPipeline exampleCollaborators dottedQuad outsideFirst
        { updateServiceOrder outsideFirst {} with bases := ["/base"] } =
      some ({ updateServiceOrder outsideFirst {} with bases := ["/base"] },
        some (Returned.single (Error.buildPathOutside "/outside"))) :=
  updateBuildPipeline_path_error exampleCollaborators dottedQuad outsideFirst
    { updateServiceOrder outsideFirst {} with bases := ["/base"] }
    { updateServiceOrder outsideFirst {} with bases := ["/base"] }
    [] ["b"] "a" { Build := "/outside" }
    (by decide) (by decide) (by decide) (by decide) (by decide) (by decide)

/-- C9 as stated fails: with the base `/base`, the service `a` (build context
`/outside`) stops the phase; `b`, which sorts later and whose pipeline is
recorded when it is the only service, is not processed, and the error
returned is the path error alone, not an aggregate. -/
theorem updateBuildPipeline_stops_at_path_error :
    (updateBuildPipeline exampleCollaborators dottedQuad insideOnly
        { updateServiceOrder insideOnly {} with bases := ["/base"] }).map
          (fun r => (r.1.pipelines.map (fun q => q.Name), r.2))
      = some (["b"], none) ∧
    (updateBuildPipeline exampleCollaborators dottedQuad outsideFirst
        { updateServiceOrder outsideFirst {} with bases := ["/base"] }).map
          (fun r => (r.1.pipelines, r.1.builds, r.1.errs, r.2))
      = some ([], [], [], some (Returned.single (Error.buildPathOutside "/outside"))) := by
  decide


/-! ## The CPU arithmetic in `int64` -/

/-- C20. With the quota and the shares in `int64`: for every quota `q` with
`0 < q ≤ 9223372036854775` the product of the clamped quota and 1000 fits
`int64` (it is not changed by the wrap), the callback returns, and the CPU
limit it sets is `max(q, 1000) / 100` rounded down, at least 10; for every
shares value `s` in the same range the product fits as well and the CPU
request set is `max(s, 2) * 1000 / 1024` rounded down, at least 1. -/
theorem ContainerFn_cpu_in_range (ParseIP : String → Option (List Nat))
    (ParseEnvironment : List String → List EnvVar) (v : ServiceConfig)
    (order : List String) (commonMounts : GoMap String) (c : Container) :
    (0 < v.CPUQuota → v.CPUQuota ≤ 9223372036854775 →
      max v.CPUQuota 1000 * 1000 ≤ 9223372036854775807 ∧
      wrapInt64 (max v.CPUQuota 1000 * 1000) = max v.CPUQuota 1000 * 1000 ∧
      10 ≤ max v.CPUQuota 1000 / 100 ∧
      ∃ (c1 : Container) (commonMounts1 : GoMap String) (limits : GoMap Quantity),
        ContainerFn ParseIP ParseEnvironment v order commonMounts c = some (c1, commonMounts1) ∧
        c1.Resources.Limits = some limits ∧
        GoMap.get limits "cpu" = some (Quantity.NewMilliQuantity (max v.CPUQuota 1000 / 100))) ∧
    (0 < v.CPUShares → v.CPUShares ≤ 9223372036854775 →
      max v.CPUShares 2 * 1000 ≤ 9223372036854775807 ∧
      wrapInt64 (max v.CPUShares 2 * 1000) = max v.CPUShares 2 * 1000 ∧
      1 ≤ max v.CPUShares 2 * 1000 / 1024 ∧
      ∃ (c1 : Container) (commonMounts1 : GoMap String) (requests : GoMap Quantity),
        ContainerFn ParseIP ParseEnvironment v order commonMounts c = some (c1, commonMounts1) ∧
        c1.Resources.Requests = some requests ∧
        GoMap.get requests "cpu" =
          some (Quantity.NewMilliQuantity (max v.CPUShares 2 * 1000 / 1024))) := by
  obtain ⟨c3, hrun⟩ := ContainerFn_total ParseIP ParseEnvironment v order commonMounts c
  constructor
  · intro hpos hfit
    obtain ⟨limits, hl, hcpu⟩ := configureResources_limits v c3 hpos
    have hmax : max v.CPUQuota 1000 ≤ 9223372036854775 := max_le hfit (by decide)
    have hge : 1000 ≤ max v.CPUQuota 1000 := le_max_right _ _
    refine ⟨by omega, wrapInt64_of_fits _ (by omega) (by omega), by omega, _, _, limits, hrun,
      hl, ?_⟩
    rw [hcpu, quotaMilliCPU_of_fits v.CPUQuota hpos hfit]
    congr 2
    omega
  · intro hpos hfit
    obtain ⟨requests, hl, hcpu⟩ := configureResources_requests v c3 hpos
    have hmax : max v.CPUShares 2 ≤ 9223372036854775 := max_le hfit (by decide)
    have hge : 2 ≤ max v.CPUShares 2 := le_max_right _ _
    refine ⟨by omega, wrapInt64_of_fits _ (by omega) (by omega), by omega, _, _, requests, hrun,
      hl, ?_⟩
    rw [hcpu, sharesMilliCPU_of_fits v.CPUShares hpos hfit]

/-- C20, at the largest quota and shares of the range. -/
theorem ContainerFn_cpu_in_range_witness :
    (∃ (c1 : Container) (commonMounts1 : GoMap String) (limits : GoMap Quantity),
      ContainerFn dottedQuad keyValueEnvironment
          { CPUQuota := 9223372036854775, CPUShares := 9223372036854775 } [] [] {} =
        some (c1, commonMounts1) ∧
      c1.Resources.Limits = some limits ∧
      GoMap.get limits "cpu" = some (Quantity.NewMilliQuantity 92233720368547)) ∧
    (∃ (c1 : Container) (commonMounts1 : GoMap String) (requests : GoMap Quantity),
      ContainerFn dottedQuad keyValueEnvironment
          { CPUQuota := 9223372036854775, CPUShares := 9223372036854775 } [] [] {} =
        some (c1, commonMounts1) ∧
      c1.Resources.Requests = some requests ∧
      GoMap.get requests "cpu" = some (Quantity.NewMilliQuantity 9007199254740991)) :=
  ⟨((ContainerFn_cpu_in_range dottedQuad keyValueEnvironment
      { CPUQuota := 9223372036854775, CPUShares := 9223372036854775 } [] [] {}).1
        (by decide) (by decide)).2.2.2,
   ((ContainerFn_cpu_in_range dottedQuad keyValueEnvironment
      { CPUQuota := 9223372036854775, CPUShares := 9223372036854775 } [] [] {}).2
        (by decide) (by decide)).2.2.2⟩


/-! ## Dependence on the order of the names -/

/-- C19. Two inputs that differ by a one-to-one renaming of the service names
(`a` and `c` change places), one accepted and one rejected: the hub joining
two otherwise unrelated services is accepted when it is named `a` and sorts
before them, and rejected with a conflict when it is named `c` and sorts
after them. -/
theorem updatePodsList_depends_on_names :
    Function.Injective swapAC ∧
    renameJoins swapAC hubFirst.joins
      = [("c", ["c", "b", "a"]), ("b", ["b"]), ("a", ["a"])] ∧
    (updatePodsList hubFirst).2 = none ∧
    (updatePodsList hubFirst).1.colocated = [["a", "b", "c"]] ∧
    (updatePodsList { hubFirst with joins := renameJoins swapAC hubFirst.joins }).2
      = some (Error.conflict "c" ["c", "b", "a"] ["a", "b", "c"]) := by
  refine ⟨?_, by decide, by decide, by decide, by decide⟩
  have hinv : ∀ s, swapAC (swapAC s) = s := by
    intro s
    unfold swapAC
    by_cases h1 : s = "a"
    · subst h1
      decide
    · by_cases h2 : s = "c"
      · subst h2
        decide
      · simp [h1, h2]
  intro x y h
  rw [← hinv x, ← hinv y, h]


/-! ## Totality of the port parser -/

/-- Every segment is a contiguous part of the joined string. -/
theorem infix_joinSegments (segs : List String) :
    ∀ seg ∈ segs, seg.data <:+: (joinSegments segs).data := by
  induction segs with
  | nil => intro seg h; cases h
  | cons s rest ih =>
    intro seg hseg
    cases rest with
    | nil =>
      rw [List.mem_singleton] at hseg
      subst hseg
      exact List.infix_refl _
    | cons t rest =>
      rw [data_joinSegments_cons]
      rcases List.mem_cons.mp hseg with rfl | h
      · exact (List.prefix_append _ _).isInfix
      · obtain ⟨a, b, hab⟩ := ih seg h
        exact ⟨s.data ++ ':' :: a, b, by simp [← hab]⟩

theorem data_infix_of_part (seg p : String) (h : PartBeforeFirstDash seg p) :
    p.data <:+: seg.data := by
  rcases h.2 with rfl | ⟨rest, rfl⟩
  · exact List.infix_refl _
  · simp only [String.data_append, List.append_assoc]
    exact (List.prefix_append _ _).isInfix

/-- C12. The port parser is total: for every string it returns a pair, no
index being out of range. Each component is the part before the first dash
of one of the colon-separated segments of the input, hence a contiguous part
of the input, whatever the segments hold; and with more than three segments
(three colons or more) the host port is the container port. -/
theorem extractFirstPorts_graceful (ParseIP : String → Option (List Nat)) (port : String) :
    ∃ (segs : List String) (container host : String),
      extractFirstPorts ParseIP port = some (container, host) ∧
      (∀ s ∈ segs, ':' ∉ s.data) ∧ joinSegments segs = port ∧
      (∃ seg ∈ segs, PartBeforeFirstDash seg container) ∧
      (∃ seg ∈ segs, PartBeforeFirstDash seg host) ∧
      container.data <:+: port.data ∧ host.data <:+: port.data ∧
      (3 ≤ port.data.count ':' → host = container) := by
  obtain ⟨hne, hcolon, hjoin⟩ := Split_spec port
  have hlen := length_Split port ':'
  obtain ⟨last, hlast⟩ : ∃ last, (Split port ':').getLast? = some last := by
    cases h : (Split port ':').getLast? with
    | none => exact absurd (List.getLast?_eq_none_iff.mp h) hne
    | some x => exact ⟨x, rfl⟩
  have hidx : (Split port ':')[(Split port ':').length - 1]? = some last := by
    rw [← List.getLast?_eq_getElem?]
    exact hlast
  have hlastmem : last ∈ Split port ':' := List.getElem?_mem hidx
  obtain ⟨container, hc, hcspec⟩ := rangeToPort_spec last
  have hinfix : ∀ seg ∈ Split port ':', ∀ p, PartBeforeFirstDash seg p →
      p.data <:+: port.data := by
    intro seg hseg p hp
    have h1 := infix_joinSegments (Split port ':') seg hseg
    rw [hjoin] at h1
    exact (data_infix_of_part seg p hp).trans h1
  have hrun := extractFirstPorts_of_last ParseIP port last container hidx hc
  by_cases h3 : (Split port ':').length = 3
  · have hmid : (Split port ':')[1]? = some (Split port ':')[1] :=
      List.getElem?_eq_getElem (by omega)
    obtain ⟨host, hh, hhspec⟩ := rangeToPort_spec (Split port ':')[1]
    refine ⟨Split port ':', container, host, ?_, hcolon, hjoin, ⟨last, hlastmem, hcspec⟩,
      ⟨_, List.getElem?_mem hmid, hhspec⟩, hinfix _ hlastmem _ hcspec,
      hinfix _ (List.getElem?_mem hmid) _ hhspec, fun h => by omega⟩
    rw [hrun]
    simp [h3, hh]
  · by_cases h2 : (Split port ':').length = 2
    · have hs0 : (Split port ':')[0]? = some (Split port ':')[0] :=
        List.getElem?_eq_getElem (by omega)
      obtain ⟨host, hh, hhspec⟩ := rangeToPort_spec (Split port ':')[0]
      cases hip : ParseIP (Split port ':')[0] with
      | none =>
        refine ⟨Split port ':', container, host, ?_, hcolon, hjoin, ⟨last, hlastmem, hcspec⟩,
          ⟨_, List.getElem?_mem hs0, hhspec⟩, hinfix _ hlastmem _ hcspec,
          hinfix _ (List.getElem?_mem hs0) _ hhspec, fun h => by omega⟩
        rw [hrun]
        simp [h3, h2, hip, hh]
      | some ip =>
        refine ⟨Split port ':', container, container, ?_, hcolon, hjoin,
          ⟨last, hlastmem, hcspec⟩, ⟨last, hlastmem, hcspec⟩, hinfix _ hlastmem _ hcspec,
          hinfix _ hlastmem _ hcspec, fun _ => rfl⟩
        rw [hrun]
        simp [h3, h2, hip]
    · refine ⟨Split port ':', container, container, ?_, hcolon, hjoin,
        ⟨last, hlastmem, hcspec⟩, ⟨last, hlastmem, hcspec⟩, hinfix _ hlastmem _ hcspec,
        hinfix _ hlastmem _ hcspec, fun _ => rfl⟩
      rw [hrun]
      simp [h3, h2]


/-! ## The callback, field by field -/

theorem configurePorts_eq (ParseIP : String → Option (List Nat)) (ports : List String) :
    ∀ acc, configurePorts ParseIP ports acc =
      some (acc ++ ports.filterMap (declaredPort ParseIP)) := by
  induction ports with
  | nil => intro acc; simp [configurePorts]
  | cons s rest ih =>
    intro acc
    obtain ⟨⟨container, host⟩, hr⟩ := extractFirstPorts_total ParseIP s
    cases ha : Atoi container with
    | none =>
      have hd : declaredPort ParseIP s = none := by simp [declaredPort, hr, ha]
      simp only [configurePorts, hr, ha, ih, List.filterMap_cons, hd]
    | some port =>
      have hd : declaredPort ParseIP s = some { containerPort := port } := by
        simp [declaredPort, hr, ha]
      simp only [configurePorts, hr, ha, ih, List.filterMap_cons, hd, List.append_assoc,
        List.singleton_append]

/-- The callback written out: the container it returns and the table. -/
theorem ContainerFn_eq (ParseIP : String → Option (List Nat))
    (ParseEnvironment : List String → List EnvVar) (v : ServiceConfig)
    (order : List String) (commonMounts : GoMap String) (c : Container) :
    ContainerFn ParseIP ParseEnvironment v order commonMounts c =
      some ({ configureResources v (configureSecurity v (configureProcess ParseEnvironment v
                { (if v.ContainerName.length > 0 then { c with Name := v.ContainerName }
                    else c) with
                  Ports := c.Ports ++ v.Ports.filterMap (declaredPort ParseIP) })) with
              VolumeMounts :=
                (order.foldl (mountStep (mountPointsOf v)) (commonMounts, c.VolumeMounts)).2 },
            (order.foldl (mountStep (mountPointsOf v)) (commonMounts, c.VolumeMounts)).1) := by
  have hp := configurePorts_eq ParseIP v.Ports
    (if v.ContainerName.length > 0 then { c with Name := v.ContainerName } else c).Ports
  have hports : (if v.ContainerName.length > 0 then { c with Name := v.ContainerName }
      else c).Ports = c.Ports := by
    by_cases h : v.ContainerName.length > 0 <;> simp [h]
  rw [hports] at hp
  obtain ⟨mp, hm⟩ := mountPoints_total v.Volumes []
  have hvm : (configureResources v (configureSecurity v (configureProcess ParseEnvironment v
      { (if v.ContainerName.length > 0 then { c with Name := v.ContainerName } else c) with
        Ports := c.Ports ++ v.Ports.filterMap (declaredPort ParseIP) }))).VolumeMounts
      = c.VolumeMounts := by
    rw [configureResources_VolumeMounts, configureSecurity_VolumeMounts,
      configureProcess_VolumeMounts]
    by_cases h : v.ContainerName.length > 0 <;> simp [h]
  simp only [ContainerFn, hports, hp, hm, mountPointsOf, Option.getD_some, hvm]

theorem configureResources_Ports (v : ServiceConfig) (c : Container) :
    (configureResources v c).Ports = c.Ports := by
  unfold configureResources
  by_cases h1 : v.MemLimit > 0 <;> by_cases h2 : v.CPUQuota > 0 <;>
    by_cases h3 : v.CPUShares > 0 <;> simp [h1, h2, h3]

theorem configureSecurity_Ports (v : ServiceConfig) (c : Container) :
    (configureSecurity v c).Ports = c.Ports := by
  unfold configureSecurity
  cases Atoi v.User <;> cases v.StdinOpen <;> cases v.Privileged <;> cases v.ReadOnly <;> rfl

theorem configureProcess_Ports (ParseEnvironment : List String → List EnvVar)
    (v : ServiceConfig) (c : Container) :
    (configureProcess ParseEnvironment v c).Ports = c.Ports := by
  unfold configureProcess
  by_cases h1 : v.Entrypoint.length > 0 <;> by_cases h2 : v.WorkingDir.length > 0 <;>
    simp [h1, h2]

/-- C11, as the code has it. The callback returns, and the container ports it
appends are, in declaration order, one for each declared port mapping whose
first container port (the container part returned by `extractFirstPorts`)
reads as an integer, with that integer as number; a mapping whose first
container port does not read as an integer adds no port. So when every
mapping reads as an integer there is exactly one port per mapping. -/
theorem ContainerFn_ports (ParseIP : String → Option (List Nat))
    (ParseEnvironment : List String → List EnvVar) (v : ServiceConfig)
    (order : List String) (commonMounts : GoMap String) (c : Container) :
    ∃ (c1 : Container) (commonMounts1 : GoMap String),
      ContainerFn ParseIP ParseEnvironment v order commonMounts c = some (c1, commonMounts1) ∧
      c1.Ports = c.Ports ++ v.Ports.filterMap (declaredPort ParseIP) ∧
      (∀ (s container host : String) (n : Int), extractFirstPorts ParseIP s = some (container, host) →
        Atoi container = some n → declaredPort ParseIP s = some { containerPort := n }) ∧
      (∀ (s container host : String), extractFirstPorts ParseIP s = some (container, host) →
        Atoi container = none → declaredPort ParseIP s = none) ∧
      ((∀ s ∈ v.Ports, ∃ q, declaredPort ParseIP s = some q) →
        (v.Ports.filterMap (declaredPort ParseIP)).length = v.Ports.length ∧
        ∀ (i : Nat) (s : String), v.Ports[i]? = some s →
          (v.Ports.filterMap (declaredPort ParseIP))[i]? = declaredPort ParseIP s) := by
  refine ⟨_, _, ContainerFn_eq ParseIP ParseEnvironment v order commonMounts c, ?_, ?_, ?_, ?_⟩
  · show (configureResources v _).Ports = _
    rw [configureResources_Ports, configureSecurity_Ports, configureProcess_Ports]
  · intro s container host n h1 h2
    simp [declaredPort, h1, h2]
  · intro s container host h1 h2
    simp [declaredPort, h1, h2]
  · intro hall
    have hmap : v.Ports.filterMap (declaredPort ParseIP) =
        v.Ports.map (fun s => ((declaredPort ParseIP s).getD { containerPort := 0 })) := by
      generalize v.Ports = ports at hall
      induction ports with
      | nil => rfl
      | cons s rest ih =>
        obtain ⟨q, hq⟩ := hall s (List.mem_cons_self s rest)
        rw [List.filterMap_cons_some hq, List.map_cons, hq,
          ih (fun s' hs' => hall s' (List.mem_cons_of_mem s hs'))]
        rfl
    rw [hmap, List.length_map]
    refine ⟨rfl, ?_⟩
    intro i s hs
    obtain ⟨q, hq⟩ := hall s (List.getElem?_mem hs)
    rw [List.getElem?_map, hs, hq]
    simp [hq]

/-- C11 as stated fails: for the one declared mapping `8080/udp` the first
container port is `8080/udp`, which `strconv.Atoi` rejects, and the callback
appends no container port. -/
theorem ContainerFn_skips_unparsed_port :
    extractFirstPorts dottedQuad "8080/udp" = some ("8080/udp", "8080/udp") ∧
    (ContainerFn dottedQuad keyValueEnvironment { Ports := ["8080/udp"] } [] [] {}).map
        (fun r => r.1.Ports) = some [] := by
  decide


/-- C11, at the mappings `80:8080` and `8000-8010`: the ports 8080 and 8000. -/
theorem ContainerFn_ports_witness :
    ∃ (c1 : Container) (commonMounts1 : GoMap String),
      ContainerFn dottedQuad keyValueEnvironment { Ports := ["80:8080", "8000-8010"] } [] [] {}
        = some (c1, commonMounts1) ∧
      c1.Ports = [{ containerPort := 8080 }, { containerPort := 8000 }] := by
  obtain ⟨c1, cm1, h1, h2, _⟩ :=
    ContainerFn_ports dottedQuad keyValueEnvironment
      { Ports := ["80:8080", "8000-8010"] } [] [] {}
  exact ⟨c1, cm1, h1, by rw [h2]; decide⟩

/-! ## The user field -/

/-- The warnings after one service: a message gains the service exactly when
one of the listed conditions with that message holds. -/
theorem warn_fold (k : String) (l : List (Bool × String)) (m : String) :
    (l.map Prod.snd).Nodup → ∀ w : GoMap (List String),
      GoMap.get (l.foldl (fun w cm => if cm.1 then warn k w cm.2 else w) w) m =
        if (true, m) ∈ l then some ((GoMap.get w m).getD [] ++ [k]) else GoMap.get w m := by
  induction l with
  | nil => intro _ w; simp
  | cons cm rest ih =>
    intro hnd w
    obtain ⟨b, msg⟩ := cm
    simp only [List.map_cons, List.nodup_cons] at hnd
    rw [List.foldl_cons, ih hnd.2]
    by_cases hm : msg = m
    · subst hm
      have hnot : (true, msg) ∉ rest := fun h => hnd.1 (List.mem_map.mpr ⟨_, h, rfl⟩)
      cases b with
      | true => simp [hnot, warn, get_set_self]
      | false => simp [hnot]
    · have hget : GoMap.get (if b = true then warn k w msg else w) m = GoMap.get w m := by
        cases b with
        | true => simp [warn, get_set_of_ne _ _ _ _ hm]
        | false => simp
      have hmem : (true, m) ∈ (b, msg) :: rest ↔ (true, m) ∈ rest := by
        simp only [List.mem_cons, Prod.mk.injEq]
        constructor
        · rintro (⟨_, h⟩ | h)
          · exact absurd h.symm hm
          · exact h
        · exact Or.inr
      simp only [hget, hmem]

theorem unusableElements_messages_nodup (v : ServiceConfig) :
    ((unusableElements v).map Prod.snd).Nodup := by
  have h : (unusableElements v).map Prod.snd = (unusableElements {}).map Prod.snd := rfl
  rw [h]
  decide

theorem user_warning_iff (v : ServiceConfig) :
    (true, "setting user to a string is not supported - use numeric user value")
        ∈ unusableElements v ↔
      (0 < v.User.length ∧ Atoi v.User = none) := by
  simp [unusableElements]


theorem configureResources_SecurityContext (v : ServiceConfig) (c : Container) :
    (configureResources v c).SecurityContext = c.SecurityContext := by
  unfold configureResources
  by_cases h1 : v.MemLimit > 0 <;> by_cases h2 : v.CPUQuota > 0 <;>
    by_cases h3 : v.CPUShares > 0 <;> simp [h1, h2, h3]

theorem configureProcess_SecurityContext (ParseEnvironment : List String → List EnvVar)
    (v : ServiceConfig) (c : Container) :
    (configureProcess ParseEnvironment v c).SecurityContext = c.SecurityContext := by
  unfold configureProcess
  by_cases h1 : v.Entrypoint.length > 0 <;> by_cases h2 : v.WorkingDir.length > 0 <;>
    simp [h1, h2]

/-- The user block and the flag blocks: with a user that reads as an integer
the security context holds that integer as `RunAsUser`; otherwise
`RunAsUser` is what it was. -/
theorem configureSecurity_RunAsUser (v : ServiceConfig) (c : Container) :
    (∀ uid, Atoi v.User = some uid →
      ∃ sc, (configureSecurity v c).SecurityContext = some sc ∧ sc.RunAsUser = some uid) ∧
    (Atoi v.User = none →
      (configureSecurity v c).SecurityContext.bind (fun sc => sc.RunAsUser) =
        c.SecurityContext.bind (fun sc => sc.RunAsUser)) := by
  constructor
  · intro uid h
    unfold configureSecurity
    rw [h]
    cases v.StdinOpen <;> cases v.Privileged <;> cases v.ReadOnly <;>
      simp [ensureSecurityContext]
  · intro h
    unfold configureSecurity
    rw [h]
    cases v.StdinOpen <;> cases v.Privileged <;> cases v.ReadOnly <;>
      cases hsc : c.SecurityContext <;> simp [ensureSecurityContext, hsc]

/-- C14. For every service with a non-empty user field exactly one of two
things happens. Either the user reads as an integer (`strconv.Atoi`
succeeds): the callback sets `RunAsUser` to that integer and
`warnUnusableComposeElements` leaves the entry of the user warning as it was.
Or it does not: the callback leaves `RunAsUser` as it found it, and the
service is appended to the entry of the warning "setting user to a string is
not supported - use numeric user value". -/
theorem user_field_handling (ParseIP : String → Option (List Nat))
    (ParseEnvironment : List String → List EnvVar) (k : String) (v : ServiceConfig)
    (order : List String) (commonMounts : GoMap String) (c : Container)
    (warnings : GoMap (List String)) (huser : 0 < v.User.length) :
    ∃ (c1 : Container) (commonMounts1 : GoMap String),
      ContainerFn ParseIP ParseEnvironment v order commonMounts c = some (c1, commonMounts1) ∧
      ((∃ uid, Atoi v.User = some uid ∧
          (∃ sc, c1.SecurityContext = some sc ∧ sc.RunAsUser = some uid) ∧
          GoMap.get (warnUnusableComposeElements k v warnings)
              "setting user to a string is not supported - use numeric user value" =
            GoMap.get warnings
              "setting user to a string is not supported - use numeric user value") ∨
        (Atoi v.User = none ∧
          c1.SecurityContext.bind (fun sc => sc.RunAsUser) =
            c.SecurityContext.bind (fun sc => sc.RunAsUser) ∧
          GoMap.get (warnUnusableComposeElements k v warnings)
              "setting user to a string is not supported - use numeric user value" =
            some ((GoMap.get warnings
              "setting user to a string is not supported - use numeric user value").getD []
                ++ [k]))) ∧
      ¬ ((∃ uid, Atoi v.User = some uid) ∧ Atoi v.User = none) := by
  have hw := warn_fold k (unusableElements v)
    "setting user to a string is not supported - use numeric user value"
    (unusableElements_messages_nodup v) warnings
  have hsc0 : ∀ ports, ({ (if v.ContainerName.length > 0 then { c with Name := v.ContainerName }
      else c) with Ports := ports } : Container).SecurityContext = c.SecurityContext := by
    intro ports
    by_cases h : v.ContainerName.length > 0 <;> simp [h]
  refine ⟨_, _, ContainerFn_eq ParseIP ParseEnvironment v order commonMounts c, ?_, ?_⟩
  · cases ha : Atoi v.User with
    | some uid =>
      left
      refine ⟨uid, rfl, ?_, ?_⟩
      · show ∃ sc, (configureResources v _).SecurityContext = some sc ∧ _
        rw [configureResources_SecurityContext]
        exact (configureSecurity_RunAsUser v _).1 uid ha
      · have hno : (true, "setting user to a string is not supported - use numeric user value")
            ∉ unusableElements v := by
          rw [user_warning_iff]
          rintro ⟨_, h⟩
          rw [ha] at h
          cases h
        rw [warnUnusableComposeElements, hw, if_neg hno]
    | none =>
      right
      refine ⟨rfl, ?_, ?_⟩
      · show (configureResources v _).SecurityContext.bind _ = _
        rw [configureResources_SecurityContext, (configureSecurity_RunAsUser v _).2 ha,
          configureProcess_SecurityContext, hsc0]
      · have hyes : (true, "setting user to a string is not supported - use numeric user value")
            ∈ unusableElements v := (user_warning_iff v).mpr ⟨huser, ha⟩
        rw [warnUnusableComposeElements, hw, if_pos hyes]
  · rintro ⟨⟨uid, h1⟩, h2⟩
    rw [h1] at h2
    cases h2

/-- C14, at the users `1000` and `root`. -/
theorem user_field_handling_witness :
    (∃ (c1 : Container) (commonMounts1 : GoMap String),
      ContainerFn dottedQuad keyValueEnvironment { User := "1000" } [] [] {}
        = some (c1, commonMounts1) ∧
      (∃ sc, c1.SecurityContext = some sc ∧ sc.RunAsUser = some 1000) ∧
      warnUnusableComposeElements "web" { User := "1000" } [] = []) ∧
    (∃ (c1 : Container) (commonMounts1 : GoMap String),
      ContainerFn dottedQuad keyValueEnvironment { User := "root" } [] [] {}
        = some (c1, commonMounts1) ∧
      c1.SecurityContext.bind (fun sc => sc.RunAsUser) = none ∧
      warnUnusableComposeElements "web" { User := "root" } [] =
        [("setting user to a string is not supported - use numeric user value", ["web"])]) := by
  constructor
  · obtain ⟨c1, cm1, h1, h2, _⟩ :=
      user_field_handling dottedQuad keyValueEnvironment "web" { User := "1000" } [] [] {} []
        (by decide)
    rcases h2 with ⟨uid, hu, hsc, _⟩ | ⟨hnone, _⟩
    · have huid : uid = 1000 := by
        have : Atoi "1000" = some uid := hu
        have h1000 : Atoi "1000" = some 1000 := by decide
        rw [h1000] at this
        exact (Option.some.inj this).symm
      subst huid
      exact ⟨c1, cm1, h1, hsc, by decide⟩
    · have h1000 : Atoi "1000" = some 1000 := by decide
      have : Atoi "1000" = none := hnone
      rw [h1000] at this
      cases this
  · obtain ⟨c1, cm1, h1, h2, _⟩ :=
      user_field_handling dottedQuad keyValueEnvironment "web" { User := "root" } [] [] {} []
        (by decide)
    rcases h2 with ⟨uid, hu, _⟩ | ⟨_, hsc, _⟩
    · have hroot : Atoi "root" = none := by decide
      have : Atoi "root" = some uid := hu
      rw [hroot] at this
      cases this
    · exact ⟨c1, cm1, h1, hsc, by decide⟩


/-! ## Aliases -/

theorem splitNChars_two_of_not_mem (sep : Char) (l : List Char) (h : sep ∉ l) :
    splitNChars sep 2 l = [l] := by
  induction l with
  | nil => rfl
  | cons c cs ih =>
    have hc : c ≠ sep := fun e => h (e ▸ List.mem_cons_self c cs)
    simp [splitNChars, hc, ih (fun hm => h (List.mem_cons_of_mem c hm))]

theorem splitNChars_two_append (sep : Char) (p rest : List Char) (h : sep ∉ p) :
    splitNChars sep 2 (p ++ sep :: rest) = [p, rest] := by
  induction p with
  | nil => simp [splitNChars]
  | cons c cs ih =>
    have hc : c ≠ sep := fun e => h (e ▸ List.mem_cons_self c cs)
    simp [splitNChars, hc, ih (fun hm => h (List.mem_cons_of_mem c hm))]

/-- A string splits in two at its first colon exactly when it has one. -/
theorem SplitN_two_iff (s a b : String) :
    SplitN s ':' 2 = [a, b] ↔ (':' ∉ a.data ∧ s = a ++ ":" ++ b) := by
  constructor
  · intro h
    obtain ⟨p, _, hp, hl⟩ := splitNChars_two_head ':' s.data
    rcases hl with hl | ⟨rest, hl⟩
    · rw [← hl] at hp
      simp [SplitN, splitNChars_two_of_not_mem ':' s.data hp] at h
    · simp only [SplitN, hl, splitNChars_two_append ':' p rest hp, List.map_cons,
        List.map_nil, List.cons.injEq, and_true] at h
      obtain ⟨rfl, rfl⟩ := h
      exact ⟨hp, String.ext (by simp [String.data_append, hl])⟩
  · rintro ⟨ha, rfl⟩
    have hd : (a ++ ":" ++ b).data = a.data ++ ':' :: b.data := by
      simp [String.data_append]
    simp [SplitN, hd, splitNChars_two_append ':' a.data b.data ha]

theorem SplitN_two_of_no_colon (s : String) (h : ':' ∉ s.data) : SplitN s ':' 2 = [s] := by
  simp [SplitN, splitNChars_two_of_not_mem ':' s.data h]

/-- One link: the alias sets after it. -/
theorem updateAliasesLink_spec (aliases : GoMap StringSet) (s : String) (a b : String) :
    b ∈ (GoMap.get (updateAliasesLink aliases s) a).getD [] ↔
      b ∈ (GoMap.get aliases a).getD [] ∨ (SplitN s ':' 2 = [a, b] ∧ a ≠ b) := by
  unfold updateAliasesLink
  rcases hs : SplitN s ':' 2 with _ | ⟨p0, _ | ⟨p1, _ | ⟨p2, rest⟩⟩⟩
  · simp
  · simp
  · by_cases heq : p0 = p1
    · subst heq
      simp only [if_true, List.cons.injEq, and_true]
      constructor
      · exact Or.inl
      · rintro (h | ⟨⟨rfl, rfl⟩, hne⟩)
        · exact h
        · exact absurd rfl hne
    · simp only [heq, if_false, List.cons.injEq, and_true]
      by_cases ha : p0 = a
      · subst ha
        rw [get_set_self]
        simp only [Option.getD_some, mem_Insert_iff, List.mem_singleton, NewString]
        constructor
        · rintro (h | rfl)
          · left
            cases hg : GoMap.get aliases p0 with
            | none => rw [hg] at h; simp at h
            | some set => rw [hg] at h; simpa using h
          · exact Or.inr (by simpa using heq)
        · rintro (h | ⟨⟨_, rfl⟩, _⟩)
          · left
            cases hg : GoMap.get aliases p0 with
            | none => rw [hg] at h; simp at h
            | some set => rw [hg] at h; simpa using h
          · exact Or.inr rfl
      · rw [get_set_of_ne _ _ _ _ ha]
        constructor
        · exact Or.inl
        · rintro (h | ⟨⟨rfl, _⟩, _⟩)
          · exact h
          · exact absurd rfl ha
  · simp

/-- One link keeps every alias set of the map non-empty. -/
theorem updateAliasesLink_nonempty (aliases : GoMap StringSet) (s : String)
    (h : ∀ a set, GoMap.get aliases a = some set → set ≠ []) :
    ∀ a set, GoMap.get (updateAliasesLink aliases s) a = some set → set ≠ [] := by
  intro a set hget
  unfold updateAliasesLink at hget
  rcases hs : SplitN s ':' 2 with _ | ⟨p0, _ | ⟨p1, _ | ⟨p2, rest⟩⟩⟩
  · rw [hs] at hget; exact h a set hget
  · rw [hs] at hget; exact h a set hget
  · rw [hs] at hget
    by_cases heq : p0 = p1
    · simp only [heq, if_true] at hget
      exact h a set hget
    · simp only [heq, if_false] at hget
      by_cases ha : p0 = a
      · subst ha
        rw [get_set_self] at hget
        cases hget
        intro hnil
        have : p1 ∈ StringSet.Insert ((GoMap.get aliases p0).getD (NewString [])) [p1] := by
          rw [mem_Insert_iff]
          exact Or.inr (List.mem_singleton.mpr rfl)
        rw [hnil] at this
        cases this
      · rw [get_set_of_ne _ _ _ _ ha] at hget
        exact h a set hget
  · rw [hs] at hget; exact h a set hget

theorem updateAliases_links (links : List String) :
    ∀ aliases : GoMap StringSet,
      (∀ a b, b ∈ (GoMap.get (links.foldl updateAliasesLink aliases) a).getD [] ↔
        b ∈ (GoMap.get aliases a).getD [] ∨ ∃ s ∈ links, SplitN s ':' 2 = [a, b] ∧ a ≠ b) ∧
      ((∀ a set, GoMap.get aliases a = some set → set ≠ []) →
        ∀ a set, GoMap.get (links.foldl updateAliasesLink aliases) a = some set → set ≠ []) := by
  induction links with
  | nil => intro aliases; exact ⟨fun a b => by simp, fun h => h⟩
  | cons s rest ih =>
    intro aliases
    obtain ⟨h1, h2⟩ := ih (updateAliasesLink aliases s)
    rw [List.foldl_cons]
    refine ⟨?_, fun h => h2 (updateAliasesLink_nonempty aliases s h)⟩
    intro a b
    rw [h1 a b, updateAliasesLink_spec]
    simp only [List.mem_cons, exists_eq_or_imp]
    exact or_assoc

theorem updateAliases_services (cfgs : GoMap ServiceConfig) :
    ∀ aliases : GoMap StringSet,
      (∀ a b, b ∈ (GoMap.get (cfgs.foldl
          (fun a kv => kv.2.Links.foldl updateAliasesLink a) aliases) a).getD [] ↔
        b ∈ (GoMap.get aliases a).getD [] ∨
          ∃ kv ∈ cfgs, ∃ s ∈ kv.2.Links, SplitN s ':' 2 = [a, b] ∧ a ≠ b) ∧
      ((∀ a set, GoMap.get aliases a = some set → set ≠ []) →
        ∀ a set, GoMap.get (cfgs.foldl
          (fun a kv => kv.2.Links.foldl updateAliasesLink a) aliases) a = some set →
          set ≠ []) := by
  induction cfgs with
  | nil =>
    intro aliases
    refine ⟨fun a b => ?_, fun h => h⟩
    constructor
    · exact Or.inl
    · rintro (h | ⟨kv, hkv, _⟩)
      · exact h
      · cases hkv
  | cons kv rest ih =>
    intro aliases
    obtain ⟨h1, h2⟩ := ih (kv.2.Links.foldl updateAliasesLink aliases)
    obtain ⟨h3, h4⟩ := updateAliases_links kv.2.Links aliases
    rw [List.foldl_cons]
    refine ⟨?_, fun h => h2 (h4 h)⟩
    intro a b
    rw [h1 a b, h3 a b]
    simp only [List.mem_cons, exists_eq_or_imp]
    exact or_assoc

/-- C15. After `updateAliases` on an empty alias map, `b` is in the alias set
of `a` exactly when some service declares a link that, split at its first
colon, is `a` followed by `b`, with `a` different from `b`. A link without a
colon leaves the map as it is, no name is its own alias, and no alias set of
the map is empty. -/
theorem updateAliases_spec (p : Project) (data : TransformData) (hempty : data.aliases = []) :
    (∀ a b : String, b ∈ (GoMap.get (updateAliases p data).aliases a).getD [] ↔
      ∃ kv ∈ p.Configs, ∃ s ∈ kv.2.Links, ':' ∉ a.data ∧ s = a ++ ":" ++ b ∧ a ≠ b) ∧
    (∀ (aliases : GoMap StringSet) (s : String), ':' ∉ s.data →
      updateAliasesLink aliases s = aliases) ∧
    (∀ a : String, a ∉ (GoMap.get (updateAliases p data).aliases a).getD []) ∧
    (∀ (a : String) (set : StringSet),
      GoMap.get (updateAliases p data).aliases a = some set → set ≠ []) := by
  obtain ⟨h1, h2⟩ := updateAliases_services p.Configs data.aliases
  have hiff : ∀ a b : String, b ∈ (GoMap.get (updateAliases p data).aliases a).getD [] ↔
      ∃ kv ∈ p.Configs, ∃ s ∈ kv.2.Links, ':' ∉ a.data ∧ s = a ++ ":" ++ b ∧ a ≠ b := by
    intro a b
    show b ∈ (GoMap.get (p.Configs.foldl _ data.aliases) a).getD [] ↔ _
    rw [h1 a b, hempty]
    constructor
    · rintro (h | ⟨kv, hkv, s, hs, hsplit, hne⟩)
      · simp [GoMap.get] at h
      · obtain ⟨ha, hs'⟩ := (SplitN_two_iff s a b).mp hsplit
        exact ⟨kv, hkv, s, hs, ha, hs', hne⟩
    · rintro ⟨kv, hkv, s, hs, ha, hs', hne⟩
      exact Or.inr ⟨kv, hkv, s, hs, (SplitN_two_iff s a b).mpr ⟨ha, hs'⟩, hne⟩
  refine ⟨hiff, ?_, ?_, ?_⟩
  · intro aliases s hs
    simp [updateAliasesLink, SplitN_two_of_no_colon s hs]
  · intro a ha
    obtain ⟨_, _, _, _, _, _, hne⟩ := (hiff a a).mp ha
    exact hne rfl
  · intro a set hget
    apply h2 _ a set hget
    intro a' set' h
    rw [hempty] at h
    simp [GoMap.get] at h

/-- C15, at the project `linked`: `database` is the only alias of `db`. -/
theorem updateAliases_spec_witness :
    (updateAliases linked {}).aliases = [("db", ["database"])] ∧
    ("database" ∈ (GoMap.get (updateAliases linked {}).aliases "db").getD [] ↔
      ∃ kv ∈ linked.Configs, ∃ s ∈ kv.2.Links,
        ':' ∉ "db".data ∧ s = "db" ++ ":" ++ "database" ∧ "db" ≠ "database") :=
  ⟨by decide, (updateAliases_spec linked {} rfl).1 "db" "database"⟩


/-! ## The warnings annotation -/

theorem leChars_total (a : List Char) : ∀ b, leChars a b = true ∨ leChars b a = true := by
  induction a with
  | nil => intro b; left; simp [leChars]
  | cons x xs ih =>
    intro b
    cases b with
    | nil => right; simp [leChars]
    | cons y ys =>
      simp only [leChars]
      by_cases h1 : x.toNat < y.toNat
      · left; simp [h1]
      · by_cases h2 : y.toNat < x.toNat
        · right; simp [h2]
        · simp only [h1, h2, if_false]
          exact ih ys

theorem leChars_trans (a : List Char) :
    ∀ b c, leChars a b = true → leChars b c = true → leChars a c = true := by
  induction a with
  | nil => intro b c _ _; simp [leChars]
  | cons x xs ih =>
    intro b c hab hbc
    cases b with
    | nil => simp [leChars] at hab
    | cons y ys =>
      cases c with
      | nil => simp [leChars] at hbc
      | cons z zs =>
        simp only [leChars] at hab hbc ⊢
        by_cases h1 : x.toNat < y.toNat
        · by_cases h2 : y.toNat < z.toNat
          · have : x.toNat < z.toNat := by omega
            simp [this]
          · by_cases h3 : z.toNat < y.toNat
            · simp [h2, h3] at hbc
            · have : x.toNat < z.toNat := by omega
              simp [this]
        · by_cases h1' : y.toNat < x.toNat
          · simp [h1, h1'] at hab
          · simp only [h1, h1', if_false] at hab
            by_cases h2 : y.toNat < z.toNat
            · have : x.toNat < z.toNat := by omega
              simp [this]
            · by_cases h3 : z.toNat < y.toNat
              · simp [h2, h3] at hbc
              · simp only [h2, h3, if_false] at hbc
                have e1 : ¬ x.toNat < z.toNat := by omega
                have e2 : ¬ z.toNat < x.toNat := by omega
                simp only [e1, e2, if_false]
                exact ih ys zs hab hbc

/-- The list `s.List()` is in ascending order. -/
theorem sorted_List (s : StringSet) : (StringSet.List s).Pairwise strLe := by
  haveI : IsTotal String strLe := ⟨fun a b => leChars_total a.data b.data⟩
  haveI : IsTrans String strLe := ⟨fun a b c => leChars_trans a.data b.data c.data⟩
  exact List.sorted_insertionSort strLe s.dedup

/-- C16, as the code has it. The entries of the compatibility annotation are
the strings `SERVICES: MESSAGE` of the warning table, `SERVICES` being the
services of the message joined by commas; they are listed without
duplicates in ascending order of the whole entry text, which begins with the
services, not the message; and for a non-empty table the annotation is the
header followed by the entries joined by a line break and `* `. -/
theorem warningEntries_sorted (warnings : GoMap (List String)) :
    (∀ x, x ∈ warningEntries warnings ↔ ∃ kv ∈ warnings, x = warningEntry kv.1 kv.2) ∧
    (warningEntries warnings).Pairwise strLe ∧
    (warningEntries warnings).Nodup ∧
    (∀ msg services, warningEntry msg services = Join services "," ++ ": " ++ msg) ∧
    (0 < warnings.len →
      generationWarning warnings =
        some ("not all docker-compose fields were honored:\n* " ++
          Join (warningEntries warnings) "\n* ")) := by
  refine ⟨?_, sorted_List _, nodup_List _, fun _ _ => rfl, ?_⟩
  · intro x
    rw [warningEntries, mem_List_iff, mem_Insert_iff]
    simp only [NewString, List.dedup_nil, List.not_mem_nil, false_or, List.mem_map]
    constructor
    · rintro ⟨kv, hkv, rfl⟩
      exact ⟨kv, hkv, rfl⟩
    · rintro ⟨kv, hkv, rfl⟩
      exact ⟨kv, hkv, rfl⟩
  · intro h
    have h' : warnings.len > 0 := h
    simp only [generationWarning, h', if_true]

/-- C16, at the warnings of the project `twoWarnings`. -/
theorem warningEntries_sorted_witness :
    generationWarning (updateServiceOrder twoWarnings {}).warnings =
      some ("not all docker-compose fields were honored:\n* " ++
        Join (warningEntries (updateServiceOrder twoWarnings {}).warnings) "\n* ") :=
  (warningEntries_sorted (updateServiceOrder twoWarnings {}).warnings).2.2.2.2 (by decide)

/-- C16 as stated fails: for the project `twoWarnings` the warning table holds
`restart is ignored ...` for `api` and `hostname is not supported` for `web`;
the annotation lists the entry of `api` before the entry of `web`, while the
message of `web` sorts before the message of `api`. -/
theorem warningEntries_not_by_message :
    (updateServiceOrder twoWarnings {}).warnings =
      [("restart is ignored - all pods are automatically restarted", ["api"]),
       ("hostname is not supported", ["web"])] ∧
    warningEntries (updateServiceOrder twoWarnings {}).warnings =
      ["api: restart is ignored - all pods are automatically restarted",
       "web: hostname is not supported"] ∧
    strLe "hostname is not supported"
      "restart is ignored - all pods are automatically restarted" ∧
    ¬ strLe "restart is ignored - all pods are automatically restarted"
      "hostname is not supported" := by
  decide


/-! ## The names of the colocation sets -/


theorem updateVolumesDecl_colocated (k : String) (decls : List String) :
    ∀ d : TransformData, (decls.foldl (updateVolumesDecl k) d).colocated = d.colocated := by
  induction decls with
  | nil => intro d; rfl
  | cons decl decls ih =>
    intro d
    rw [List.foldl_cons, ih]
    unfold updateVolumesDecl
    cases volumesFromTarget decl <;> rfl

theorem updateVolumesService_colocated (p : Project) (d d1 : TransformData) (k : String)
    (h : updateVolumesService p d k = some d1) : d1.colocated = d.colocated := by
  unfold updateVolumesService at h
  cases hv : GoMap.get p.Configs k with
  | none => simp [hv] at h
  | some v =>
    simp only [hv, Option.some.injEq] at h
    subst h
    rw [updateVolumesDecl_colocated]
    cases GoMap.get d.joins k <;> rfl

theorem updateVolumes_colocated (p : Project) (ks : List String) :
    ∀ d d1 : TransformData, ks.foldlM (updateVolumesService p) d = some d1 →
      d1.colocated = d.colocated := by
  induction ks with
  | nil =>
    intro d d1 h
    simp only [List.foldlM_nil, Option.pure_def, Option.some.injEq] at h
    rw [h]
  | cons k ks ih =>
    intro d d1 h
    rw [List.foldlM_cons] at h
    cases hs : updateVolumesService p d k with
    | none => rw [hs] at h; cases h
    | some d2 =>
      rw [hs] at h
      rw [ih d2 d1 h, updateVolumesService_colocated p d d2 k hs]

theorem updateServiceOrder_colocated (cfgs : GoMap ServiceConfig) :
    ∀ d : TransformData,
      (cfgs.foldl (fun (d : TransformData) kv =>
          { d with
            serviceOrder := d.serviceOrder.Insert [kv.1]
            warnings := warnUnusableComposeElements kv.1 kv.2 d.warnings }) d).colocated
        = d.colocated := by
  induction cfgs with
  | nil => intro d; rfl
  | cons kv cfgs ih => intro d; rw [List.foldl_cons, ih]

/-- The run of `updateVolumes` after `updateServiceOrder` on fresh data: it
completes, a declared service has its name and its targets as join-set, and
no other name has a join-set. -/
theorem updateVolumes_run (p : Project) :
    ∃ d, updateVolumes p (updateServiceOrder p {}) = some d ∧
      (∀ k v, GoMap.get p.Configs k = some v →
        GoMap.get d.joins k =
          some (StringSet.Insert [k] (v.VolumesFrom.filterMap volumesFromTarget))) ∧
      (∀ k, GoMap.get p.Configs k = none → GoMap.get d.joins k = none) ∧
      d.colocated = [] := by
  obtain ⟨hj0, hf0, hso⟩ := updateServiceOrder_fields p.Configs {}
  have hmem : ∀ x, x ∈ (updateServiceOrder p {}).serviceOrder.List ↔
      ∃ v, GoMap.get p.Configs x = some v := by
    intro x
    rw [mem_List_iff]
    unfold updateServiceOrder
    rw [hso x, ← mem_keys_iff, GoMap.keys, List.mem_dedup]
    simp
  obtain ⟨d1, hrun, hout, hin⟩ := updateVolumes_loop p (updateServiceOrder p {}).serviceOrder.List
    (updateServiceOrder p {}) (nodup_List _) (fun k' hk' => (hmem k').mp hk')
    (fun k' _ => by
      unfold updateServiceOrder
      rw [hj0, hf0]
      exact ⟨rfl, rfl⟩)
  refine ⟨d1, hrun, ?_, ?_, ?_⟩
  · intro k v hk
    exact (hin k ((hmem k).mpr ⟨v, hk⟩) v hk).1
  · intro k hk
    have hnot : k ∉ (updateServiceOrder p {}).serviceOrder.List := by
      intro h
      obtain ⟨v, hv⟩ := (hmem k).mp h
      rw [hk] at hv
      cases hv
    rw [(hout k hnot).1]
    unfold updateServiceOrder
    rw [hj0]
    rfl
  · have h1 := updateVolumes_colocated p _ _ _ hrun
    rw [h1]
    unfold updateServiceOrder
    rw [updateServiceOrder_colocated]


/-- Whatever way a step of the solver goes, the names in the sets afterwards
come from the sets before or from the join-set of the service. -/
theorem updatePodsListStep_names (joins : GoMap StringSet) (L : List StringSet) (k : String)
    (x : String) (h : ∃ c ∈ (updatePodsListStep joins L k).1, x ∈ c) :
    (∃ c ∈ L, x ∈ c) ∨ x ∈ (GoMap.get joins k).getD [] := by
  obtain ⟨c, hc, hx⟩ := h
  rcases updatePodsListStep_cases joins L k with
    ⟨_, hs⟩ | ⟨pre, e, post, hL, _, _, _, hs⟩ | ⟨pre, e, mid, e2, post, hL, _, _, _, _, hs⟩
  · rw [hs] at hc
    rcases List.mem_append.mp hc with h1 | h1
    · exact Or.inl ⟨c, h1, hx⟩
    · rw [List.mem_singleton] at h1
      subst h1
      exact Or.inr hx
  · rw [hs] at hc
    simp only [List.mem_append, List.mem_cons] at hc
    rw [hL]
    rcases hc with h1 | rfl | h1
    · exact Or.inl ⟨c, by simp [h1], hx⟩
    · rw [mem_Insert_iff, mem_List_iff] at hx
      rcases hx with hx | hx
      · exact Or.inl ⟨e, by simp, hx⟩
      · exact Or.inr hx
    · exact Or.inl ⟨c, by simp [h1], hx⟩
  · rw [hs] at hc
    simp only [List.mem_append, List.mem_cons] at hc
    rw [hL]
    rcases hc with h1 | rfl | h1 | rfl | h1
    · exact Or.inl ⟨c, by simp [h1], hx⟩
    · rw [mem_Insert_iff, mem_List_iff] at hx
      rcases hx with hx | hx
      · exact Or.inl ⟨e, by simp, hx⟩
      · exact Or.inr hx
    · exact Or.inl ⟨c, by simp [h1], hx⟩
    · exact Or.inl ⟨c, by simp, hx⟩
    · exact Or.inl ⟨c, by simp [h1], hx⟩

theorem updatePodsListLoop_names (joins : GoMap StringSet) (ks : List String) :
    ∀ (L : List StringSet) (x : String),
      (∃ c ∈ (updatePodsListLoop joins ks L).1, x ∈ c) →
      (∃ c ∈ L, x ∈ c) ∨ ∃ k ∈ ks, x ∈ (GoMap.get joins k).getD [] := by
  induction ks with
  | nil => intro L x h; exact Or.inl h
  | cons k ks ih =>
    intro L x h
    rw [updatePodsListLoop] at h
    rcases hstep : updatePodsListStep joins L k with ⟨L2, _ | err⟩
    · rw [hstep] at h
      rcases ih L2 x h with h1 | ⟨k', hk', hx⟩
      · have h2 : ∃ c ∈ (updatePodsListStep joins L k).1, x ∈ c := by rw [hstep]; exact h1
        rcases updatePodsListStep_names joins L k x h2 with h3 | h3
        · exact Or.inl h3
        · exact Or.inr ⟨k, List.mem_cons_self k ks, h3⟩
      · exact Or.inr ⟨k', List.mem_cons_of_mem k hk', hx⟩
    · rw [hstep] at h
      have h2 : ∃ c ∈ (updatePodsListStep joins L k).1, x ∈ c := by rw [hstep]; exact h
      rcases updatePodsListStep_names joins L k x h2 with h3 | h3
      · exact Or.inl h3
      · exact Or.inr ⟨k, List.mem_cons_self k ks, h3⟩

/-- C18. When every volumes-from target, as `updateVolumes` resolves it, is a
declared service, every name in every colocation set that `updatePodsList`
leaves is a declared service, and every configuration lookup of
`updateDeploymentConfigs` finds a configuration. For the project
`ghostTarget`, whose only service takes the volumes of the undeclared
`ghost`, the colocation set is `{a, ghost}` and the lookup for `ghost` finds
nothing. -/
theorem colocated_names_declared (p : Project)
    (hdecl : ∀ k v, GoMap.get p.Configs k = some v →
      ∀ t ∈ v.VolumesFrom.filterMap volumesFromTarget, ∃ v', GoMap.get p.Configs t = some v') :
    (∃ d, updateVolumes p (updateServiceOrder p {}) = some d ∧
      (∀ c ∈ (updatePodsList d).1.colocated, ∀ x ∈ c, ∃ v, GoMap.get p.Configs x = some v) ∧
      (∀ kv ∈ memberLookups p (updatePodsList d).1, ∃ v, kv.2 = some v)) ∧
    (∃ d, updateVolumes ghostTarget (updateServiceOrder ghostTarget {}) = some d ∧
      (updatePodsList d).2 = none ∧
      (updatePodsList d).1.colocated = [["a", "ghost"]] ∧
      GoMap.get ghostTarget.Configs "ghost" = none ∧
      ("ghost", none) ∈ memberLookups ghostTarget (updatePodsList d).1) := by
  constructor
  · obtain ⟨d, hrun, hdeclared, hother, hcol⟩ := updateVolumes_run p
    have hnames : ∀ c ∈ (updatePodsList d).1.colocated, ∀ x ∈ c,
        ∃ v, GoMap.get p.Configs x = some v := by
      intro c hc x hx
      have h := updatePodsListLoop_names d.joins (joinOrder d).List d.colocated x ⟨c, hc, hx⟩
      rw [hcol] at h
      rcases h with ⟨c', hc', _⟩ | ⟨k, _, hxk⟩
      · cases hc'
      · cases hk : GoMap.get p.Configs k with
        | none =>
          rw [hother k hk] at hxk
          cases hxk
        | some v =>
          rw [hdeclared k v hk, Option.getD_some, mem_Insert_iff, List.mem_singleton] at hxk
          rcases hxk with rfl | ht
          · exact ⟨v, hk⟩
          · exact hdecl k v hk x ht
    refine ⟨d, hrun, hnames, ?_⟩
    intro kv hkv
    simp only [memberLookups, List.mem_flatMap, List.mem_map] at hkv
    obtain ⟨pod, hpod, k, hk, rfl⟩ := hkv
    exact hnames pod hpod k ((mem_List_iff pod k).mp hk)
  · exact ⟨_, rfl, by decide, by decide, by decide, by decide⟩

/-- C18, at the end-to-end project: `worker` takes the volumes of `web`. -/
theorem colocated_names_declared_witness :
    ∃ d, updateVolumes webWorker (updateServiceOrder webWorker {}) = some d ∧
      (∀ c ∈ (updatePodsList d).1.colocated, ∀ x ∈ c,
        ∃ v, GoMap.get webWorker.Configs x = some v) ∧
      (∀ kv ∈ memberLookups webWorker (updatePodsList d).1, ∃ v, kv.2 = some v) :=
  (colocated_names_declared webWorker (by
    intro k v hk t ht
    simp only [webWorker, GoMap.get] at hk
    by_cases h1 : "web" = k
    · simp only [h1, if_true, Option.some.injEq] at hk
      subst hk
      simp [volumesFromTarget] at ht
    · simp only [h1, if_false] at hk
      by_cases h2 : "worker" = k
      · simp only [h2, if_true, Option.some.injEq] at hk
        subst hk
        have hweb : List.filterMap volumesFromTarget ["web"] = ["web"] := by decide
        simp only [hweb, List.mem_singleton] at ht
        subst ht
        exact ⟨{ Build := "./web", Ports := ["8080"] }, by decide⟩
      · simp [h2] at hk)).1


/-! ## The colocation sets as connected components -/

theorem Linked_symm (joins : GoMap StringSet) (x y : String) (h : Linked joins x y) :
    Linked joins y x := by
  have hsymm : Symmetric (Joined joins) := by
    rintro a b ⟨k, s, hs, h1 | h1⟩
    · exact ⟨k, s, hs, Or.inr h1⟩
    · exact ⟨k, s, hs, Or.inl h1⟩
  exact Relation.ReflTransGen.symmetric hsymm h

/-- The members of a join-set are linked to each other through its service. -/
theorem Linked_of_join_set (joins : GoMap StringSet) (k : String) (x y : String)
    (hx : x ∈ (GoMap.get joins k).getD []) (hy : y ∈ (GoMap.get joins k).getD []) :
    Linked joins x y := by
  cases hg : GoMap.get joins k with
  | none => rw [hg] at hx; cases hx
  | some s =>
    rw [hg] at hx hy
    have h1 : Joined joins x k := ⟨k, s, hg, Or.inr ⟨rfl, hx⟩⟩
    have h2 : Joined joins k y := ⟨k, s, hg, Or.inl ⟨rfl, hy⟩⟩
    exact (Relation.ReflTransGen.single h1).trans (Relation.ReflTransGen.single h2)

/-- A successful step: every set is contained in a set afterwards, so is the
join-set of the service, and sets whose members are linked stay so. -/
theorem updatePodsListStep_linked (joins : GoMap StringSet) (L L1 : List StringSet)
    (k : String) (h : updatePodsListStep joins L k = (L1, none)) :
    (∀ c ∈ L, ∃ c1 ∈ L1, ∀ x ∈ c, x ∈ c1) ∧
    (∃ c1 ∈ L1, ∀ x ∈ (GoMap.get joins k).getD [], x ∈ c1) ∧
    ((∀ c ∈ L, ∀ x ∈ c, ∀ y ∈ c, Linked joins x y) →
      ∀ c1 ∈ L1, ∀ x ∈ c1, ∀ y ∈ c1, Linked joins x y) := by
  rcases updatePodsListStep_cases joins L k with
    ⟨_, hs⟩ | ⟨pre, e, post, hL, _, he, _, hs⟩ | ⟨pre, e, mid, e2, post, _, _, _, _, _, hs⟩
  · rw [hs] at h
    have hL1 : L1 = L ++ [(GoMap.get joins k).getD []] := (Prod.mk.inj h).1.symm
    subst hL1
    refine ⟨fun c hc => ⟨c, List.mem_append_left _ hc, fun x hx => hx⟩,
      ⟨_, List.mem_append_right _ (List.mem_singleton.mpr rfl), fun x hx => hx⟩, ?_⟩
    intro hconn c1 hc1 x hx y hy
    rcases List.mem_append.mp hc1 with h1 | h1
    · exact hconn c1 h1 x hx y hy
    · rw [List.mem_singleton] at h1
      subst h1
      exact Linked_of_join_set joins k x y hx hy
  · rw [hs] at h
    have hL1 : L1 = pre ++ StringSet.Insert e (StringSet.List ((GoMap.get joins k).getD []))
        :: post := (Prod.mk.inj h).1.symm
    subst hL1
    subst hL
    have hmem : ∀ x, x ∈ StringSet.Insert e (StringSet.List ((GoMap.get joins k).getD [])) ↔
        x ∈ e ∨ x ∈ (GoMap.get joins k).getD [] := by
      intro x
      rw [mem_Insert_iff, mem_List_iff]
    refine ⟨?_, ⟨_, by simp, fun x hx => (hmem x).mpr (Or.inr hx)⟩, ?_⟩
    · intro c hc
      simp only [List.mem_append, List.mem_cons] at hc
      rcases hc with h1 | rfl | h1
      · exact ⟨c, by simp [h1], fun x hx => hx⟩
      · exact ⟨_, by simp, fun x hx => (hmem x).mpr (Or.inl hx)⟩
      · exact ⟨c, by simp [h1], fun x hx => hx⟩
    · intro hconn c1 hc1 x hx y hy
      simp only [List.mem_append, List.mem_cons] at hc1
      rcases hc1 with h1 | rfl | h1
      · exact hconn c1 (by simp [h1]) x hx y hy
      · obtain ⟨z, hzs, hze⟩ : ∃ z, z ∈ (GoMap.get joins k).getD [] ∧ z ∈ e := by
          by_contra hno
          exact he (fun a ha hae => hno ⟨a, ha, hae⟩)
        have hto : ∀ w, w ∈ StringSet.Insert e
            (StringSet.List ((GoMap.get joins k).getD [])) → Linked joins w z := by
          intro w hw
          rcases (hmem w).mp hw with h2 | h2
          · exact hconn e (by simp) w h2 z hze
          · exact Linked_of_join_set joins k w z h2 hzs
        exact (hto x hx).trans (Linked_symm joins y z (hto y hy))
      · exact hconn c1 (by simp [h1]) x hx y hy
  · rw [hs] at h
    exact absurd (Prod.mk.inj h).2 (by simp)

theorem updatePodsListLoop_linked (joins : GoMap StringSet) (ks : List String) :
    ∀ (L L1 : List StringSet), updatePodsListLoop joins ks L = (L1, none) →
      (∀ c ∈ L, ∃ c1 ∈ L1, ∀ x ∈ c, x ∈ c1) ∧
      (∀ k ∈ ks, ∃ c1 ∈ L1, ∀ x ∈ (GoMap.get joins k).getD [], x ∈ c1) ∧
      ((∀ c ∈ L, ∀ x ∈ c, ∀ y ∈ c, Linked joins x y) →
        ∀ c1 ∈ L1, ∀ x ∈ c1, ∀ y ∈ c1, Linked joins x y) := by
  induction ks with
  | nil =>
    intro L L1 h
    simp only [updatePodsListLoop] at h
    have hL : L1 = L := (Prod.mk.inj h).1.symm
    subst hL
    refine ⟨fun c hc => ⟨c, hc, fun x hx => hx⟩, ?_, fun h => h⟩
    intro k hk
    cases hk
  | cons k ks ih =>
    intro L L1 h
    rw [updatePodsListLoop] at h
    rcases hstep : updatePodsListStep joins L k with ⟨L2, _ | err⟩
    · rw [hstep] at h
      obtain ⟨ha1, hb1, hc1⟩ := updatePodsListStep_linked joins L L2 k hstep
      obtain ⟨ha2, hb2, hc2⟩ := ih L2 L1 h
      refine ⟨?_, ?_, fun hconn => hc2 (hc1 hconn)⟩
      · intro c hc
        obtain ⟨c2, hc2m, hsub⟩ := ha1 c hc
        obtain ⟨c1, hc1m, hsub2⟩ := ha2 c2 hc2m
        exact ⟨c1, hc1m, fun x hx => hsub2 x (hsub x hx)⟩
      · intro k' hk'
        rcases List.mem_cons.mp hk' with rfl | hmem
        · obtain ⟨c2, hc2m, hsub⟩ := hb1
          obtain ⟨c1, hc1m, hsub2⟩ := ha2 c2 hc2m
          exact ⟨c1, hc1m, fun x hx => hsub2 x (hsub x hx)⟩
        · exact hb2 k' hmem
    · rw [hstep] at h
      exact absurd (Prod.mk.inj h).2 (by simp)

/-- Two members of a pairwise disjoint list that share a name are the same. -/
theorem eq_of_common_member (L : List StringSet) (hp : L.Pairwise List.Disjoint)
    (c c' : StringSet) (hc : c ∈ L) (hc' : c' ∈ L) (x : String) (hx : x ∈ c) (hx' : x ∈ c') :
    c = c' := by
  obtain ⟨i, hi, rfl⟩ := List.mem_iff_getElem.mp hc
  obtain ⟨j, hj, rfl⟩ := List.mem_iff_getElem.mp hc'
  rcases Nat.lt_trichotomy i j with hlt | heq | hgt
  · exact absurd hx' (fun h => (List.pairwise_iff_getElem.mp hp i j hi hj hlt) hx h)
  · subst heq
    rfl
  · exact absurd hx (fun h => (List.pairwise_iff_getElem.mp hp j i hj hi hgt) hx' h)

/-- C17. When `updatePodsList`, started with no colocation set on join-sets
that each hold their own service, succeeds, the colocation sets are the
connected components of the join graph: the whole join-set of a service lies
in the set that holds the service, any two names of one set are linked by a
chain of join relations, and a name linked to a member of a set is in that
set. -/
theorem updatePodsList_components (data : TransformData)
    (hempty : data.colocated = [])
    (hself : ∀ k s, GoMap.get data.joins k = some s → k ∈ s)
    (hok : (updatePodsList data).2 = none) :
    (∀ k s, GoMap.get data.joins k = some s →
      ∃ c ∈ (updatePodsList data).1.colocated, k ∈ c ∧ ∀ x ∈ s, x ∈ c) ∧
    (∀ c ∈ (updatePodsList data).1.colocated, ∀ x ∈ c, ∀ y ∈ c, Linked data.joins x y) ∧
    (∀ c ∈ (updatePodsList data).1.colocated, ∀ x ∈ c, ∀ y, Linked data.joins x y → y ∈ c) := by
  have hloop : updatePodsListLoop data.joins (joinOrder data).List [] =
      ((updatePodsList data).1.colocated, none) := by
    have h2 : (updatePodsListLoop data.joins (joinOrder data).List data.colocated).2 = none := hok
    rw [hempty] at h2
    simp only [updatePodsList, hempty]
    exact Prod.ext rfl h2
  obtain ⟨_, hb, hc⟩ := updatePodsListLoop_linked data.joins _ [] _ hloop
  obtain ⟨hp, _⟩ := updatePodsListLoop_ok data.joins _ [] _ hloop
  have hpair := hp List.Pairwise.nil
  have hwhole : ∀ k s, GoMap.get data.joins k = some s →
      ∃ c ∈ (updatePodsList data).1.colocated, k ∈ c ∧ ∀ x ∈ s, x ∈ c := by
    intro k s hs
    obtain ⟨c, hcm, hsub⟩ := hb k ((mem_joinOrder_List data k).mpr ⟨s, hs⟩)
    rw [hs] at hsub
    exact ⟨c, hcm, hsub k (hself k s hs), hsub⟩
  refine ⟨hwhole, hc (fun c hcm => by cases hcm), ?_⟩
  intro c hcm x hx y hxy
  induction hxy with
  | refl => exact hx
  | tail _ hedge ih =>
    obtain ⟨k, s, hs, ⟨rfl, hy⟩ | ⟨rfl, hb'⟩⟩ := hedge
    · obtain ⟨c', hc', hk, hsub⟩ := hwhole _ s hs
      have heq := eq_of_common_member _ hpair c c' hcm hc' _ ih hk
      rw [heq]
      exact hsub _ hy
    · obtain ⟨c', hc', hk, hsub⟩ := hwhole _ s hs
      have heq := eq_of_common_member _ hpair c c' hcm hc' _ ih (hsub _ hb')
      rw [heq]
      exact hk

/-- C17, at the join-sets of `hubFirst`: `b` and `c` are linked through `a`. -/
theorem updatePodsList_components_witness :
    (updatePodsList hubFirst).1.colocated = [["a", "b", "c"]] ∧ Linked hubFirst.joins "b" "c" :=
  ⟨by decide, (updatePodsList_components hubFirst (by decide)
    (by
      intro k s h
      simp only [hubFirst, GoMap.get] at h
      by_cases h1 : "a" = k
      · simp only [h1, if_true, Option.some.injEq] at h
        subst h
        simp [← h1]
      · simp only [h1, if_false] at h
        by_cases h2 : "b" = k
        · simp only [h2, if_true, Option.some.injEq] at h
          subst h
          simp [← h2]
        · simp only [h2, if_false] at h
          by_cases h3 : "c" = k
          · simp only [h3, if_true, Option.some.injEq] at h
            subst h
            simp [← h3]
          · simp [h3] at h)
    (by decide)).2.1 ["a", "b", "c"] (by decide) "b" (by decide) "c" (by decide)⟩


/-! ## Volume declarations -/

/-- The body of the loop over `v.Volumes`, by key and path. -/
theorem mountPointsStep_eq (mountPoints : GoMap (List String)) (s : String) :
    mountPointsStep mountPoints s =
      some (GoMap.set mountPoints (declSource s)
        ((GoMap.get mountPoints (declSource s)).getD [] ++ [declPath s])) := by
  unfold mountPointsStep declSource declPath
  rcases hs : SplitN s ':' 3 with _ | ⟨p0, _ | ⟨p1, rest⟩⟩
  · exfalso
    simp only [SplitN, List.map_eq_nil_iff] at hs
    exact splitNChars_three_ne_nil ':' s.data hs
  · rfl
  · rfl

theorem map_fst_set_of_some {β : Type} (m : GoMap β) (k : String) (v v0 : β)
    (h : GoMap.get m k = some v0) : (GoMap.set m k v).map Prod.fst = m.map Prod.fst := by
  induction m with
  | nil => simp [GoMap.get] at h
  | cons kv rest ih =>
    obtain ⟨k', v'⟩ := kv
    by_cases hk : k' = k
    · simp [GoMap.set, hk]
    · simp only [GoMap.get, hk, if_false] at h
      simp [GoMap.set, hk, ih h]

/-- The table `mountPoints` after the loop over the declarations: its keys
stay distinct, each key holds the paths of its declarations in order, and
the keys are the old ones and the keys of the declarations. -/
theorem mountPoints_fold (decls : List String) :
    ∀ m0 : GoMap (List String), (m0.map Prod.fst).Nodup →
      ∃ m, decls.foldlM mountPointsStep m0 = some m ∧ (m.map Prod.fst).Nodup ∧
        (∀ k, (GoMap.get m k).getD [] =
          (GoMap.get m0 k).getD [] ++
            (decls.filter (fun s => decide (declSource s = k))).map declPath) ∧
        (∀ k, k ∈ m.map Prod.fst ↔ k ∈ m0.map Prod.fst ∨ ∃ s ∈ decls, declSource s = k) := by
  induction decls with
  | nil => intro m0 hnd; exact ⟨m0, rfl, hnd, fun k => by simp, fun k => by simp⟩
  | cons s rest ih =>
    intro m0 hnd
    have hnd1 : ((GoMap.set m0 (declSource s)
        ((GoMap.get m0 (declSource s)).getD [] ++ [declPath s])).map Prod.fst).Nodup ∧
        ∀ k, k ∈ (GoMap.set m0 (declSource s)
          ((GoMap.get m0 (declSource s)).getD [] ++ [declPath s])).map Prod.fst ↔
          k ∈ m0.map Prod.fst ∨ declSource s = k := by
      cases hg : GoMap.get m0 (declSource s) with
      | none =>
        rw [set_of_get_none _ _ _ hg, List.map_append]
        have hnot := (get_eq_none_iff m0 (declSource s)).mp hg
        constructor
        · rw [List.nodup_append]
          refine ⟨hnd, by simp, ?_⟩
          intro a ha hb
          simp only [List.map_cons, List.map_nil, List.mem_singleton] at hb
          exact hnot (hb ▸ ha)
        · intro k
          simp only [List.mem_append, List.map_cons, List.map_nil, List.mem_singleton]
          constructor
          · rintro (h | h)
            · exact Or.inl h
            · exact Or.inr h.symm
          · rintro (h | h)
            · exact Or.inl h
            · exact Or.inr h.symm
      | some v0 =>
        rw [map_fst_set_of_some _ _ _ v0 hg]
        refine ⟨hnd, fun k => ⟨Or.inl, ?_⟩⟩
        rintro (h | h)
        · exact h
        · subst h
          exact List.mem_map.mpr ⟨_, mem_of_get _ _ _ hg, rfl⟩
    obtain ⟨m, hrun, hndm, hget, hkeys⟩ := ih _ hnd1.1
    refine ⟨m, ?_, hndm, ?_, ?_⟩
    · rw [List.foldlM_cons, mountPointsStep_eq]
      exact hrun
    · intro k
      rw [hget k]
      by_cases hk : declSource s = k
      · subst hk
        rw [get_set_self]
        simp
      · rw [get_set_of_ne _ _ _ _ hk]
        simp [hk]
    · intro k
      rw [hkeys k, hnd1.2 k]
      simp only [List.mem_cons, exists_eq_or_imp]
      exact or_assoc

/-- Grouping a list by a key and going through the groups in any order that
holds every key once gives the list back up to order. -/
theorem flatMap_groups_perm {α : Type} (f : α → String) (order : List String) :
    ∀ l : List α, order.Nodup → (∀ a ∈ l, f a ∈ order) →
      (order.flatMap (fun k => l.filter (fun a => decide (f a = k)))).Perm l := by
  induction order with
  | nil =>
    intro l _ hall
    cases l with
    | nil => exact List.Perm.refl _
    | cons a l => exact absurd (hall a (List.mem_cons_self a l)) (List.not_mem_nil _)
  | cons k rest ih =>
    intro l hnd hall
    obtain ⟨hk, hnd'⟩ := List.nodup_cons.mp hnd
    rw [List.flatMap_cons]
    have hrest : rest.flatMap (fun k' => l.filter (fun a => decide (f a = k'))) =
        rest.flatMap (fun k' =>
          (l.filter (fun a => !decide (f a = k))).filter (fun a => decide (f a = k'))) := by
      apply flatMap_congr_mem
      intro k' hk'
      rw [List.filter_filter]
      apply List.filter_congr
      intro a _
      by_cases h1 : f a = k'
      · have h2 : k' ≠ k := fun e => hk (e ▸ hk')
        simp [h1, h2]
      · simp [h1]
    rw [hrest]
    have hih := ih (l.filter (fun a => !decide (f a = k))) hnd' (by
      intro a ha
      rw [List.mem_filter] at ha
      have hne : f a ≠ k := by simpa using ha.2
      rcases List.mem_cons.mp (hall a ha.1) with h | h
      · exact absurd h hne
      · exact h)
    exact (List.Perm.append_left _ hih).trans
      (List.filter_append_perm (fun a => decide (f a = k)) l)


theorem splitNChars_three_of_not_mem (sep : Char) (l : List Char) (h : sep ∉ l) :
    splitNChars sep 3 l = [l] := by
  induction l with
  | nil => rfl
  | cons c cs ih =>
    have hc : c ≠ sep := fun e => h (e ▸ List.mem_cons_self c cs)
    simp [splitNChars, hc, ih (fun hm => h (List.mem_cons_of_mem c hm))]

theorem splitNChars_three_append (sep : Char) (a rest : List Char) (h : sep ∉ a) :
    splitNChars sep 3 (a ++ sep :: rest) = a :: splitNChars sep 2 rest := by
  induction a with
  | nil => simp [splitNChars]
  | cons c cs ih =>
    have hc : c ≠ sep := fun e => h (e ▸ List.mem_cons_self c cs)
    simp [splitNChars, hc, ih (fun hm => h (List.mem_cons_of_mem c hm))]

/-- The key and the path of a volume declaration, by its form. -/
theorem decl_forms :
    (∀ s : String, ':' ∉ s.data → declSource s = "" ∧ declPath s = s) ∧
    (∀ a b : String, ':' ∉ a.data → ':' ∉ b.data →
      declSource (a ++ ":" ++ b) = a ∧ declPath (a ++ ":" ++ b) = b) ∧
    (∀ a b mode : String, ':' ∉ a.data → ':' ∉ b.data →
      declSource (a ++ ":" ++ b ++ ":" ++ mode) = a ∧
      declPath (a ++ ":" ++ b ++ ":" ++ mode) = b) := by
  refine ⟨?_, ?_, ?_⟩
  · intro s hs
    have h : SplitN s ':' 3 = [s] := by
      simp [SplitN, splitNChars_three_of_not_mem ':' s.data hs]
    simp [declSource, declPath, h]
  · intro a b ha hb
    have hd : (a ++ ":" ++ b).data = a.data ++ ':' :: b.data := by
      simp [String.data_append]
    have h : SplitN (a ++ ":" ++ b) ':' 3 = [a, b] := by
      simp [SplitN, hd, splitNChars_three_append ':' a.data b.data ha,
        splitNChars_two_of_not_mem ':' b.data hb]
    simp [declSource, declPath, h]
  · intro a b mode ha hb
    have hd : (a ++ ":" ++ b ++ ":" ++ mode).data =
        a.data ++ ':' :: (b.data ++ ':' :: mode.data) := by
      simp [String.data_append]
    have h : SplitN (a ++ ":" ++ b ++ ":" ++ mode) ':' 3 = [a, b, mode] := by
      simp [SplitN, hd, splitNChars_three_append ':' a.data _ ha,
        splitNChars_two_append ':' b.data mode.data hb]
    simp [declSource, declPath, h]

/-- C13, as the code has it. On a well-formed table, with `order` going once
through the keys of `mountPoints`, the callback returns and appends exactly
one mount per volume declaration (the mounts appended are, up to their
order, the mounts of the declarations). A declaration `SOURCE:TARGET` or
`SOURCE:TARGET:MODE` gives a mount at `TARGET` under the name of `SOURCE`; a
declaration of one segment gives a mount at that segment as path, under the
name of the empty source, which all such declarations share. -/
theorem ContainerFn_volume_mounts (ParseIP : String → Option (List Nat))
    (ParseEnvironment : List String → List EnvVar) (v : ServiceConfig)
    (order : List String) (cm0 : GoMap String) (c : Container)
    (hok : TableOk cm0) (horder : order.Perm (GoMap.keys (mountPointsOf v))) :
    (∃ (c1 : Container) (cm1 : GoMap String) (added : List VolumeMount),
      ContainerFn ParseIP ParseEnvironment v order cm0 c = some (c1, cm1) ∧
      c1.VolumeMounts = c.VolumeMounts ++ added ∧
      added.Perm (v.Volumes.map (declMount cm1)) ∧
      added.length = v.Volumes.length ∧
      (∀ s ∈ v.Volumes, ∃ name, GoMap.get cm1 (declSource s) = some name ∧
        declMount cm1 s = { Name := name, MountPath := declPath s })) ∧
    (∀ s : String, ':' ∉ s.data → declSource s = "" ∧ declPath s = s) ∧
    (∀ a b : String, ':' ∉ a.data → ':' ∉ b.data →
      declSource (a ++ ":" ++ b) = a ∧ declPath (a ++ ":" ++ b) = b) ∧
    (∀ a b mode : String, ':' ∉ a.data → ':' ∉ b.data →
      declSource (a ++ ":" ++ b ++ ":" ++ mode) = a ∧
      declPath (a ++ ":" ++ b ++ ":" ++ mode) = b) := by
  refine ⟨?_, decl_forms⟩
  obtain ⟨c1, cm1, hrun, _, _, hkeys, hm⟩ :=
    ContainerFn_mounts ParseIP ParseEnvironment v order cm0 c hok
  obtain ⟨m, hfold, hndm, hget, hmk⟩ := mountPoints_fold v.Volumes [] List.nodup_nil
  have hmp : mountPointsOf v = m := by simp [mountPointsOf, hfold]
  have hnd : order.Nodup := horder.nodup_iff.mpr (List.nodup_dedup _)
  have hin : ∀ s ∈ v.Volumes, declSource s ∈ order := by
    intro s hs
    rw [horder.mem_iff, hmp, GoMap.keys, List.mem_dedup, hmk]
    exact Or.inr ⟨s, hs, rfl⟩
  have hadded : order.flatMap (fun src =>
      (((mountPointsOf v).get src).getD []).map (fun path =>
        ({ Name := (GoMap.get cm1 src).getD "", MountPath := path } : VolumeMount))) =
      (order.flatMap (fun k => v.Volumes.filter (fun s => decide (declSource s = k)))).map
        (declMount cm1) := by
    rw [List.map_flatMap]
    apply flatMap_congr_mem
    intro src _
    rw [hmp, hget src]
    simp only [GoMap.get, Option.getD_none, List.nil_append, List.map_map]
    apply List.map_congr_left
    intro s hs
    rw [List.mem_filter] at hs
    have hsrc : declSource s = src := by simpa using hs.2
    simp [declMount, hsrc]
  have hperm := (flatMap_groups_perm declSource order v.Volumes hnd hin).map (declMount cm1)
  refine ⟨c1, cm1, _, hrun, hm, ?_, ?_, ?_⟩
  · rw [hadded]
    exact hperm
  · rw [hadded, hperm.length_eq, List.length_map]
  · intro s hs
    obtain ⟨name, hname⟩ := (hkeys (declSource s)).mpr (Or.inr (hin s hs))
    exact ⟨name, hname, by simp [declMount, hname]⟩

/-- C13, at the declarations `/data`, `/src:/app:ro` and `/tmp`. -/
theorem ContainerFn_volume_mounts_witness :
    ∃ (c1 : Container) (cm1 : GoMap String) (added : List VolumeMount),
      ContainerFn dottedQuad keyValueEnvironment
          { Volumes := ["/data", "/src:/app:ro", "/tmp"] } ["", "/src"] [] {}
        = some (c1, cm1) ∧
      c1.VolumeMounts = ({} : Container).VolumeMounts ++ added ∧
      added.Perm (["/data", "/src:/app:ro", "/tmp"].map (declMount cm1)) ∧
      added.length = 3 :=
  match (ContainerFn_volume_mounts dottedQuad keyValueEnvironment
      { Volumes := ["/data", "/src:/app:ro", "/tmp"] } ["", "/src"] [] {}
      TableOk_nil (by decide)).1 with
  | ⟨c1, cm1, added, h1, h2, h3, h4, _⟩ => ⟨c1, cm1, added, h1, h2, h3, h4⟩

/-- C13 as stated fails: for the declarations `/src` and `/src:/app` the
source `/src` gets the name `dir-2`, but the mount of the one-segment
declaration `/src` is placed under `dir-1`, the name of the empty source. -/
theorem one_segment_mount_under_empty_source :
    (ContainerFn dottedQuad keyValueEnvironment { Volumes := ["/src", "/src:/app"] }
        ["", "/src"] [] {}).map (fun r => (r.1.VolumeMounts, r.2)) =
      some ([{ Name := "dir-1", MountPath := "/src" }, { Name := "dir-2", MountPath := "/app" }],
        [("", "dir-1"), ("/src", "dir-2")]) ∧
    (["", "/src"] : List String).Perm
      (GoMap.keys (mountPointsOf { Volumes := ["/src", "/src:/app"] })) := by
  decide

end Henge
